import Mathlib

/-!
# celestia-indexer: block ingestion and persistence

A shallow embedding of three functions of the indexer:

* `decodeAuthInfo` / `Tx` of `pkg/indexer/decode/tx.go`,
* `Module.saveValidators` of `pkg/indexer/storage/validators.go`,
* `Module.save` of `pkg/indexer/genesis/save.go`.

Calls that leave the repository (the protobuf codec, the storage transaction) are
parameters of the model: a record of functions that answer each call.  Storage
calls are recorded, with their answer, in a trace.
-/

namespace Indexer

/-- Go errors are modelled by their message. -/
abbrev Error := String

/-- Function `errors.Wrap(e, msg)`. -/
def Wrap (e : Error) (msg : String) : Error := msg ++ ": " ++ e

/-- Raw bytes. -/
abbrev Bytes := List Nat

/-- Value `decimal.Decimal` of shopspring: the number `value * 10 ^ exp`, with an integer
coefficient of any size. -/
structure Decimal where
  value : Int
  exp : Int
  deriving DecidableEq, Repr

/-- The zero value `decimal.Decimal{}`, also `decimal.Zero`. -/
def Decimal.zero : Decimal := ⟨0, 0⟩

/-- Constructor `decimal.NewFromBigInt(value, exp)`. -/
def Decimal.NewFromBigInt (value : Int) (exp : Int) : Decimal := ⟨value, exp⟩

/-- Method `IsPositive`: the sign of the coefficient is 1. -/
def Decimal.IsPositive (d : Decimal) : Bool := decide (0 < d.value)

/-- The rational number a decimal denotes. -/
def Decimal.toRat (d : Decimal) : ℚ := (d.value : ℚ) * (10 : ℚ) ^ d.exp

/-! ## `pkg/indexer/decode/tx.go` -/

namespace decode

/-- Value `cosmosTypes.Coin`: a denomination and an integer amount. -/
structure Coin where
  Denom : String
  Amount : Int
  deriving DecidableEq, Repr

/-- Value `tx.Fee`; only the amount list is read by the decoder, the other fields are carried
along. -/
structure Fee where
  Amount : List Coin
  GasLimit : Nat
  Payer : String
  Granter : String
  deriving DecidableEq, Repr

/-- Value `tx.AuthInfo`; `Fee` is a pointer that may be nil. -/
structure AuthInfo where
  SignerInfos : List Bytes
  Fee : Option Fee
  deriving DecidableEq, Repr

/-- The zero value `tx.AuthInfo{}`. -/
def AuthInfo.zero : AuthInfo := ⟨[], none⟩

/-- Getter `GetFee().GetAmount()`: both getters are nil-safe, a nil fee has no amount. -/
def AuthInfo.GetAmount (a : AuthInfo) : List Coin :=
  match a.Fee with
  | some f => f.Amount
  | none => []

/-- Value `tx.TxRaw`. -/
structure TxRaw where
  BodyBytes : Bytes
  AuthInfoBytes : Bytes
  Signatures : List Bytes
  deriving DecidableEq, Repr

/-- Method `Coins.Find` of the cosmos-sdk on the lists `decodeAuthInfo` hands to it, which have at
most one coin: no coin is found in an empty list, and the single coin of a one-element list is
found when its denomination is the one asked for.  Longer lists (searched by bisection in the
library) never reach the call and are searched from the left here. -/
def Find (coins : List Coin) (denom : String) : Bool × Coin :=
  match coins with
  | [] => (false, ⟨"", 0⟩)
  | [coin] => if coin.Denom = denom then (true, coin) else (false, ⟨"", 0⟩)
  | coin :: rest => if coin.Denom = denom then (true, coin) else Find rest denom

/-- What a decoded cosmos transaction offers to `decodeCosmosTx`: the timeout height and the memo
when the transaction implements the optional interfaces, and its messages. -/
structure CosmosTx where
  timeoutHeight : Option Nat
  memo : Option String
  msgs : List Bytes
  deriving DecidableEq, Repr

/-- The codec `encoding.Config` and the transaction decoder made by `createDecoder`, and the blob
envelope test of tendermint: library code, taken as parameters. -/
structure Config where
  UnmarshalTxRaw : Bytes → Except Error TxRaw
  UnmarshalAuthInfo : Bytes → Except Error AuthInfo
  TxDecoder : Bytes → Except Error CosmosTx
  UnmarshalBlobTx : Bytes → Option Bytes

/-- Function `decodeAuthInfo`; the last component is the Go error, `none` for nil. -/
def decodeAuthInfo (cfg : Config) (raw : Bytes) : AuthInfo × Decimal × Option Error :=
  match cfg.UnmarshalTxRaw raw with
  | .error e => (AuthInfo.zero, Decimal.zero, some (Wrap e "unmarshaling tx error"))
  | .ok txRaw =>
    match cfg.UnmarshalAuthInfo txRaw.AuthInfoBytes with
    | .error e => (AuthInfo.zero, Decimal.zero, some (Wrap e "decoding tx auth_info error"))
    | .ok authInfo =>
      let amount := authInfo.GetAmount
      if amount.length > 1 then
        (AuthInfo.zero, Decimal.zero,
          some ("found fee in " ++ toString amount.length ++ " currencies"))
      else
        let found := Find amount "utia"
        if !found.1 then
          (AuthInfo.zero, Decimal.zero, some "while getting fee amount in utia")
        else
          let fee := Decimal.NewFromBigInt found.2.Amount 0
          (authInfo, fee, none)

/-- Result record `DecodedTx`. -/
structure DecodedTx where
  AuthInfo : AuthInfo
  TimeoutHeight : Nat
  Memo : String
  Messages : List Bytes
  Fee : Decimal
  deriving DecidableEq, Repr

/-- Function `decodeCosmosTx`: timeout height, memo, messages, error. -/
def decodeCosmosTx (cfg : Config) (raw : Bytes) : Nat × String × List Bytes × Option Error :=
  match cfg.TxDecoder raw with
  | .error e => (0, "", [], some (Wrap e "decoding tx error"))
  | .ok txDecoded =>
    (txDecoded.timeoutHeight.getD 0, txDecoded.memo.getD "", txDecoded.msgs, none)

/-- The raw bytes `Tx` decodes: the inner transaction when the bytes are a blob envelope, else
the bytes themselves. -/
def unwrapBlobTx (cfg : Config) (raw : Bytes) : Bytes :=
  match cfg.UnmarshalBlobTx raw with
  | some inner => inner
  | none => raw

/-- Function `Tx` on the raw transactions `b.Block.Txs` of a block; `none` is the panic of an
index out of range. -/
def Tx (cfg : Config) (txs : List Bytes) (index : Nat) : Option (DecodedTx × Option Error) :=
  match txs[index]? with
  | none => none
  | some raw0 =>
    let raw := unwrapBlobTx cfg raw0
    let r := decodeAuthInfo cfg raw
    match r.2.2 with
    | some e => some (⟨r.1, 0, "", [], r.2.1⟩, some e)
    | none =>
      let c := decodeCosmosTx cfg raw
      some (⟨r.1, c.1, c.2.1, c.2.2.1, r.2.1⟩, c.2.2.2)

end decode

/-! ## `pkg/indexer/storage/validators.go` -/

namespace storage

/-- Entity `storage.Validator`, with the fields `saveValidators` reads or writes. -/
structure Validator where
  Id : Nat
  Address : String
  ConsAddress : String
  deriving DecidableEq, Repr

/-- Entity `storage.Jail`; `Validator` is the validator record the jail refers to. -/
structure Jail where
  Height : Nat
  ValidatorId : Nat
  Reason : String
  Validator : Validator
  deriving DecidableEq, Repr

/-- Entity `storage.Balance`, the balance update staged for one delegator. -/
structure Balance where
  Id : Nat
  Delegated : Decimal
  deriving DecidableEq, Repr

/-- A Go `map[string]uint64`. -/
abbrev Index := String → Option Nat

/-- Assignment `m[k] = v`. -/
def Index.set (m : Index) (k : String) (v : Nat) : Index :=
  fun k' => if k' = k then some v else m k'

/-- The fields of `Module` that `saveValidators` uses. -/
structure Module where
  validatorsByConsAddress : Index
  validatorsByAddress : Index
  slashingForDoubleSign : Decimal
  slashingForDowntime : Decimal

/-- A call of the storage transaction, with its arguments. -/
inductive Call where
  | Jail (validators : List Validator)
  | UpdateSlashedDelegations (validatorId : Nat) (fraction : Decimal)
  | SaveBalances (balances : List Balance)
  | SaveJails (jails : List Jail)
  | SaveValidators (validators : List Validator)
  deriving DecidableEq, Repr

/-- What a call answered: an error (`none` for nil), and the balances of
`UpdateSlashedDelegations` or the identities and the count of `SaveValidators`. -/
inductive Answer where
  | done (err : Option Error)
  | balances (updates : List Balance) (err : Option Error)
  | written (ids : List Nat) (count : Int) (err : Option Error)
  deriving DecidableEq, Repr

/-- The error of an answer. -/
def Answer.err : Answer → Option Error
  | .done err => err
  | .balances _ err => err
  | .written _ _ err => err

/-- A trace entry: a call and its answer. -/
structure Entry where
  call : Call
  answer : Answer
  deriving DecidableEq, Repr

/-- The methods of `storage.Transaction` that `saveValidators` calls, over a store of type `σ`.
`SaveValidators` answers the identities it gives to the validators it receives, in their order,
the count of rows written and the error. -/
structure Transaction (σ : Type) where
  Jail : σ → List Validator → σ × Option Error
  UpdateSlashedDelegations : σ → Nat → Decimal → σ × List Balance × Option Error
  SaveBalances : σ → List Balance → σ × Option Error
  SaveJails : σ → List storage.Jail → σ × Option Error
  SaveValidators : σ → List Validator → σ × List Nat × Int × Option Error

/-- The handler given to `jailed.Range` (lines 24-32), run over the entries of `jailed` in the
order `Range` visits them; `Range` stops at the first error and returns it. -/
def rangeJailed (index : Index) :
    List (String × Validator) → List Validator → List Validator × Option Error
  | [], jailedVals => (jailedVals, none)
  | (address, val) :: rest, jailedVals =>
    match index address with
    | some id => rangeJailed index rest (jailedVals ++ [{ val with Id := id }])
    | none => (jailedVals, some ("unknown jailed validator: " ++ address))

/-- Lines 44-46: the jail takes the identity the index has for the consensus address of its
validator, and keeps its own when the index has none. -/
def resolveJail (index : Index) (jail : Jail) : Jail :=
  match index jail.Validator.ConsAddress with
  | some id => { jail with ValidatorId := id }
  | none => jail

/-- Lines 48-54: the slashing fraction of a jail reason. -/
def slashingFraction (module : Module) (reason : String) : Decimal :=
  if reason = "double_sign" then module.slashingForDoubleSign
  else if reason = "missing_signature" then module.slashingForDowntime
  else Decimal.zero

/-- The loop over `jails` (lines 43-66): the store, the calls made, the jails as the loop leaves
them, and the error that ended the loop early. -/
def jailsLoop {σ : Type} (tx : Transaction σ) (module : Module) :
    σ → List Jail → σ × List Entry × List Jail × Option Error
  | s, [] => (s, [], [], none)
  | s, jail :: rest =>
    let jail := resolveJail module.validatorsByConsAddress jail
    let fraction := slashingFraction module jail.Reason
    if !fraction.IsPositive then
      let r := jailsLoop tx module s rest
      (r.1, r.2.1, jail :: r.2.2.1, r.2.2.2)
    else
      let u := tx.UpdateSlashedDelegations s jail.ValidatorId fraction
      let update : Entry :=
        ⟨.UpdateSlashedDelegations jail.ValidatorId fraction, .balances u.2.1 u.2.2⟩
      match u.2.2 with
      | some err => (u.1, [update], jail :: rest, some err)
      | none =>
        let b := tx.SaveBalances u.1 u.2.1
        let balances : Entry := ⟨.SaveBalances u.2.1, .done b.2⟩
        match b.2 with
        | some err => (b.1, [update, balances], jail :: rest, some err)
        | none =>
          let r := jailsLoop tx module b.1 rest
          (r.1, update :: balances :: r.2.1, jail :: r.2.2.1, r.2.2.2)

/-- Identities stored through a list of pointers, position by position. -/
def storeIds : List Validator → List Nat → List Validator
  | v :: vs, id :: ids => { v with Id := id } :: storeIds vs ids
  | vs, _ => vs

/-- The loop over `validators` (lines 86-92). -/
def indexLoop (module : Module) : List Validator → Module
  | [] => module
  | v :: rest =>
    if v.ConsAddress = "" then indexLoop module rest
    else
      indexLoop
        { module with
          validatorsByConsAddress := module.validatorsByConsAddress.set v.ConsAddress v.Id
          validatorsByAddress := module.validatorsByAddress.set v.Address v.Id } rest

/-- What a call of `saveValidators` leaves: the two return values, the module, the storage calls
it made, and the store. -/
structure Outcome (σ : Type) where
  count : Int
  err : Option Error
  module : Module
  trace : List Entry
  store : σ

/-- Lines 22-40, the jailed validators: the store, the calls made and the error that makes
`saveValidators` return. -/
def jailedStep {σ : Type} (tx : Transaction σ) (module : Module) (s : σ)
    (jailed : List (String × Validator)) : σ × List Entry × Option Error :=
  if jailed.length > 0 then
    let r := rangeJailed module.validatorsByConsAddress jailed []
    match r.2 with
    | some err => (s, [], some err)
    | none =>
      let j := tx.Jail s r.1
      (j.1, [⟨.Jail r.1, .done j.2⟩], j.2)
  else (s, [], none)

/-- Lines 42-71, the jail events. -/
def jailsStep {σ : Type} (tx : Transaction σ) (module : Module) (s : σ) (jails : List Jail) :
    σ × List Entry × Option Error :=
  if jails.length > 0 then
    let r := jailsLoop tx module s jails
    match r.2.2.2 with
    | some err => (r.1, r.2.1, some err)
    | none =>
      let j := tx.SaveJails r.1 r.2.2.1
      (j.1, r.2.1 ++ [⟨.SaveJails r.2.2.1, .done j.2⟩], j.2)
  else (s, [], none)

/-- Lines 73-94, the validators, after the calls of `log`.  An identity that `SaveValidators`
answers is stored in its validator before the index is updated. -/
def validatorsStep {σ : Type} (tx : Transaction σ) (module : Module) (s : σ) (log : List Entry)
    (validators : List Validator) : Outcome σ :=
  if validators.length = 0 then ⟨0, none, module, log, s⟩
  else
    let r := tx.SaveValidators s validators
    let trace := log ++ [⟨.SaveValidators validators, .written r.2.1 r.2.2.1 r.2.2.2⟩]
    match r.2.2.2 with
    | some err => ⟨0, some (Wrap err "saving validators"), module, trace, r.1⟩
    | none =>
      if r.2.2.1 = 0 then ⟨0, none, module, trace, r.1⟩
      else ⟨r.2.2.1, none, indexLoop module (storeIds validators r.2.1), trace, r.1⟩

/-- Method `Module.saveValidators`.  `jailed` lists the entries of the map in the order `Range`
visits them. -/
def saveValidators {σ : Type} (tx : Transaction σ) (module : Module) (s : σ)
    (validators : List Validator) (jailed : List (String × Validator)) (jails : List Jail) :
    Outcome σ :=
  let a := jailedStep tx module s jailed
  match a.2.2 with
  | some err => ⟨0, some err, module, a.2.1, a.1⟩
  | none =>
    let b := jailsStep tx module a.1 jails
    match b.2.2 with
    | some err => ⟨0, some err, module, a.2.1 ++ b.2.1, b.1⟩
    | none => validatorsStep tx module b.1 (a.2.1 ++ b.2.1) validators

end storage

/-! ## `pkg/indexer/genesis/save.go` -/

namespace genesis

/-- Entity `storage.Address`. -/
structure Address where
  Id : Nat
  Height : Nat
  Hash : Bytes
  Balance : Decimal
  deriving DecidableEq, Repr

/-- Value `storage.AddressWithType`: an address, embedded by value, and the role it has in the
transaction (field `Type` of the source). -/
structure AddressWithType where
  Address : Address
  AddrType : String
  deriving DecidableEq, Repr

/-- Entity `storage.Namespace`. -/
structure Namespace where
  Id : Nat
  Version : Nat
  NamespaceID : Bytes
  Size : Nat
  PfbCount : Nat
  deriving DecidableEq, Repr

/-- Entity `storage.Message`; `Namespace` is a slice of values. -/
structure Message where
  Id : Nat
  Height : Nat
  Time : Nat
  Position : Nat
  TxId : Nat
  Namespace : List Namespace
  deriving DecidableEq, Repr

/-- Entity `storage.Event`; `TxId` is a pointer, nil for an event of the block. -/
structure Event where
  Id : Nat
  Height : Nat
  Position : Nat
  TxId : Option Nat
  deriving DecidableEq, Repr

/-- Entity `storage.Tx`. -/
structure Tx where
  Id : Nat
  Height : Nat
  Position : Nat
  Messages : List Message
  Events : List Event
  Addresses : List AddressWithType
  deriving DecidableEq, Repr

/-- Entity `storage.BlockStats`. -/
structure BlockStats where
  TxCount : Nat
  SupplyChange : Decimal
  Fee : Decimal
  BlobsSize : Nat
  deriving DecidableEq, Repr

/-- Entity `storage.Block`. -/
structure Block where
  Id : Nat
  Height : Nat
  Time : Nat
  Hash : Bytes
  ChainId : String
  Stats : BlockStats
  Txs : List Tx
  Events : List Event
  deriving DecidableEq, Repr

/-- Entity `storage.State`, with the fields `save` sets. -/
structure State where
  Name : String
  LastHeight : Nat
  LastTime : Nat
  LastHash : Bytes
  ChainId : String
  TotalTx : Nat
  TotalSupply : Decimal
  TotalFee : Decimal
  TotalBlobsSize : Nat
  deriving DecidableEq, Repr

/-- Entity `storage.NamespaceMessage`. -/
structure NamespaceMessage where
  MsgId : Nat
  NamespaceId : Nat
  Time : Nat
  Height : Nat
  TxId : Nat
  deriving DecidableEq, Repr

/-- Entity `storage.TxAddress`. -/
structure TxAddress where
  TxId : Nat
  AddressId : Nat
  AddrType : String
  deriving DecidableEq, Repr

/-- Modelled from the spec: the `String` methods of `Address` and `Namespace`, which give the keys
of the two dedup maps, are not among the sources.  The spec identifies an address by its raw hash
and a namespace by the pair of its id bytes and version, and keys the maps by strings made of
these; how the strings are formatted is left open here. -/
structure Stringers where
  address : Bytes → String
  ns : Nat → Bytes → String

/-- Method `Address.String`, also reached through `AddressWithType`. -/
def Address.String (F : Stringers) (a : Address) : String := F.address a.Hash

/-- Method `Namespace.String`. -/
def Namespace.String (F : Stringers) (n : Namespace) : String := F.ns n.Version n.NamespaceID

/-- The pointer `&data.block.Txs[tx].Messages[msg].Namespace[ns]`. -/
structure NsPtr where
  tx : Nat
  msg : Nat
  ns : Nat
  deriving DecidableEq, Repr

/-- A pointer to an address: `&data.block.Txs[tx].Addresses[addr].Address`, or the entity number
`n` that `data.addresses` held when `save` was called. -/
inductive AddrPtr where
  | inTx (tx addr : Nat)
  | parsed (n : Nat)
  deriving DecidableEq, Repr

/-- A Go map with string keys, as the list of its entries in the order they were inserted. -/
abbrev StrMap (α : Type) := List (String × α)

/-- The test `_, ok := m[key]`. -/
def StrMap.contains {α : Type} (m : StrMap α) (key : String) : Bool :=
  m.any fun e => e.1 = key

/-- The order in which `for key := range m` visits a map is not specified by Go: it is some
rearrangement of the entries. -/
structure RangeOrder where
  apply : {α : Type} → List (String × α) → List (String × α)
  perm : ∀ {α : Type} (m : List (String × α)), (apply m).Perm m

/-- Value `parsedData`: the block, and the map `addresses` as the parser left it, whose entities
live outside the block. -/
structure parsedData where
  block : Block
  addresses : StrMap Address

/-- A call of the storage transaction, with its arguments; entities passed by pointer are listed
with their pointer. -/
inductive Call where
  | BeginTransaction
  | AddBlock (block : Block)
  | AddStats (stats : BlockStats)
  | SaveTransactions (txs : List Tx)
  | SaveAddresses (entities : List (AddrPtr × Address))
  | SaveNamespaces (entities : List (NsPtr × Namespace))
  | BulkSaveMessages (messages : List Message)
  | BulkSaveEvents (events : List Event)
  | SaveNamespaceMessage (rows : List NamespaceMessage)
  | SaveTxAddresses (rows : List TxAddress)
  | AddState (state : State)
  | Flush
  | HandleError (err : Error)
  | Close
  deriving DecidableEq, Repr

/-- The storage steps of `save`, the calls that write a part of the block. -/
def Call.isWrite : Call → Bool
  | .BeginTransaction => false
  | .HandleError _ => false
  | .Close => false
  | _ => true

/-- A trace entry: a call and the error it answered, `none` for nil. -/
structure Entry where
  call : Call
  err : Option Error
  deriving DecidableEq, Repr

/-- The storage transaction `save` works with, over a store of type `σ`.  Each method answers the
new store and its error; the bulk inserts that give identities to the entities they receive answer
these identities as well, in the order of the entities; `save` is taken to find them in the
entities only when the insert answers no error, and the identities of events, which it does not
read, are left out.  `tx.Add` is listed once for each kind of row and `tx.BulkSave` once for each
kind of batch. -/
structure Transaction (σ : Type) where
  BeginTransaction : σ → σ × Option Error
  AddBlock : σ → Block → σ × Option Error
  AddStats : σ → BlockStats → σ × Option Error
  SaveTransactions : σ → List Tx → σ × List Nat × Option Error
  SaveAddresses : σ → List Address → σ × List Nat × Option Error
  SaveNamespaces : σ → List Namespace → σ × List Nat × Option Error
  BulkSaveMessages : σ → List Message → σ × List Nat × Option Error
  BulkSaveEvents : σ → List Event → σ × Option Error
  SaveNamespaceMessage : σ → List NamespaceMessage → σ × Option Error
  SaveTxAddresses : σ → List TxAddress → σ × Option Error
  AddState : σ → State → σ × Option Error
  Flush : σ → σ × Option Error
  HandleError : σ → Error → σ × Option Error
  Close : σ → σ

/-! ### The block as memory: locations, reads and stores -/

/-- The namespace references of a message with their pointers, from index `k` on. -/
def nsRefs (i j : Nat) : Nat → List Namespace → List (NsPtr × Namespace)
  | _, [] => []
  | k, n :: rest => (⟨i, j, k⟩, n) :: nsRefs i j (k + 1) rest

/-- The namespace references of the messages of a transaction, from message `j` on. -/
def msgRefs (i : Nat) : Nat → List Message → List (NsPtr × Namespace)
  | _, [] => []
  | j, m :: rest => nsRefs i j 0 m.Namespace ++ msgRefs i (j + 1) rest

/-- The namespace references of the transactions, from transaction `i` on. -/
def txRefs : Nat → List Tx → List (NsPtr × Namespace)
  | _, [] => []
  | i, t :: rest => msgRefs i 0 t.Messages ++ txRefs (i + 1) rest

/-- Every namespace reference of a block with its pointer: transactions in order, their messages
in order, the references of each message in order. -/
def namespaceRefs (txs : List Tx) : List (NsPtr × Namespace) := txRefs 0 txs

/-- The namespace a pointer points to. -/
def derefNs (txs : List Tx) (p : NsPtr) : Option Namespace :=
  (namespaceRefs txs).lookup p

/-- The addresses of a transaction with their pointers, from index `j` on. -/
def addrRefs (i : Nat) : Nat → List AddressWithType → List (AddrPtr × Address)
  | _, [] => []
  | j, a :: rest => (.inTx i j, a.Address) :: addrRefs i (j + 1) rest

/-- The addresses of the transactions with their pointers, from transaction `i` on. -/
def txAddrRefs : Nat → List Tx → List (AddrPtr × Address)
  | _, [] => []
  | i, t :: rest => addrRefs i 0 t.Addresses ++ txAddrRefs (i + 1) rest

/-- The entities `data.addresses` held at the call, with their pointers, from number `n` on. -/
def parsedRefs : Nat → StrMap Address → List (AddrPtr × Address)
  | _, [] => []
  | n, e :: rest => (.parsed n, e.2) :: parsedRefs (n + 1) rest

/-- The address a pointer points to. -/
def derefAddr (parsed : StrMap Address) (txs : List Tx) (p : AddrPtr) : Option Address :=
  (txAddrRefs 0 txs ++ parsedRefs 0 parsed).lookup p

/-- The identity stored last through pointer `p`, when identity number `n` of `ids` is stored
through pointer number `n` of `ptrs`, for `n = 0, 1, ...`. -/
def storedId {π : Type} [DecidableEq π] (ptrs : List π) (ids : List Nat) (p : π) : Option Nat :=
  ((ptrs.zip ids).reverse.find? fun e => e.1 = p).map Prod.snd

/-- The namespaces of one message after identities were stored through pointers. -/
def storeNsIdsNs (st : NsPtr → Option Nat) (i j : Nat) : Nat → List Namespace → List Namespace
  | _, [] => []
  | k, n :: rest =>
    (match st ⟨i, j, k⟩ with
      | some id => { n with Id := id }
      | none => n) :: storeNsIdsNs st i j (k + 1) rest

/-- The messages of one transaction after identities were stored in their namespaces. -/
def storeNsIdsMsg (st : NsPtr → Option Nat) (i : Nat) : Nat → List Message → List Message
  | _, [] => []
  | j, m :: rest =>
    { m with Namespace := storeNsIdsNs st i j 0 m.Namespace } :: storeNsIdsMsg st i (j + 1) rest

/-- The transactions after identities were stored in the namespaces of their messages. -/
def storeNsIdsTx (st : NsPtr → Option Nat) : Nat → List Tx → List Tx
  | _, [] => []
  | i, t :: rest =>
    { t with Messages := storeNsIdsMsg st i 0 t.Messages } :: storeNsIdsTx st (i + 1) rest

/-- The block after `SaveNamespaces` stored identities `ids` through the pointers `ptrs`. -/
def storeNsIds (ptrs : List NsPtr) (ids : List Nat) (txs : List Tx) : List Tx :=
  storeNsIdsTx (storedId ptrs ids) 0 txs

/-- The addresses of one transaction after identities were stored through pointers. -/
def storeAddrIdsAddr (st : AddrPtr → Option Nat) (i : Nat) :
    Nat → List AddressWithType → List AddressWithType
  | _, [] => []
  | j, a :: rest =>
    (match st (.inTx i j) with
      | some id => { a with Address := { a.Address with Id := id } }
      | none => a) :: storeAddrIdsAddr st i (j + 1) rest

/-- The transactions after identities were stored in their addresses. -/
def storeAddrIdsTx (st : AddrPtr → Option Nat) : Nat → List Tx → List Tx
  | _, [] => []
  | i, t :: rest =>
    { t with Addresses := storeAddrIdsAddr st i 0 t.Addresses } :: storeAddrIdsTx st (i + 1) rest

/-- The block after `SaveAddresses` stored identities `ids` through the pointers `ptrs`.  What
is stored in an entity outside the block is not read by `save` again and is left out. -/
def storeAddrIds (ptrs : List AddrPtr) (ids : List Nat) (txs : List Tx) : List Tx :=
  storeAddrIdsTx (storedId ptrs ids) 0 txs

/-- Identities stored in the elements of the slice `data.block.Txs`, position by position. -/
def storeTxIds : List Tx → List Nat → List Tx
  | t :: ts, id :: ids => { t with Id := id } :: storeTxIds ts ids
  | ts, _ => ts

/-- Identities stored in messages, position by position. -/
def storeMsgIds : List Message → List Nat → List Message
  | m :: ms, id :: ids => { m with Id := id } :: storeMsgIds ms ids
  | ms, _ => ms

/-- Identities stored through the slice `messages`, which points to every message of the block
in order: each transaction takes as many as it has messages. -/
def storeMessageIds : List Tx → List Nat → List Tx
  | [], _ => []
  | t :: rest, ids =>
    { t with Messages := storeMsgIds t.Messages ids } ::
      storeMessageIds rest (ids.drop t.Messages.length)

/-! ### The loops of `save` -/

/-- Lines 47-53, the loop over the namespaces of message `j` of transaction `i`, from index `k`
on: the namespaces as the loop leaves them and the map `namespaces`. -/
def namespaceLoop (F : Stringers) (i j : Nat) :
    Nat → List Namespace → StrMap NsPtr → List Namespace × StrMap NsPtr
  | _, [], namespaces => ([], namespaces)
  | k, n :: rest, namespaces =>
    let key := n.String F
    if namespaces.contains key then
      let r := namespaceLoop F i j (k + 1) rest namespaces
      (n :: r.1, r.2)
    else
      let r := namespaceLoop F i j (k + 1) rest (namespaces ++ [(key, ⟨i, j, k⟩)])
      ({ n with PfbCount := 1 } :: r.1, r.2)

/-- Lines 43-54, the loop over the messages of transaction `i`, whose identity is `txId`, from
index `j` on. -/
def messageLoop (F : Stringers) (i txId : Nat) :
    Nat → List Message → StrMap NsPtr → List Message × StrMap NsPtr
  | _, [], namespaces => ([], namespaces)
  | j, m :: rest, namespaces =>
    let r := namespaceLoop F i j 0 m.Namespace namespaces
    let q := messageLoop F i txId (j + 1) rest r.2
    ({ m with TxId := txId, Namespace := r.1 } :: q.1, q.2)

/-- Lines 56-59, the loop over the events of a transaction.  The pointer `&data.block.Txs[i].Id`
is kept as the value it points to: no identity is stored in a transaction after this loop. -/
def eventLoop (txId : Nat) : List Event → List Event
  | [] => []
  | e :: rest => { e with TxId := some txId } :: eventLoop txId rest

/-- Lines 61-66, the loop over the addresses of transaction `i`, from index `j` on. -/
def addressLoop (F : Stringers) (i : Nat) :
    Nat → List AddressWithType → StrMap AddrPtr → StrMap AddrPtr
  | _, [], addresses => addresses
  | j, a :: rest, addresses =>
    let key := a.Address.String F
    if addresses.contains key then addressLoop F i (j + 1) rest addresses
    else addressLoop F i (j + 1) rest (addresses ++ [(key, .inTx i j)])

/-- Lines 42-67, the loop over the transactions, from index `i` on: the transactions as the loop
leaves them and the maps `namespaces` and `data.addresses`. -/
def txLoop (F : Stringers) :
    Nat → List Tx → StrMap NsPtr → StrMap AddrPtr → List Tx × StrMap NsPtr × StrMap AddrPtr
  | _, [], namespaces, addresses => ([], namespaces, addresses)
  | i, t :: rest, namespaces, addresses =>
    let r := messageLoop F i t.Id 0 t.Messages namespaces
    let events := eventLoop t.Id t.Events
    let addresses := addressLoop F i 0 t.Addresses addresses
    let q := txLoop F (i + 1) rest r.2 addresses
    ({ t with Messages := r.1, Events := events } :: q.1, q.2.1, q.2.2)

/-- The map `data.addresses` at the call, each key with the pointer to its entity. -/
def parsedMap : Nat → StrMap Address → StrMap AddrPtr
  | _, [] => []
  | n, e :: rest => (e.1, .parsed n) :: parsedMap (n + 1) rest

/-- Lines 32-67: the walk over the block. -/
def walk (F : Stringers) (txs : List Tx) (parsed : StrMap Address) :
    List Tx × StrMap NsPtr × StrMap AddrPtr :=
  txLoop F 0 txs [] (parsedMap 0 parsed)

/-- The slice `messages` read through its pointers: every message of the block, in order. -/
def allMessages : List Tx → List Message
  | [] => []
  | t :: rest => t.Messages ++ allMessages rest

/-- The events of the transactions, in order. -/
def txEvents : List Tx → List Event
  | [] => []
  | t :: rest => t.Events ++ txEvents rest

/-- The slice `events` read through its pointers: the events of the block, then the events of
the transactions. -/
def allEvents (blockEvents : List Event) (txs : List Tx) : List Event :=
  blockEvents ++ txEvents txs

/-- Lines 70-73: the entities a map of pointers to addresses holds, in the order the map is
visited. -/
def addressEntities (ord : RangeOrder) (parsed : StrMap Address) (txs : List Tx)
    (addresses : StrMap AddrPtr) : List (AddrPtr × Address) :=
  (ord.apply addresses).filterMap fun e => (derefAddr parsed txs e.2).map fun a => (e.2, a)

/-- Lines 81-84: the entities the map `namespaces` holds, in the order the map is visited. -/
def namespaceEntities (ord : RangeOrder) (txs : List Tx) (namespaces : StrMap NsPtr) :
    List (NsPtr × Namespace) :=
  (ord.apply namespaces).filterMap fun e => (derefNs txs e.2).map fun n => (e.2, n)

/-- Lines 109-120, the loop over the namespaces of one message. -/
def namespaceRows (msg : Message) : List Namespace → List NamespaceMessage
  | [] => []
  | n :: rest =>
    if n.Id = 0 then namespaceRows msg rest
    else
      { MsgId := msg.Id, NamespaceId := n.Id, Time := msg.Time, Height := msg.Height,
        TxId := msg.TxId } :: namespaceRows msg rest

/-- Lines 103-121, the loop over `messages` that builds `namespaceMsgs`. -/
def namespaceMsgs : List Message → List NamespaceMessage
  | [] => []
  | msg :: rest => namespaceRows msg msg.Namespace ++ namespaceMsgs rest

/-- Lines 128-134, the loop over the addresses of one transaction. -/
def addressRows (transaction : Tx) : List AddressWithType → List TxAddress
  | [] => []
  | address :: rest =>
    { TxId := transaction.Id, AddressId := address.Address.Id, AddrType := address.AddrType } ::
      addressRows transaction rest

/-- Lines 126-135, the loop over the transactions that builds `txAddresses`. -/
def txAddresses : List Tx → List TxAddress
  | [] => []
  | transaction :: rest => addressRows transaction transaction.Addresses ++ txAddresses rest

/-! ### `save` -/

/-- What a call of `save` leaves: the error it returns, the storage calls it made, the block as
the stores through its pointers left it, and the store. -/
structure Result (σ : Type) where
  err : Option Error
  trace : List Entry
  block : Block
  store : σ

/-- The exit `return tx.HandleError(ctx, err)`, followed by the deferred `tx.Close`. -/
def abort {σ : Type} (tx : Transaction σ) (log : List Entry) (s : σ) (err : Error)
    (block : Block) : Result σ :=
  let h := tx.HandleError s err
  ⟨h.2, log ++ [⟨.HandleError err, h.2⟩, ⟨.Close, none⟩], block, tx.Close h.1⟩

/-- Lines 69-78: the store, the calls made, the identities answered and the error. -/
def addressesStep {σ : Type} (tx : Transaction σ) (s : σ) (addresses : StrMap AddrPtr)
    (entities : List (AddrPtr × Address)) : σ × List Entry × List Nat × Option Error :=
  if addresses.length > 0 then
    let r := tx.SaveAddresses s (entities.map Prod.snd)
    (r.1, [⟨.SaveAddresses entities, r.2.2⟩], r.2.1, r.2.2)
  else (s, [], [], none)

/-- Lines 80-89. -/
def namespacesStep {σ : Type} (tx : Transaction σ) (s : σ) (namespaces : StrMap NsPtr)
    (entities : List (NsPtr × Namespace)) : σ × List Entry × List Nat × Option Error :=
  if namespaces.length > 0 then
    let r := tx.SaveNamespaces s (entities.map Prod.snd)
    (r.1, [⟨.SaveNamespaces entities, r.2.2⟩], r.2.1, r.2.2)
  else (s, [], [], none)

/-- Lines 91-95. -/
def messagesStep {σ : Type} (tx : Transaction σ) (s : σ) (messages : List Message) :
    σ × List Entry × List Nat × Option Error :=
  if messages.length > 0 then
    let r := tx.BulkSaveMessages s messages
    (r.1, [⟨.BulkSaveMessages messages, r.2.2⟩], r.2.1, r.2.2)
  else (s, [], [], none)

/-- Lines 97-101. -/
def eventsStep {σ : Type} (tx : Transaction σ) (s : σ) (events : List Event) :
    σ × List Entry × Option Error :=
  if events.length > 0 then
    let r := tx.BulkSaveEvents s events
    (r.1, [⟨.BulkSaveEvents events, r.2⟩], r.2)
  else (s, [], none)

/-- Lines 141-151: the row of the indexer state. -/
def stateRow (indexerName : String) (block : Block) : State :=
  { Name := indexerName
    LastHeight := block.Height
    LastTime := block.Time
    LastHash := block.Hash
    ChainId := block.ChainId
    TotalTx := block.Stats.TxCount
    TotalSupply := block.Stats.SupplyChange
    TotalFee := block.Stats.Fee
    TotalBlobsSize := block.Stats.BlobsSize }

/-- Lines 103-157, from the junction rows to the flush, on the transactions `txs` as the bulk
inserts left them. -/
def saveTail {σ : Type} (tx : Transaction σ) (indexerName : String) (log : List Entry) (s : σ)
    (block : Block) : Result σ :=
  let rows := namespaceMsgs (allMessages block.Txs)
  let r := tx.SaveNamespaceMessage s rows
  let log := log ++ [⟨.SaveNamespaceMessage rows, r.2⟩]
  match r.2 with
  | some err => abort tx log r.1 err block
  | none =>
    let rows := txAddresses block.Txs
    let r := tx.SaveTxAddresses r.1 rows
    let log := log ++ [⟨.SaveTxAddresses rows, r.2⟩]
    match r.2 with
    | some err => abort tx log r.1 err block
    | none =>
      let state := stateRow indexerName block
      let r := tx.AddState r.1 state
      let log := log ++ [⟨.AddState state, r.2⟩]
      match r.2 with
      | some err => abort tx log r.1 err block
      | none =>
        let r := tx.Flush r.1
        let log := log ++ [⟨.Flush, r.2⟩]
        match r.2 with
        | some err => abort tx log r.1 err block
        | none => ⟨none, log ++ [⟨.Close, none⟩], block, tx.Close r.1⟩

/-- Lines 32-157, from the walk on, on the block as `SaveTransactions` left it. -/
def saveBody {σ : Type} (tx : Transaction σ) (F : Stringers) (ord : RangeOrder)
    (indexerName : String) (log : List Entry) (s : σ) (block : Block)
    (parsed : StrMap Address) : Result σ :=
  let w := walk F block.Txs parsed
  let block := { block with Txs := w.1 }
  let entities := addressEntities ord parsed block.Txs w.2.2
  let a := addressesStep tx s w.2.2 entities
  let log := log ++ a.2.1
  match a.2.2.2 with
  | some err => abort tx log a.1 err block
  | none =>
    let block := { block with Txs := storeAddrIds (entities.map Prod.fst) a.2.2.1 block.Txs }
    let entities := namespaceEntities ord block.Txs w.2.1
    let n := namespacesStep tx a.1 w.2.1 entities
    let log := log ++ n.2.1
    match n.2.2.2 with
    | some err => abort tx log n.1 err block
    | none =>
      let block := { block with Txs := storeNsIds (entities.map Prod.fst) n.2.2.1 block.Txs }
      let m := messagesStep tx n.1 (allMessages block.Txs)
      let log := log ++ m.2.1
      match m.2.2.2 with
      | some err => abort tx log m.1 err block
      | none =>
        let block := { block with Txs := storeMessageIds block.Txs m.2.2.1 }
        let e := eventsStep tx m.1 (allEvents block.Events block.Txs)
        let log := log ++ e.2.1
        match e.2.2 with
        | some err => abort tx log e.1 err block
        | none => saveTail tx indexerName log e.1 block

/-- Method `Module.save`.  `indexerName` is `module.indexerName`; the log lines are left out. -/
def save {σ : Type} (tx : Transaction σ) (F : Stringers) (ord : RangeOrder)
    (indexerName : String) (s : σ) (data : parsedData) : Result σ :=
  let b := tx.BeginTransaction s
  match b.2 with
  | some err => ⟨some err, [⟨.BeginTransaction, some err⟩], data.block, b.1⟩
  | none =>
    let log := [⟨.BeginTransaction, none⟩]
    let r := tx.AddBlock b.1 data.block
    let log := log ++ [⟨.AddBlock data.block, r.2⟩]
    match r.2 with
    | some err => abort tx log r.1 err data.block
    | none =>
      let r := tx.AddStats r.1 data.block.Stats
      let log := log ++ [⟨.AddStats data.block.Stats, r.2⟩]
      match r.2 with
      | some err => abort tx log r.1 err data.block
      | none =>
        let r := tx.SaveTransactions r.1 data.block.Txs
        let log := log ++ [⟨.SaveTransactions data.block.Txs, r.2.2⟩]
        match r.2.2 with
        | some err => abort tx log r.1 err data.block
        | none =>
          let block := { data.block with Txs := storeTxIds data.block.Txs r.2.1 }
          saveBody tx F ord indexerName log r.1 block data.addresses

end genesis

end Indexer

/-! ## Notions of the statements and sample inputs -/

namespace Indexer.decode

/-- Sample codec: every transaction decodes, with the given coins as its fee; a first byte 255
marks a blob envelope. -/
def sampleConfig (coins : List Coin) : Config :=
  { UnmarshalTxRaw := fun raw => .ok ⟨raw, raw, []⟩
    UnmarshalAuthInfo := fun _ => .ok ⟨[], some ⟨coins, 200000, "", ""⟩⟩
    TxDecoder := fun raw => .ok ⟨some 0, some "memo", [raw]⟩
    UnmarshalBlobTx := fun raw => match raw with
      | 255 :: inner => some inner
      | _ => none }

end Indexer.decode

namespace Indexer.storage

/-- The arguments of a call of `UpdateSlashedDelegations`. -/
def Call.slashArgs : Call → Option (Nat × Decimal)
  | .UpdateSlashedDelegations validatorId fraction => some (validatorId, fraction)
  | _ => none

/-- Whether the fraction selected for a jail is strictly positive. -/
def slashed (module : Module) (jail : Jail) : Bool :=
  (slashingFraction module jail.Reason).IsPositive

/-- The validator identity and the fraction of each jail with a positive fraction, in order. -/
def expectedSlashes (module : Module) (jails : List Jail) : List (Nat × Decimal) :=
  (jails.filter (slashed module)).map fun jail =>
    ((resolveJail module.validatorsByConsAddress jail).ValidatorId,
      slashingFraction module jail.Reason)

/-- The calls that slash the given jails, each with the balances its update answers. -/
def slashCalls (module : Module) : List (Jail × List Balance) → List Call
  | [] => []
  | (jail, updates) :: rest =>
    .UpdateSlashedDelegations (resolveJail module.validatorsByConsAddress jail).ValidatorId
        (slashingFraction module jail.Reason) ::
      .SaveBalances updates :: slashCalls module rest

/-- Whether a call is `SaveValidators`. -/
def Call.isSaveValidators : Call → Bool
  | .SaveValidators _ => true
  | _ => false

/-- Sample storage: the store counts the calls made; `SaveValidators` numbers the validators it
receives from 7 on, reports as many rows as it received, and answers the error `err`. -/
def sampleTx (err : Option Error) : Transaction Nat :=
  { Jail := fun s _ => (s + 1, none)
    UpdateSlashedDelegations := fun s id _ => (s + 1, [⟨id, ⟨-1, 0⟩⟩], none)
    SaveBalances := fun s _ => (s + 1, none)
    SaveJails := fun s _ => (s + 1, none)
    SaveValidators := fun s vs => (s + 1, (List.range vs.length).map (· + 7), vs.length, err) }

/-- Sample storage in which `UpdateSlashedDelegations` answers an error. -/
def failingTx : Transaction Nat :=
  { Jail := fun s _ => (s + 1, none)
    UpdateSlashedDelegations := fun s _ _ => (s + 1, [], some "storage failure")
    SaveBalances := fun s _ => (s + 1, none)
    SaveJails := fun s _ => (s + 1, none)
    SaveValidators := fun s vs => (s + 1, (List.range vs.length).map (· + 7), vs.length, none) }

/-- Sample module: one validator is indexed, with identity 1; the double-sign fraction is 0.05
and the downtime fraction 0.01. -/
def sampleModule : Module :=
  { validatorsByConsAddress := fun k => if k = "cons1" then some 1 else none
    validatorsByAddress := fun k => if k = "oper1" then some 1 else none
    slashingForDoubleSign := ⟨5, -2⟩
    slashingForDowntime := ⟨1, -2⟩ }

/-- The last validator of the list that has a consensus address and whose address `keyOf` is
`k`. -/
def lastIndexed (keyOf : Validator → String) (validators : List Validator) (k : String) :
    Option Validator :=
  validators.reverse.find? fun v => decide (v.ConsAddress ≠ "") && decide (keyOf v = k)

/-- Sample jails of the indexed validator, one for each kind of reason. -/
def sampleJails : List Jail :=
  [⟨10, 0, "double_sign", ⟨0, "oper1", "cons1"⟩⟩,
    ⟨10, 0, "missing_signature", ⟨0, "oper1", "cons1"⟩⟩, ⟨10, 0, "other", ⟨0, "oper1", "cons1"⟩⟩]

end Indexer.storage

namespace Indexer.genesis

/-- No entry of the log answered an error. -/
def Clean (log : List Entry) : Prop := ∀ e ∈ log, e.err = none

/-- Every write of the trace that answered an error is followed by `HandleError` on that error,
whose answer is `ret`, and by `Close`, and by nothing else. -/
def AbortsOnError (ret : Option Error) : List Entry → Prop
  | [] => True
  | e :: rest =>
    (e.call.isWrite = true → ∀ err, e.err = some err →
      rest = [⟨.HandleError err, ret⟩, ⟨.Close, none⟩]) ∧ AbortsOnError ret rest

/-- A step that may be skipped: it made no call and has no error, or it made one write whose
answer is its error. -/
def StepShape (l : List Entry) (err : Option Error) : Prop :=
  (l = [] ∧ err = none) ∨ ∃ c : Call, c.isWrite = true ∧ l = [⟨c, err⟩]

/-- The calls `save` makes from the junction rows of the namespaces on, `HandleError` and `Close`
apart. -/
def Call.isLate : Call → Bool
  | .SaveNamespaceMessage _ => true
  | .SaveTxAddresses _ => true
  | .AddState _ => true
  | .Flush => true
  | _ => false

/-- No call of the log is a late one. -/
def Early (log : List Entry) : Prop := ∀ e ∈ log, e.call.isLate = false

/-- The namespace as the walk leaves its first occurrence. -/
def Namespace.counted (n : Namespace) : Namespace := { n with PfbCount := 1 }

/-- The references that are the first of their key, in walk order. -/
def firstOccurrences (F : Stringers) : List (NsPtr × Namespace) → List (NsPtr × Namespace)
  | [] => []
  | x :: rest =>
    x :: (firstOccurrences F rest).filter fun y => decide (y.2.String F ≠ x.2.String F)

/-- The first occurrences whose key the map does not hold yet. -/
def fresh (F : Stringers) (m : StrMap NsPtr) (l : List (NsPtr × Namespace)) :
    List (NsPtr × Namespace) :=
  (firstOccurrences F l).filter fun y => !m.contains (y.2.String F)

/-- The walk over the namespace references, as one loop over the list of all of them. -/
def flatWalk (F : Stringers) :
    List (NsPtr × Namespace) → StrMap NsPtr → List (NsPtr × Namespace) × StrMap NsPtr
  | [], m => ([], m)
  | x :: rest, m =>
    if m.contains (x.2.String F) then
      ((x :: (flatWalk F rest m).1), (flatWalk F rest m).2)
    else
      ((x.1, x.2.counted) :: (flatWalk F rest (m ++ [(x.2.String F, x.1)])).1,
        (flatWalk F rest (m ++ [(x.2.String F, x.1)])).2)

/-- A namespace after an identity was, or was not, stored in it. -/
def Namespace.withId (n : Namespace) : Option Nat → Namespace
  | some id => { n with Id := id }
  | none => n

/-- The entities the walk leaves for `SaveNamespaces`: the first occurrence of each key, with
`PfbCount` 1. -/
def countedFirst (F : Stringers) (txs : List Tx) : List (NsPtr × Namespace) :=
  (firstOccurrences F (namespaceRefs txs)).map fun x => (x.1, x.2.counted)

/-- The place of a call in the order `save` makes its calls. -/
def Call.kind : Call → Nat
  | .BeginTransaction => 0
  | .AddBlock _ => 1
  | .AddStats _ => 2
  | .SaveTransactions _ => 3
  | .SaveAddresses _ => 4
  | .SaveNamespaces _ => 5
  | .BulkSaveMessages _ => 6
  | .BulkSaveEvents _ => 7
  | .SaveNamespaceMessage _ => 8
  | .SaveTxAddresses _ => 9
  | .AddState _ => 10
  | .Flush => 11
  | .HandleError _ => 12
  | .Close => 13

/-- A reference that has, earlier in walk order, a reference with the same key. -/
def IsLater (F : Stringers) (refs : List (NsPtr × Namespace)) (x : NsPtr × Namespace) : Prop :=
  ∃ pre post, refs = pre ++ x :: post ∧ ∃ y ∈ pre, y.2.String F = x.2.String F

/-- A reference that is the first of its key in walk order. -/
def IsFirst (F : Stringers) (refs : List (NsPtr × Namespace)) (x : NsPtr × Namespace) : Prop :=
  ∃ pre post, refs = pre ++ x :: post ∧ ∀ y ∈ pre, y.2.String F ≠ x.2.String F

/-- Sample keys: the bytes of the hash, and the version followed by the bytes of the id, read
as characters. -/
def sampleStringers : Stringers :=
  { address := fun hash => String.mk (hash.map Char.ofNat)
    ns := fun version id => String.mk ((version :: id).map Char.ofNat) }

/-- Sample order of visit: the entries from the last inserted to the first. -/
def sampleOrder : RangeOrder :=
  { apply := fun m => m.reverse
    perm := fun m => List.reverse_perm m }

/-- Sample storage: the store counts the calls made, the call number `failAt` answers an error,
and the bulk inserts number the entities they receive from a base on. -/
def sampleStore (failAt : Option Nat) : Transaction Nat :=
  let answer := fun (s : Nat) => if some s = failAt then some "storage failure" else none
  { BeginTransaction := fun s => (s + 1, answer s)
    AddBlock := fun s _ => (s + 1, answer s)
    AddStats := fun s _ => (s + 1, answer s)
    SaveTransactions := fun s l => (s + 1, (List.range l.length).map (· + 11), answer s)
    SaveAddresses := fun s l => (s + 1, (List.range l.length).map (· + 21), answer s)
    SaveNamespaces := fun s l => (s + 1, (List.range l.length).map (· + 31), answer s)
    BulkSaveMessages := fun s l => (s + 1, (List.range l.length).map (· + 41), answer s)
    BulkSaveEvents := fun s _ => (s + 1, answer s)
    SaveNamespaceMessage := fun s _ => (s + 1, answer s)
    SaveTxAddresses := fun s _ => (s + 1, answer s)
    AddState := fun s _ => (s + 1, answer s)
    Flush := fun s => (s + 1, answer s)
    HandleError := fun s err => (s + 1, some err)
    Close := fun s => s + 1 }

/-- Sample address entry with the given hash byte. -/
def sampleAddress (hash : Nat) : AddressWithType := ⟨⟨0, 0, [hash], Decimal.zero⟩, "signer"⟩

/-- Sample namespace with the given id byte. -/
def sampleNamespace (id : Nat) : Namespace := ⟨0, 0, [id], 10, 0⟩

/-- Sample message touching the given namespaces. -/
def sampleMessage (namespaces : List Namespace) : Message := ⟨0, 1000, 7, 0, 0, namespaces⟩

/-- Sample block at height 1000: two transactions; both reference the address with hash byte 1,
and three messages reference the namespace with id byte 5. -/
def sampleBlock : Block :=
  { Id := 0
    Height := 1000
    Time := 7
    Hash := [9]
    ChainId := "celestia"
    Stats := ⟨2, Decimal.zero, ⟨3, 0⟩, 20⟩
    Txs :=
      [⟨0, 1000, 0, [sampleMessage [sampleNamespace 5, sampleNamespace 6],
          sampleMessage [sampleNamespace 5]], [⟨0, 1000, 0, none⟩], [sampleAddress 1]⟩,
        ⟨0, 1000, 1, [sampleMessage [sampleNamespace 5]], [], [sampleAddress 1]⟩]
    Events := [⟨0, 1000, 0, none⟩] }

/-- Sample parsed data: the sample block and an empty address map. -/
def sampleData : parsedData := ⟨sampleBlock, []⟩

/-- The transactions after the walk and after `SaveAddresses` answered the identities
`addrIds`. -/
def afterAddresses (F : Stringers) (ord : RangeOrder) (txs : List Tx) (parsed : StrMap Address)
    (addrIds : List Nat) : List Tx :=
  storeAddrIds
    ((addressEntities ord parsed (walk F txs parsed).1 (walk F txs parsed).2.2).map Prod.fst)
    addrIds (walk F txs parsed).1

/-- The transactions after `SaveNamespaces` answered the identities `nsIds`. -/
def afterNamespaces (F : Stringers) (ord : RangeOrder) (txs : List Tx) (parsed : StrMap Address)
    (addrIds nsIds : List Nat) : List Tx :=
  storeNsIds
    ((namespaceEntities ord (afterAddresses F ord txs parsed addrIds)
      (walk F txs parsed).2.1).map Prod.fst)
    nsIds (afterAddresses F ord txs parsed addrIds)

/-- The transactions after the bulk insert of the messages answered the identities `msgIds`. -/
def afterMessages (F : Stringers) (ord : RangeOrder) (txs : List Tx) (parsed : StrMap Address)
    (addrIds nsIds msgIds : List Nat) : List Tx :=
  storeMessageIds (afterNamespaces F ord txs parsed addrIds nsIds) msgIds

/-- A message without its namespaces. -/
def Message.bare (m : Message) : Message := { m with Namespace := [] }

/-- The messages of a transaction as the walk leaves them, namespaces apart: each with the
identity of the transaction as `TxId`. -/
def stampedMessages (t : Tx) : List Message :=
  t.Messages.map fun m => { m with TxId := t.Id, Namespace := [] }

/-- The events of a transaction as the walk leaves them: each with a reference to the identity
of the transaction as `TxId`. -/
def stampedEvents (t : Tx) : List Event :=
  t.Events.map fun e => { e with TxId := some t.Id }

/-- Whether the map of addresses has an entry after the walk: the parser left one, or a
transaction has an address. -/
def hasAddresses (data : parsedData) : Bool :=
  !data.addresses.isEmpty || data.block.Txs.any fun t => !t.Addresses.isEmpty

/-- Whether a message of the block references a namespace. -/
def hasNamespaces (block : Block) : Bool :=
  block.Txs.any fun t => t.Messages.any fun m => !m.Namespace.isEmpty

/-- Whether the block has a message. -/
def hasMessages (block : Block) : Bool :=
  block.Txs.any fun t => !t.Messages.isEmpty

/-- Whether the block or one of its transactions has an event. -/
def hasEvents (block : Block) : Bool :=
  !block.Events.isEmpty || block.Txs.any fun t => !t.Events.isEmpty

/-- Whether a call adds the row of the indexer state. -/
def Call.isAddState : Call → Bool
  | .AddState _ => true
  | _ => false

/-- Sample storage that keeps the table of the indexer state: `Add` of a state row is an insert
under the unique index on `Name`, it answers an error when the table has a row of that name and
adds the row otherwise; every other call succeeds and no identity is given. -/
def stateStore : Transaction (List State) :=
  { BeginTransaction := fun s => (s, none)
    AddBlock := fun s _ => (s, none)
    AddStats := fun s _ => (s, none)
    SaveTransactions := fun s _ => (s, [], none)
    SaveAddresses := fun s _ => (s, [], none)
    SaveNamespaces := fun s _ => (s, [], none)
    BulkSaveMessages := fun s _ => (s, [], none)
    BulkSaveEvents := fun s _ => (s, none)
    SaveNamespaceMessage := fun s _ => (s, none)
    SaveTxAddresses := fun s _ => (s, none)
    AddState := fun s state =>
      if s.any (fun r => decide (r.Name = state.Name)) then
        (s, some "duplicate key value violates unique constraint")
      else (s ++ [state], none)
    Flush := fun s => (s, none)
    HandleError := fun s err => (s, some err)
    Close := fun s => s }

/-- Sample earlier row of the indexer state, with totals that are not zero. -/
def sampleState : State :=
  { Name := "indexer"
    LastHeight := 999
    LastTime := 6
    LastHash := [8]
    ChainId := "celestia"
    TotalTx := 5
    TotalSupply := ⟨100, 0⟩
    TotalFee := ⟨7, 0⟩
    TotalBlobsSize := 40 }

/-- A storage with the table of the indexer state, which `rows` reads from the store.  `Add` of a
state row is an insert, and field `Name` of `State` has a unique index (`state.go`, line 24): when
it answers no error the table had no row of that name, and has the new row after it.  No other
call that a run of `save` without an error makes changes the table. -/
structure StateTable {σ : Type} (tx : Transaction σ) (rows : σ → List State) : Prop where
  BeginTransaction : ∀ s, rows (tx.BeginTransaction s).1 = rows s
  AddBlock : ∀ s block, rows (tx.AddBlock s block).1 = rows s
  AddStats : ∀ s stats, rows (tx.AddStats s stats).1 = rows s
  SaveTransactions : ∀ s txs, rows (tx.SaveTransactions s txs).1 = rows s
  SaveAddresses : ∀ s l, rows (tx.SaveAddresses s l).1 = rows s
  SaveNamespaces : ∀ s l, rows (tx.SaveNamespaces s l).1 = rows s
  BulkSaveMessages : ∀ s l, rows (tx.BulkSaveMessages s l).1 = rows s
  BulkSaveEvents : ∀ s l, rows (tx.BulkSaveEvents s l).1 = rows s
  SaveNamespaceMessage : ∀ s l, rows (tx.SaveNamespaceMessage s l).1 = rows s
  SaveTxAddresses : ∀ s l, rows (tx.SaveTxAddresses s l).1 = rows s
  unique : ∀ s row, (tx.AddState s row).2 = none → ∀ r ∈ rows s, r.Name ≠ row.Name
  added : ∀ s row, (tx.AddState s row).2 = none → rows (tx.AddState s row).1 = rows s ++ [row]
  Flush : ∀ s, rows (tx.Flush s).1 = rows s
  Close : ∀ s, rows (tx.Close s) = rows s

/-- The totals the table of the indexer state holds under a name: the tx count, supply, fee and
blobs size of the row of that name, and zero when the table has no such row. -/
def previousTotals (rows : List State) (name : String) : Nat × Decimal × Decimal × Nat :=
  match rows.find? fun r => decide (r.Name = name) with
  | some r => (r.TotalTx, r.TotalSupply, r.TotalFee, r.TotalBlobsSize)
  | none => (0, Decimal.zero, Decimal.zero, 0)

/-- The identities `SaveTransactions` answers in a run of `save` that gets to it: the call
follows `BeginTransaction` and the `Add` of the block and of its stats. -/
def answeredTxIds {σ : Type} (tx : Transaction σ) (s : σ) (data : parsedData) : List Nat :=
  (tx.SaveTransactions
    (tx.AddStats (tx.AddBlock (tx.BeginTransaction s).1 data.block).1 data.block.Stats).1
    data.block.Txs).2.1

/-- Whether a call is a `BulkSave`, of the messages or of the events. -/
def Call.isBatch : Call → Bool
  | .BulkSaveMessages _ => true
  | .BulkSaveEvents _ => true
  | _ => false

end Indexer.genesis

/-! ## Properties of the decoder -/

namespace Indexer.decode

/-- Claim C5: when the bytes unmarshal and the fee has more than one coin, `decodeAuthInfo`, and
`Tx` on a transaction with these inner bytes, return the zero `AuthInfo`, the zero fee and the
error that reports the number of coins, whatever the denominations are. -/
theorem fee_several_denominations (cfg : Config) (raw : Bytes) (txRaw : TxRaw)
    (authInfo : AuthInfo) (hRaw : cfg.UnmarshalTxRaw raw = .ok txRaw)
    (hAuth : cfg.UnmarshalAuthInfo txRaw.AuthInfoBytes = .ok authInfo)
    (hLen : 1 < authInfo.GetAmount.length) :
    decodeAuthInfo cfg raw =
        (AuthInfo.zero, Decimal.zero,
          some ("found fee in " ++ toString authInfo.GetAmount.length ++ " currencies")) ∧
      ∀ (txs : List Bytes) (index : Nat) (raw0 : Bytes), txs[index]? = some raw0 →
        unwrapBlobTx cfg raw0 = raw →
        Tx cfg txs index =
          some (⟨AuthInfo.zero, 0, "", [], Decimal.zero⟩,
            some ("found fee in " ++ toString authInfo.GetAmount.length ++ " currencies")) := by
  have h : decodeAuthInfo cfg raw =
      (AuthInfo.zero, Decimal.zero,
        some ("found fee in " ++ toString authInfo.GetAmount.length ++ " currencies")) := by
    simp [decodeAuthInfo, hRaw, hAuth, hLen]
  refine ⟨h, ?_⟩
  intro txs index raw0 hIdx hInner
  simp [Tx, hIdx, hInner, h]

theorem fee_several_denominations_witness :
    decodeAuthInfo (sampleConfig [⟨"uatom", 3⟩, ⟨"utia", 5⟩]) [1, 2] =
        (AuthInfo.zero, Decimal.zero, some "found fee in 2 currencies") ∧
      Tx (sampleConfig [⟨"uatom", 3⟩, ⟨"utia", 5⟩]) [[255, 1, 2]] 0 =
        some (⟨AuthInfo.zero, 0, "", [], Decimal.zero⟩, some "found fee in 2 currencies") :=
  have h := fee_several_denominations (sampleConfig [⟨"uatom", 3⟩, ⟨"utia", 5⟩]) [1, 2]
    ⟨[1, 2], [1, 2], []⟩ ⟨[], some ⟨[⟨"uatom", 3⟩, ⟨"utia", 5⟩], 200000, "", ""⟩⟩ rfl rfl
    (by decide)
  ⟨h.1, h.2 [[255, 1, 2]] 0 [255, 1, 2] rfl rfl⟩

theorem Find_none (coins : List Coin) (denom : String) (hLen : coins.length ≤ 1)
    (hNo : ∀ c ∈ coins, c.Denom ≠ denom) : (Find coins denom).1 = false := by
  match coins, hLen, hNo with
  | [], _, _ => simp [Find]
  | [c], _, hNo => simp [Find, hNo c (by simp)]
  | _ :: _ :: _, hLen, _ => simp at hLen

/-- Claim C6: when the bytes unmarshal and the fee has at most one coin, none of denomination
`utia`, `decodeAuthInfo`, and `Tx` on a transaction with these inner bytes, return the zero
`AuthInfo`, the zero fee and the fee-missing error. -/
theorem fee_missing (cfg : Config) (raw : Bytes) (txRaw : TxRaw)
    (authInfo : AuthInfo) (hRaw : cfg.UnmarshalTxRaw raw = .ok txRaw)
    (hAuth : cfg.UnmarshalAuthInfo txRaw.AuthInfoBytes = .ok authInfo)
    (hLen : authInfo.GetAmount.length ≤ 1)
    (hNo : ∀ c ∈ authInfo.GetAmount, c.Denom ≠ "utia") :
    decodeAuthInfo cfg raw =
        (AuthInfo.zero, Decimal.zero, some "while getting fee amount in utia") ∧
      ∀ (txs : List Bytes) (index : Nat) (raw0 : Bytes), txs[index]? = some raw0 →
        unwrapBlobTx cfg raw0 = raw →
        Tx cfg txs index =
          some (⟨AuthInfo.zero, 0, "", [], Decimal.zero⟩,
            some "while getting fee amount in utia") := by
  have h : decodeAuthInfo cfg raw =
      (AuthInfo.zero, Decimal.zero, some "while getting fee amount in utia") := by
    have hl : ¬ 1 < authInfo.GetAmount.length := by omega
    simp [decodeAuthInfo, hRaw, hAuth, hl, Find_none _ _ hLen hNo]
  refine ⟨h, ?_⟩
  intro txs index raw0 hIdx hInner
  simp [Tx, hIdx, hInner, h]

/-- Claim C7: when the bytes unmarshal and the fee is one coin of `n` `utia`, `decodeAuthInfo`
returns the decoded `AuthInfo`, no error, and the decimal of coefficient `n` and exponent 0, which
denotes the number `n`. -/
theorem fee_exact (cfg : Config) (raw : Bytes) (txRaw : TxRaw)
    (authInfo : AuthInfo) (n : Int) (hRaw : cfg.UnmarshalTxRaw raw = .ok txRaw)
    (hAuth : cfg.UnmarshalAuthInfo txRaw.AuthInfoBytes = .ok authInfo)
    (hAmount : authInfo.GetAmount = [⟨"utia", n⟩]) :
    decodeAuthInfo cfg raw = (authInfo, ⟨n, 0⟩, none) ∧
      (decodeAuthInfo cfg raw).2.1.toRat = (n : ℚ) := by
  have h : decodeAuthInfo cfg raw = (authInfo, ⟨n, 0⟩, none) := by
    simp [decodeAuthInfo, hRaw, hAuth, hAmount, Find, Decimal.NewFromBigInt]
  refine ⟨h, ?_⟩
  simp [h, Decimal.toRat]

theorem fee_missing_witness :
    decodeAuthInfo (sampleConfig [⟨"uatom", 3⟩]) [1, 2] =
        (AuthInfo.zero, Decimal.zero, some "while getting fee amount in utia") ∧
      decodeAuthInfo (sampleConfig []) [1, 2] =
        (AuthInfo.zero, Decimal.zero, some "while getting fee amount in utia") ∧
      Tx (sampleConfig []) [[1, 2]] 0 =
        some (⟨AuthInfo.zero, 0, "", [], Decimal.zero⟩,
          some "while getting fee amount in utia") :=
  have h := fee_missing (sampleConfig []) [1, 2] ⟨[1, 2], [1, 2], []⟩
    ⟨[], some ⟨[], 200000, "", ""⟩⟩ rfl rfl (by decide) (by decide)
  ⟨(fee_missing (sampleConfig [⟨"uatom", 3⟩]) [1, 2] ⟨[1, 2], [1, 2], []⟩
      ⟨[], some ⟨[⟨"uatom", 3⟩], 200000, "", ""⟩⟩ rfl rfl (by decide) (by decide)).1,
    h.1, h.2 [[1, 2]] 0 [1, 2] rfl rfl⟩

theorem fee_exact_witness :
    decodeAuthInfo (sampleConfig [⟨"utia", 123456789012345678901234567890⟩]) [1, 2] =
        (⟨[], some ⟨[⟨"utia", 123456789012345678901234567890⟩], 200000, "", ""⟩⟩,
          ⟨123456789012345678901234567890, 0⟩, none) ∧
      (decodeAuthInfo (sampleConfig [⟨"utia", 123456789012345678901234567890⟩])
        [1, 2]).2.1.toRat = ((123456789012345678901234567890 : Int) : ℚ) :=
  fee_exact (sampleConfig [⟨"utia", 123456789012345678901234567890⟩]) [1, 2]
    ⟨[1, 2], [1, 2], []⟩ ⟨[], some ⟨[⟨"utia", 123456789012345678901234567890⟩], 200000, "", ""⟩⟩
    123456789012345678901234567890 rfl rfl rfl

end Indexer.decode

/-! ## Properties of `saveValidators` -/

namespace Indexer.storage

theorem resolveJail_Reason (index : Index) (jail : Jail) :
    (resolveJail index jail).Reason = jail.Reason := by
  unfold resolveJail
  split <;> rfl

theorem jailsLoop_slashes {σ : Type} (tx : Transaction σ) (module : Module) (jails : List Jail) :
    ∀ s : σ, ((jailsLoop tx module s jails).2.1.map (·.call)).filterMap Call.slashArgs <+:
      expectedSlashes module jails := by
  induction jails with
  | nil => intro s; simp [jailsLoop, expectedSlashes]
  | cons jail rest ih =>
    intro s
    simp only [jailsLoop, resolveJail_Reason]
    by_cases hp : (slashingFraction module jail.Reason).IsPositive = true
    · have hs : slashed module jail = true := hp
      simp only [hp, Bool.not_true, Bool.false_eq_true, if_false]
      split
      · simp [expectedSlashes, hs, Call.slashArgs]
      · split
        · simp [expectedSlashes, hs, Call.slashArgs]
        · simp only [List.map_cons, List.filterMap_cons, Call.slashArgs, expectedSlashes,
            List.filter_cons, hs, if_true]
          exact (List.prefix_cons_inj _).2 (ih _)
    · have hs : slashed module jail = false := by simpa [slashed] using hp
      simp only [hp, Bool.not_false, Bool.not_eq_true, if_true]
      simpa [expectedSlashes, hs] using ih s

theorem jailsLoop_ok {σ : Type} (tx : Transaction σ) (module : Module) (jails : List Jail) :
    ∀ s : σ, (jailsLoop tx module s jails).2.2.2 = none →
      (jailsLoop tx module s jails).2.2.1 =
          jails.map (resolveJail module.validatorsByConsAddress) ∧
        (∀ e ∈ (jailsLoop tx module s jails).2.1, e.answer.err = none) ∧
        ∃ bss : List (List Balance), bss.length = (jails.filter (slashed module)).length ∧
          (jailsLoop tx module s jails).2.1.map (·.call) =
            slashCalls module ((jails.filter (slashed module)).zip bss) := by
  induction jails with
  | nil => intro s _; exact ⟨rfl, by simp [jailsLoop], [], rfl, rfl⟩
  | cons jail rest ih =>
    intro s
    simp only [jailsLoop, resolveJail_Reason]
    by_cases hp : (slashingFraction module jail.Reason).IsPositive = true
    · have hs : slashed module jail = true := hp
      simp only [hp, Bool.not_true, Bool.false_eq_true, if_false]
      split
      · intro h; simp at h
      · rename_i hu
        split
        · intro h; simp at h
        · rename_i hb
          intro h
          obtain ⟨h1, h2, bss, h3, h4⟩ := ih _ h
          refine ⟨by simp [h1], ?_, (tx.UpdateSlashedDelegations s
            (resolveJail module.validatorsByConsAddress jail).ValidatorId
            (slashingFraction module jail.Reason)).2.1 :: bss, by simp [hs, h3], ?_⟩
          · intro e he
            simp only [List.mem_cons] at he
            rcases he with he | he | he
            · simp [he, Answer.err, hu]
            · simp [he, Answer.err, hb]
            · exact h2 e he
          · simp [hs, slashCalls, h4]
    · have hs : slashed module jail = false := by simpa [slashed] using hp
      simp only [hp, Bool.not_false, Bool.not_eq_true, if_true]
      intro h
      obtain ⟨h1, h2, bss, h3, h4⟩ := ih _ h
      exact ⟨by simp [h1], h2, bss, by simp [hs, h3], by simp [hs, h4]⟩

theorem jailsLoop_calls {σ : Type} (tx : Transaction σ) (module : Module) (jails : List Jail) :
    ∀ s : σ, ∀ e ∈ (jailsLoop tx module s jails).2.1, e.call.isSaveValidators = false := by
  induction jails with
  | nil => intro s; simp [jailsLoop]
  | cons jail rest ih =>
    intro s
    simp only [jailsLoop]
    split
    · exact ih s
    · split
      · simp [Call.isSaveValidators]
      · split
        · simp [Call.isSaveValidators]
        · intro e he
          simp only [List.mem_cons] at he
          rcases he with he | he | he
          · simp [he, Call.isSaveValidators]
          · simp [he, Call.isSaveValidators]
          · exact ih _ e he

theorem jailedStep_calls {σ : Type} (tx : Transaction σ) (module : Module) (s : σ)
    (jailed : List (String × Validator)) :
    ∀ e ∈ (jailedStep tx module s jailed).2.1, ∃ vs, e.call = .Jail vs := by
  simp only [jailedStep]
  split
  · split <;> simp
  · simp

theorem jailsStep_calls {σ : Type} (tx : Transaction σ) (module : Module) (s : σ)
    (jails : List Jail) :
    ∀ e ∈ (jailsStep tx module s jails).2.1, e.call.isSaveValidators = false := by
  simp only [jailsStep]
  split
  · split
    · exact jailsLoop_calls tx module jails s
    · intro e he
      simp only [List.mem_append, List.mem_singleton] at he
      rcases he with he | he
      · exact jailsLoop_calls tx module jails s e he
      · simp [he, Call.isSaveValidators]
  · simp

theorem earlier_calls {σ : Type} (tx : Transaction σ) (module : Module) (s : σ)
    (jailed : List (String × Validator)) (jails : List Jail) :
    ∀ e ∈ (jailedStep tx module s jailed).2.1 ++
        (jailsStep tx module (jailedStep tx module s jailed).1 jails).2.1,
      e.call.isSaveValidators = false := by
  intro e he
  rcases List.mem_append.1 he with he | he
  · obtain ⟨vs, h⟩ := jailedStep_calls tx module s jailed e he
    simp [h, Call.isSaveValidators]
  · exact jailsStep_calls tx module _ jails e he

/-- Claim C8: when `saveValidators` returns an error, or is given no validator, or
`SaveValidators` reports zero rows, the maps `validatorsByConsAddress` and `validatorsByAddress`
are after the call what they were before, and the count returned is 0. -/
theorem index_unchanged {σ : Type} (tx : Transaction σ) (module : Module) (s : σ)
    (validators : List Validator) (jailed : List (String × Validator)) (jails : List Jail)
    (h : (saveValidators tx module s validators jailed jails).err ≠ none ∨ validators = [] ∨
      ∃ vs ids err, (⟨.SaveValidators vs, .written ids 0 err⟩ : Entry) ∈
        (saveValidators tx module s validators jailed jails).trace) :
    (saveValidators tx module s validators jailed jails).module.validatorsByConsAddress =
        module.validatorsByConsAddress ∧
      (saveValidators tx module s validators jailed jails).module.validatorsByAddress =
        module.validatorsByAddress ∧
      (saveValidators tx module s validators jailed jails).count = 0 := by
  have hpre := earlier_calls tx module s jailed jails
  revert h
  simp only [saveValidators]
  split
  · simp
  · split
    · simp
    · simp only [validatorsStep]
      split
      · simp
      · rename_i hne
        split
        · simp
        · split
          · simp
          · rename_i herr hcount
            intro h
            exfalso
            rcases h with h | h | ⟨vs, ids, err, h⟩
            · exact h rfl
            · exact hne (by simp [h])
            · rcases List.mem_append.1 h with h | h
              · have := hpre _ h
                simp [Call.isSaveValidators] at this
              · simp only [List.mem_singleton, Entry.mk.injEq, Answer.written.injEq] at h
                exact hcount h.2.2.1.symm

theorem lastIndexed_cons (keyOf : Validator → String) (v : Validator) (rest : List Validator)
    (k : String) :
    lastIndexed keyOf (v :: rest) k =
      (lastIndexed keyOf rest k).or
        (if v.ConsAddress ≠ "" ∧ keyOf v = k then some v else none) := by
  simp only [lastIndexed, List.reverse_cons, List.find?_append]
  congr 1
  by_cases h : v.ConsAddress ≠ "" ∧ keyOf v = k
  · simp [List.find?, h.1, h.2]
  · simp only [h, if_false]
    have : (decide (v.ConsAddress ≠ "") && decide (keyOf v = k)) = false := by
      simpa using h
    simp only [List.find?, this]

theorem indexLoop_byCons (validators : List Validator) :
    ∀ (module : Module) (k : String),
      (indexLoop module validators).validatorsByConsAddress k =
        match lastIndexed (·.ConsAddress) validators k with
        | some v => some v.Id
        | none => module.validatorsByConsAddress k := by
  induction validators with
  | nil => intro module k; simp [indexLoop, lastIndexed]
  | cons v rest ih =>
    intro module k
    rw [lastIndexed_cons]
    simp only [indexLoop]
    by_cases hc : v.ConsAddress = ""
    · simp only [hc, if_true, ih]
      simp
    · simp only [hc, if_false, ih]
      cases lastIndexed (fun x => x.ConsAddress) rest k with
      | some x => simp
      | none =>
        by_cases hk : v.ConsAddress = k
        · subst hk
          simp [hc, Index.set]
        · have hk' : ¬ k = v.ConsAddress := fun h => hk h.symm
          simp [hc, hk, hk', Index.set]

theorem indexLoop_byAddress (validators : List Validator) :
    ∀ (module : Module) (k : String),
      (indexLoop module validators).validatorsByAddress k =
        match lastIndexed (·.Address) validators k with
        | some v => some v.Id
        | none => module.validatorsByAddress k := by
  induction validators with
  | nil => intro module k; simp [indexLoop, lastIndexed]
  | cons v rest ih =>
    intro module k
    rw [lastIndexed_cons]
    simp only [indexLoop]
    by_cases hc : v.ConsAddress = ""
    · simp only [hc, if_true, ih]
      simp
    · simp only [hc, if_false, ih]
      cases lastIndexed (fun x => x.Address) rest k with
      | some x => simp
      | none =>
        by_cases hk : v.Address = k
        · subst hk
          simp [hc, Index.set]
        · have hk' : ¬ k = v.Address := fun h => hk h.symm
          simp [hc, hk, hk', Index.set]

/-- Claim C9, amended: when `SaveValidators` reports a count above zero and no error,
`saveValidators` returns that count and no error, and each of the two maps holds, for a key `k`,
the identity of the last validator of the batch that has a consensus address and whose consensus
address (for `validatorsByConsAddress`) or operator address (for `validatorsByAddress`, the
empty one included) is `k`, and what it held before when there is no such validator. -/
theorem index_updated {σ : Type} (tx : Transaction σ) (module : Module) (s : σ)
    (validators : List Validator) (jailed : List (String × Validator)) (jails : List Jail)
    (vs : List Validator) (ids : List Nat) (count : Int)
    (hCall : (⟨.SaveValidators vs, .written ids count none⟩ : Entry) ∈
      (saveValidators tx module s validators jailed jails).trace)
    (hPos : 0 < count) :
    vs = validators ∧
      (saveValidators tx module s validators jailed jails).count = count ∧
      (saveValidators tx module s validators jailed jails).err = none ∧
      (∀ k : String,
        (saveValidators tx module s validators jailed jails).module.validatorsByConsAddress k =
          match lastIndexed (·.ConsAddress) (storeIds validators ids) k with
          | some v => some v.Id
          | none => module.validatorsByConsAddress k) ∧
      ∀ k : String,
        (saveValidators tx module s validators jailed jails).module.validatorsByAddress k =
          match lastIndexed (·.Address) (storeIds validators ids) k with
          | some v => some v.Id
          | none => module.validatorsByAddress k := by
  have hpre := earlier_calls tx module s jailed jails
  revert hCall
  simp only [saveValidators]
  split
  · intro h
    have := jailedStep_calls tx module s jailed _ h
    simp at this
  · split
    · intro h
      have := hpre _ h
      simp [Call.isSaveValidators] at this
    · simp only [validatorsStep]
      have key : ∀ (e : Entry) (l : List Entry), (∀ x ∈ l, x.call.isSaveValidators = false) →
          (⟨.SaveValidators vs, .written ids count none⟩ : Entry) ∈ l ++ [e] →
          (⟨.SaveValidators vs, .written ids count none⟩ : Entry) = e := by
        intro e l hl h
        rcases List.mem_append.1 h with h | h
        · have := hl _ h
          simp [Call.isSaveValidators] at this
        · simpa using h
      split
      · intro h
        have := hpre _ h
        simp [Call.isSaveValidators] at this
      · split
        · rename_i herr
          intro h
          have := key _ _ hpre h
          simp only [Entry.mk.injEq, Call.SaveValidators.injEq, Answer.written.injEq] at this
          rw [← this.2.2.2] at herr
          simp at herr
        · split
          · rename_i hz
            intro h
            have := key _ _ hpre h
            simp only [Entry.mk.injEq, Call.SaveValidators.injEq, Answer.written.injEq] at this
            omega
          · intro h
            have := key _ _ hpre h
            simp only [Entry.mk.injEq, Call.SaveValidators.injEq, Answer.written.injEq] at this
            obtain ⟨h1, h2, h3, -⟩ := this
            subst h1
            refine ⟨rfl, h3.symm, rfl, ?_, ?_⟩
            · intro k
              rw [indexLoop_byCons, h2]
            · intro k
              rw [indexLoop_byAddress, h2]

theorem index_updated_witness :
    (saveValidators (sampleTx none) sampleModule 0
        [⟨0, "oper2", "cons2"⟩, ⟨0, "oper3", ""⟩, ⟨0, "", "cons4"⟩] [] []).count = 3 ∧
      (saveValidators (sampleTx none) sampleModule 0
        [⟨0, "oper2", "cons2"⟩, ⟨0, "oper3", ""⟩, ⟨0, "", "cons4"⟩] [] []
          ).module.validatorsByAddress "oper3" = none :=
  have h := index_updated (sampleTx none) sampleModule 0
    [⟨0, "oper2", "cons2"⟩, ⟨0, "oper3", ""⟩, ⟨0, "", "cons4"⟩] [] []
    [⟨0, "oper2", "cons2"⟩, ⟨0, "oper3", ""⟩, ⟨0, "", "cons4"⟩] [7, 8, 9] 3
    (by decide) (by decide)
  ⟨h.2.1, (h.2.2.2.2 "oper3").trans (by decide)⟩

/-- Claim C9, as stated, fails: a validator with a consensus address and an empty operator
address is saved, `SaveValidators` reports one row, and the empty operator address is added to
`validatorsByAddress`, which had no such key, with the identity of the validator.  Also, when
`SaveValidators` reports one row together with an error, the call returns the count 0. -/
theorem index_empty_operator_address :
    (⟨.SaveValidators [⟨0, "", "cons4"⟩], .written [7] 1 none⟩ : Entry) ∈
        (saveValidators (sampleTx none) sampleModule 0 [⟨0, "", "cons4"⟩] [] []).trace ∧
      sampleModule.validatorsByAddress "" = none ∧
      (saveValidators (sampleTx none) sampleModule 0 [⟨0, "", "cons4"⟩] [] []
        ).module.validatorsByAddress "" = some 7 ∧
      (⟨.SaveValidators [⟨0, "", "cons4"⟩], .written [7] 1 (some "timeout")⟩ : Entry) ∈
        (saveValidators (sampleTx (some "timeout")) sampleModule 0 [⟨0, "", "cons4"⟩] []
          []).trace ∧
      (saveValidators (sampleTx (some "timeout")) sampleModule 0 [⟨0, "", "cons4"⟩] []
        []).count = 0 := by
  decide

theorem jailedStep_slash {σ : Type} (tx : Transaction σ) (module : Module) (s : σ)
    (jailed : List (String × Validator)) :
    ((jailedStep tx module s jailed).2.1.map (·.call)).filterMap Call.slashArgs = [] := by
  simp only [jailedStep]
  split
  · split <;> simp [Call.slashArgs]
  · simp

theorem jailsStep_slashes {σ : Type} (tx : Transaction σ) (module : Module) (s : σ)
    (jails : List Jail) :
    ((jailsStep tx module s jails).2.1.map (·.call)).filterMap Call.slashArgs <+:
      expectedSlashes module jails := by
  simp only [jailsStep]
  split
  · split
    · exact jailsLoop_slashes tx module jails s
    · simpa [Call.slashArgs] using jailsLoop_slashes tx module jails s
  · simp

theorem jailsStep_ok {σ : Type} (tx : Transaction σ) (module : Module) (s : σ)
    (jails : List Jail) (hOk : (jailsStep tx module s jails).2.2 = none) (hJails : jails ≠ []) :
    ∃ bss : List (List Balance), bss.length = (jails.filter (slashed module)).length ∧
      (jailsStep tx module s jails).2.1.map (·.call) =
        slashCalls module ((jails.filter (slashed module)).zip bss) ++
          [.SaveJails (jails.map (resolveJail module.validatorsByConsAddress))] := by
  have hlen : jails.length > 0 := List.length_pos.2 hJails
  revert hOk
  simp only [jailsStep, hlen, if_true]
  split
  · intro h; simp at h
  · rename_i hl
    intro _
    obtain ⟨h1, -, bss, h3, h4⟩ := jailsLoop_ok tx module jails s hl
    exact ⟨bss, h3, by simp [h4, h1]⟩

theorem validatorsStep_trace {σ : Type} (tx : Transaction σ) (module : Module) (s : σ)
    (log : List Entry) (validators : List Validator) :
    ∃ post : List Entry, (validatorsStep tx module s log validators).trace = log ++ post ∧
      ∀ e ∈ post, ∃ vs, e.call = .SaveValidators vs := by
  simp only [validatorsStep]
  split
  · exact ⟨[], by simp, by simp⟩
  · split
    · exact ⟨_, rfl, by simp⟩
    · split
      · exact ⟨_, rfl, by simp⟩
      · exact ⟨_, rfl, by simp⟩

theorem rangeJailed_unknown (index : Index) (jailed : List (String × Validator)) :
    ∀ acc : List Validator, (∃ e ∈ jailed, index e.1 = none) →
      ∃ address, (∃ e ∈ jailed, e.1 = address) ∧ index address = none ∧
        (rangeJailed index jailed acc).2 = some ("unknown jailed validator: " ++ address) := by
  induction jailed with
  | nil => intro acc h; simp at h
  | cons x rest ih =>
    intro acc h
    obtain ⟨address, val⟩ := x
    simp only [rangeJailed]
    cases hx : index address with
    | none => exact ⟨address, ⟨_, List.mem_cons_self _ _, rfl⟩, hx, rfl⟩
    | some id =>
      have hrest : ∃ e ∈ rest, index e.1 = none := by
        obtain ⟨e, he, hn⟩ := h
        rcases List.mem_cons.1 he with rfl | he
        · rw [hx] at hn; cases hn
        · exact ⟨e, he, hn⟩
      obtain ⟨a, ⟨e, he, hea⟩, h1, h2⟩ := ih (acc ++ [{ val with Id := id }]) hrest
      exact ⟨a, ⟨e, List.mem_cons_of_mem _ he, hea⟩, h1, h2⟩

theorem rangeJailed_known (index : Index) (jailed : List (String × Validator)) :
    ∀ acc : List Validator, (∀ e ∈ jailed, ∃ id, index e.1 = some id) →
      ∃ vals : List Validator, rangeJailed index jailed acc = (acc ++ vals, none) ∧
        List.Forall₂ (fun e v => index e.1 = some v.Id ∧ v = { e.2 with Id := v.Id })
          jailed vals := by
  induction jailed with
  | nil => intro acc _; exact ⟨[], by simp [rangeJailed], List.Forall₂.nil⟩
  | cons x rest ih =>
    intro acc h
    obtain ⟨address, val⟩ := x
    obtain ⟨id, hid⟩ := h (address, val) (List.mem_cons_self _ _)
    obtain ⟨vals, h1, h2⟩ := ih (acc ++ [{ val with Id := id }])
      (fun e he => h e (List.mem_cons_of_mem _ he))
    refine ⟨{ val with Id := id } :: vals, ?_, List.Forall₂.cons ⟨hid, rfl⟩ h2⟩
    simp only [rangeJailed]
    simp only [] at hid
    rw [hid]
    simpa using h1

theorem jailedStep_clean {σ : Type} (tx : Transaction σ) (module : Module) (s : σ)
    (jailed : List (String × Validator))
    (hKnown : ∀ e ∈ jailed, ∃ id, module.validatorsByConsAddress e.1 = some id)
    (h : ∀ e ∈ (jailedStep tx module s jailed).2.1, e.answer.err = none) :
    (jailedStep tx module s jailed).2.2 = none := by
  obtain ⟨vals, hr, -⟩ := rangeJailed_known module.validatorsByConsAddress jailed [] hKnown
  revert h
  simp only [jailedStep, hr]
  split
  · intro h
    exact h _ (List.mem_singleton.2 rfl)
  · intro _
    rfl

theorem jailsLoop_clean {σ : Type} (tx : Transaction σ) (module : Module) (jails : List Jail) :
    ∀ s : σ, (∀ e ∈ (jailsLoop tx module s jails).2.1, e.answer.err = none) →
      (jailsLoop tx module s jails).2.2.2 = none := by
  induction jails with
  | nil => intro s _; rfl
  | cons jail rest ih =>
    intro s
    simp only [jailsLoop]
    split
    · exact ih s
    · split
      · rename_i err hu
        intro h
        have := h _ (List.mem_singleton.2 rfl)
        simp only [Answer.err] at this
        rw [hu] at this
        cases this
      · split
        · rename_i err hb
          intro h
          have := h _ (List.mem_cons_of_mem _ (List.mem_singleton.2 rfl))
          simp only [Answer.err] at this
          rw [hb] at this
          cases this
        · intro h
          exact ih _ (fun e he => h e (by simp [he]))

theorem jailsStep_clean {σ : Type} (tx : Transaction σ) (module : Module) (s : σ)
    (jails : List Jail) (h : ∀ e ∈ (jailsStep tx module s jails).2.1, e.answer.err = none) :
    (jailsStep tx module s jails).2.2 = none := by
  revert h
  simp only [jailsStep]
  split
  · split
    · rename_i err hl
      intro h
      have := jailsLoop_clean tx module jails s h
      rw [hl] at this
      cases this
    · intro h
      exact h _ (List.mem_append_right _ (List.mem_singleton.2 rfl))
  · intro _
    rfl

theorem validatorsStep_clean {σ : Type} (tx : Transaction σ) (module : Module) (s : σ)
    (log : List Entry) (validators : List Validator)
    (h : ∀ e ∈ (validatorsStep tx module s log validators).trace, e.answer.err = none) :
    (validatorsStep tx module s log validators).err = none := by
  revert h
  simp only [validatorsStep]
  split
  · intro _; rfl
  · split
    · rename_i err hr
      intro h
      have := h _ (List.mem_append_right _ (List.mem_singleton.2 rfl))
      simp only [Answer.err] at this
      rw [hr] at this
      cases this
    · split
      · intro _; rfl
      · intro _; rfl

theorem saveValidators_clean {σ : Type} (tx : Transaction σ) (module : Module) (s : σ)
    (validators : List Validator) (jailed : List (String × Validator)) (jails : List Jail)
    (h : ∀ e ∈ (saveValidators tx module s validators jailed jails).trace, e.answer.err = none)
    (hKnown : ∀ e ∈ jailed, ∃ id, module.validatorsByConsAddress e.1 = some id) :
    (saveValidators tx module s validators jailed jails).err = none := by
  revert h
  simp only [saveValidators]
  split
  · rename_i err ha
    intro h
    have := jailedStep_clean tx module s jailed hKnown h
    rw [ha] at this
    cases this
  · split
    · rename_i err hb
      intro h
      have := jailsStep_clean tx module _ jails (fun e he => h e (List.mem_append_right _ he))
      rw [hb] at this
      cases this
    · intro h
      exact validatorsStep_clean tx module _ _ validators h

theorem saveValidators_calls {σ : Type} (tx : Transaction σ) (module : Module) (s : σ)
    (validators : List Validator) (jailed : List (String × Validator)) (jails : List Jail)
    (hOk : (saveValidators tx module s validators jailed jails).err = none)
    (hJails : jails ≠ []) :
    ∃ (pre post : List Call) (bss : List (List Balance)),
      (saveValidators tx module s validators jailed jails).trace.map (·.call) =
          pre ++ slashCalls module ((jails.filter (slashed module)).zip bss) ++
            [.SaveJails (jails.map (resolveJail module.validatorsByConsAddress))] ++ post ∧
        bss.length = (jails.filter (slashed module)).length ∧
        (∀ c ∈ pre, ∃ vs, c = .Jail vs) ∧ ∀ c ∈ post, ∃ vs, c = .SaveValidators vs := by
  revert hOk
  simp only [saveValidators]
  split
  · intro h; simp at h
  · split
    · intro h; simp at h
    · rename_i ha hb
      intro _
      obtain ⟨post, h1, h2⟩ := validatorsStep_trace tx module
        (jailsStep tx module (jailedStep tx module s jailed).1 jails).1
        ((jailedStep tx module s jailed).2.1 ++
          (jailsStep tx module (jailedStep tx module s jailed).1 jails).2.1) validators
      obtain ⟨bss, h3, h4⟩ := jailsStep_ok tx module _ jails hb hJails
      refine ⟨(jailedStep tx module s jailed).2.1.map (·.call), post.map (·.call), bss, ?_, h3,
        ?_, ?_⟩
      · rw [h1]
        simp only [List.map_append, h4, List.append_assoc]
      · intro c hc
        obtain ⟨e, he, rfl⟩ := List.mem_map.1 hc
        exact jailedStep_calls tx module s jailed e he
      · intro c hc
        obtain ⟨e, he, rfl⟩ := List.mem_map.1 hc
        exact h2 e he

/-- Claim C10, amended: the fraction of a jail is `slashingForDoubleSign` for `double_sign`,
`slashingForDowntime` for `missing_signature` and zero for any other reason; the identity of a
jail is the one the index has for the consensus address of its validator, and the one the jail
came with when the index has none; in every run the calls of `UpdateSlashedDelegations` are, in
order, those of the jails with a positive fraction, with that identity and fraction, up to the
first failure; when the call returns no error and there is a jail, the calls are those of
`Jail`, then for each jail with a positive fraction, and for no other, `UpdateSlashedDelegations`
followed by `SaveBalances`, then `SaveJails` on every jail, then those of `SaveValidators`; and
when no storage call answers an error and every jailed validator is in the index, the call
returns no error, so that its calls are these. -/
theorem slashing_selection {σ : Type} (tx : Transaction σ) (module : Module) (s : σ)
    (validators : List Validator) (jailed : List (String × Validator)) (jails : List Jail) :
    (slashingFraction module "double_sign" = module.slashingForDoubleSign ∧
        slashingFraction module "missing_signature" = module.slashingForDowntime ∧
        ∀ reason : String, reason ≠ "double_sign" → reason ≠ "missing_signature" →
          slashingFraction module reason = Decimal.zero) ∧
      (∀ jail : Jail,
        (resolveJail module.validatorsByConsAddress jail).ValidatorId =
          match module.validatorsByConsAddress jail.Validator.ConsAddress with
          | some id => id
          | none => jail.ValidatorId) ∧
      ((saveValidators tx module s validators jailed jails).trace.map (·.call)).filterMap
          Call.slashArgs <+: expectedSlashes module jails ∧
      ((saveValidators tx module s validators jailed jails).err = none → jails ≠ [] →
        ∃ (pre post : List Call) (bss : List (List Balance)),
          (saveValidators tx module s validators jailed jails).trace.map (·.call) =
              pre ++ slashCalls module ((jails.filter (slashed module)).zip bss) ++
                [.SaveJails (jails.map (resolveJail module.validatorsByConsAddress))] ++ post ∧
            bss.length = (jails.filter (slashed module)).length ∧
            (∀ c ∈ pre, ∃ vs, c = .Jail vs) ∧ ∀ c ∈ post, ∃ vs, c = .SaveValidators vs) ∧
      ((∀ e ∈ (saveValidators tx module s validators jailed jails).trace,
          e.answer.err = none) →
        (∀ e ∈ jailed, ∃ id, module.validatorsByConsAddress e.1 = some id) →
        (saveValidators tx module s validators jailed jails).err = none ∧
          (jails ≠ [] →
            ∃ (pre post : List Call) (bss : List (List Balance)),
              (saveValidators tx module s validators jailed jails).trace.map (·.call) =
                  pre ++ slashCalls module ((jails.filter (slashed module)).zip bss) ++
                    [.SaveJails (jails.map (resolveJail module.validatorsByConsAddress))] ++
                    post ∧
                bss.length = (jails.filter (slashed module)).length ∧
                (∀ c ∈ pre, ∃ vs, c = .Jail vs) ∧
                ∀ c ∈ post, ∃ vs, c = .SaveValidators vs)) := by
  refine ⟨⟨by simp [slashingFraction], by simp [slashingFraction], ?_⟩, ?_, ?_,
    saveValidators_calls tx module s validators jailed jails, ?_⟩
  · intro reason h1 h2
    simp [slashingFraction, h1, h2]
  · intro jail
    unfold resolveJail
    split <;> simp_all
  · simp only [saveValidators]
    split
    · rw [jailedStep_slash]; exact List.nil_prefix
    · split
      · simp only [List.map_append, List.filterMap_append, jailedStep_slash, List.nil_append]
        exact jailsStep_slashes tx module _ jails
      · obtain ⟨post, h1, h2⟩ := validatorsStep_trace tx module
          (jailsStep tx module (jailedStep tx module s jailed).1 jails).1
          ((jailedStep tx module s jailed).2.1 ++
            (jailsStep tx module (jailedStep tx module s jailed).1 jails).2.1) validators
        rw [h1]
        have h3 : (post.map (·.call)).filterMap Call.slashArgs = [] := by
          rw [List.filterMap_eq_nil_iff]
          intro c hc
          obtain ⟨e, he, rfl⟩ := List.mem_map.1 hc
          obtain ⟨vs, hvs⟩ := h2 e he
          simp [hvs, Call.slashArgs]
        simp only [List.map_append, List.filterMap_append, jailedStep_slash, List.nil_append,
          h3, List.append_nil]
        exact jailsStep_slashes tx module _ jails
  · intro hClean hKnown
    have hOk := saveValidators_clean tx module s validators jailed jails hClean hKnown
    exact ⟨hOk, saveValidators_calls tx module s validators jailed jails hOk⟩

/-- Witness of C10: with the indexed validator jailed and the sample jails, one for each kind of
reason, no call answers an error, `saveValidators` returns no error and its calls are `Jail`,
the two slashings, `SaveJails` on the three jails, and no `SaveValidators`. -/
theorem slashing_selection_witness :
    (saveValidators (sampleTx none) sampleModule 0 [] [("cons1", ⟨0, "oper1", "cons1"⟩)]
        sampleJails).err = none ∧
      ∃ (pre post : List Call) (bss : List (List Balance)),
        (saveValidators (sampleTx none) sampleModule 0 [] [("cons1", ⟨0, "oper1", "cons1"⟩)]
            sampleJails).trace.map (·.call) =
            pre ++
              slashCalls sampleModule ((sampleJails.filter (slashed sampleModule)).zip bss) ++
              [.SaveJails (sampleJails.map (resolveJail sampleModule.validatorsByConsAddress))] ++
              post ∧
          bss.length = (sampleJails.filter (slashed sampleModule)).length ∧
          (∀ c ∈ pre, ∃ vs, c = .Jail vs) ∧ ∀ c ∈ post, ∃ vs, c = .SaveValidators vs :=
  have h := (slashing_selection (sampleTx none) sampleModule 0 []
    [("cons1", ⟨0, "oper1", "cons1"⟩)] sampleJails).2.2.2.2 (by decide)
    (by intro e he; simp only [List.mem_singleton] at he; subst he; exact ⟨1, by decide⟩)
  ⟨h.1, h.2 (by decide)⟩

/-- Claim C10, as stated, fails, in three ways.  The consensus address of the validator of a
`double_sign` jail is not in the index, and `UpdateSlashedDelegations` is called with the
identity 99 the jail came with.  When a jailed validator is unknown no storage call fails, none
being made, and the jail, whose fraction is positive, is neither slashed nor passed to
`SaveJails`.  And when `UpdateSlashedDelegations` answers an error for the first jail, the
second jail, whose fraction is positive, is not slashed. -/
theorem slashing_unindexed_validator :
    sampleModule.validatorsByConsAddress "cons9" = none ∧
      (saveValidators (sampleTx none) sampleModule 0 [] []
          [⟨10, 99, "double_sign", ⟨0, "oper9", "cons9"⟩⟩]).trace.map (·.call) =
        [.UpdateSlashedDelegations 99 ⟨5, -2⟩, .SaveBalances [⟨99, ⟨-1, 0⟩⟩],
          .SaveJails [⟨10, 99, "double_sign", ⟨0, "oper9", "cons9"⟩⟩]] ∧
      (saveValidators (sampleTx none) sampleModule 0 [] [("cons9", ⟨0, "oper9", "cons9"⟩)]
          [⟨10, 0, "double_sign", ⟨0, "oper1", "cons1"⟩⟩]).trace = [] ∧
      (saveValidators (sampleTx none) sampleModule 0 [] [("cons9", ⟨0, "oper9", "cons9"⟩)]
          [⟨10, 0, "double_sign", ⟨0, "oper1", "cons1"⟩⟩]).err =
        some "unknown jailed validator: cons9" ∧
      sampleJails.map (slashed sampleModule) = [true, true, false] ∧
      (saveValidators failingTx sampleModule 0 [] [] sampleJails).trace.map (·.call) =
        [.UpdateSlashedDelegations 1 ⟨5, -2⟩] ∧
      (saveValidators failingTx sampleModule 0 [] [] sampleJails).err =
        some "storage failure" := by
  decide

theorem index_unchanged_witness :
    (saveValidators (sampleTx none) sampleModule 0 [⟨0, "oper2", "cons2"⟩]
        [("cons9", ⟨0, "oper9", "cons9"⟩)] []).module.validatorsByConsAddress =
        sampleModule.validatorsByConsAddress ∧
      (saveValidators (sampleTx none) sampleModule 0 [⟨0, "oper2", "cons2"⟩]
        [("cons9", ⟨0, "oper9", "cons9"⟩)] []).module.validatorsByAddress =
        sampleModule.validatorsByAddress ∧
      (saveValidators (sampleTx none) sampleModule 0 [⟨0, "oper2", "cons2"⟩]
        [("cons9", ⟨0, "oper9", "cons9"⟩)] []).count = 0 :=
  index_unchanged (sampleTx none) sampleModule 0 [⟨0, "oper2", "cons2"⟩]
    [("cons9", ⟨0, "oper9", "cons9"⟩)] [] (Or.inl (by decide))

/-- Claim C11: when a consensus address of the jailed map is not in the index, `saveValidators`
returns the count 0 and the error `unknown jailed validator:` followed by such an address, makes
no storage call and leaves the module as it was; and when every jailed address is in the index
and there is one at least, the first storage call is `Jail`, on the jailed validators in the
order they are visited, each with the identity the index has for its address. -/
theorem unknown_jailed {σ : Type} (tx : Transaction σ) (module : Module) (s : σ)
    (validators : List Validator) (jailed : List (String × Validator)) (jails : List Jail) :
    ((∃ e ∈ jailed, module.validatorsByConsAddress e.1 = none) →
        (saveValidators tx module s validators jailed jails).count = 0 ∧
          (saveValidators tx module s validators jailed jails).trace = [] ∧
          (saveValidators tx module s validators jailed jails).module.validatorsByConsAddress =
            module.validatorsByConsAddress ∧
          ∃ address, (∃ e ∈ jailed, e.1 = address) ∧
            module.validatorsByConsAddress address = none ∧
            (saveValidators tx module s validators jailed jails).err =
              some ("unknown jailed validator: " ++ address)) ∧
      ((∀ e ∈ jailed, ∃ id, module.validatorsByConsAddress e.1 = some id) → jailed ≠ [] →
        ∃ (vals : List Validator) (answer : Answer) (rest : List Entry),
          (saveValidators tx module s validators jailed jails).trace =
              ⟨.Jail vals, answer⟩ :: rest ∧
            List.Forall₂
              (fun e v => module.validatorsByConsAddress e.1 = some v.Id ∧
                v = { e.2 with Id := v.Id })
              jailed vals) := by
  constructor
  · intro h
    have hlen : jailed.length > 0 := by
      obtain ⟨e, he, -⟩ := h
      exact List.length_pos_of_mem he
    obtain ⟨address, h1, h2, h3⟩ := rangeJailed_unknown module.validatorsByConsAddress jailed [] h
    have ha : jailedStep tx module s jailed =
        (s, [], some ("unknown jailed validator: " ++ address)) := by
      simp only [jailedStep, hlen, if_true, h3]
    exact ⟨by simp [saveValidators, ha], by simp [saveValidators, ha],
      by simp [saveValidators, ha], address, h1, h2, by simp [saveValidators, ha]⟩
  · intro h hne
    have hlen : jailed.length > 0 := List.length_pos.2 hne
    obtain ⟨vals, h1, h2⟩ := rangeJailed_known module.validatorsByConsAddress jailed [] h
    have ha : jailedStep tx module s jailed =
        ((tx.Jail s vals).1, [⟨.Jail vals, .done (tx.Jail s vals).2⟩], (tx.Jail s vals).2) := by
      simp only [jailedStep, hlen, if_true, h1, List.nil_append]
    simp only [saveValidators, ha]
    split
    · exact ⟨vals, _, [], rfl, h2⟩
    · split
      · exact ⟨vals, _, _, rfl, h2⟩
      · obtain ⟨post, hp, -⟩ := validatorsStep_trace tx module
          (jailsStep tx module (tx.Jail s vals).1 jails).1
          ([⟨.Jail vals, .done (tx.Jail s vals).2⟩] ++
            (jailsStep tx module (tx.Jail s vals).1 jails).2.1) validators
        rw [hp]
        exact ⟨vals, _, _, rfl, h2⟩

theorem unknown_jailed_witness :
    ((saveValidators (sampleTx none) sampleModule 0 [⟨0, "oper2", "cons2"⟩]
          [("cons1", ⟨0, "oper1", "cons1"⟩), ("cons9", ⟨0, "oper9", "cons9"⟩)] sampleJails).count =
        0 ∧
        (saveValidators (sampleTx none) sampleModule 0 [⟨0, "oper2", "cons2"⟩]
          [("cons1", ⟨0, "oper1", "cons1"⟩), ("cons9", ⟨0, "oper9", "cons9"⟩)]
          sampleJails).trace = []) ∧
      ∃ (vals : List Validator) (answer : Answer) (rest : List Entry),
        (saveValidators (sampleTx none) sampleModule 0 [] [("cons1", ⟨0, "oper1", "cons1"⟩)]
            []).trace = ⟨.Jail vals, answer⟩ :: rest ∧
          List.Forall₂
            (fun e v => sampleModule.validatorsByConsAddress e.1 = some v.Id ∧
              v = { e.2 with Id := v.Id })
            [("cons1", (⟨0, "oper1", "cons1"⟩ : Validator))] vals :=
  have h := (unknown_jailed (sampleTx none) sampleModule 0 [⟨0, "oper2", "cons2"⟩]
    [("cons1", ⟨0, "oper1", "cons1"⟩), ("cons9", ⟨0, "oper9", "cons9"⟩)] sampleJails).1
    ⟨("cons9", ⟨0, "oper9", "cons9"⟩), by decide, by decide⟩
  ⟨⟨h.1, h.2.1⟩,
    (unknown_jailed (sampleTx none) sampleModule 0 [] [("cons1", ⟨0, "oper1", "cons1"⟩)] []).2
      (by intro e he; simp only [List.mem_singleton] at he; subst he; exact ⟨1, by decide⟩)
      (by decide)⟩

end Indexer.storage

/-! ## Properties of `save` -/

namespace Indexer.genesis

/-! ### The error exits -/

theorem AbortsOnError_append (ret : Option Error) (pre rest : List Entry) (h : Clean pre)
    (hr : AbortsOnError ret rest) : AbortsOnError ret (pre ++ rest) := by
  induction pre with
  | nil => simpa using hr
  | cons e pre ih =>
    have he : e.err = none := h e (by simp)
    refine ⟨?_, ih (fun x hx => h x (by simp [hx]))⟩
    intro _ err herr
    rw [he] at herr
    cases herr

theorem AbortsOnError_split (ret : Option Error) (pre : List Entry) (e : Entry)
    (post : List Entry) (h : AbortsOnError ret (pre ++ e :: post)) (hw : e.call.isWrite = true)
    (err : Error) (herr : e.err = some err) :
    post = [⟨.HandleError err, ret⟩, ⟨.Close, none⟩] := by
  induction pre with
  | nil => exact h.1 hw err herr
  | cons x pre ih => exact ih h.2

theorem Clean_append {l₁ l₂ : List Entry} (h₁ : Clean l₁) (h₂ : Clean l₂) : Clean (l₁ ++ l₂) := by
  intro e he
  rcases List.mem_append.1 he with he | he
  · exact h₁ e he
  · exact h₂ e he

theorem Clean_single (c : Call) : Clean [⟨c, none⟩] := by
  intro e he
  simp only [List.mem_singleton] at he
  simp [he]

theorem abort_aborts {σ : Type} (tx : Transaction σ) (log : List Entry) (c : Call) (s : σ)
    (err : Error) (block : Block) (h : Clean log) :
    AbortsOnError (abort tx (log ++ [⟨c, some err⟩]) s err block).err
      (abort tx (log ++ [⟨c, some err⟩]) s err block).trace := by
  simp only [abort, List.append_assoc]
  apply AbortsOnError_append _ _ _ h
  simp [AbortsOnError, Call.isWrite]

theorem saveTail_aborts {σ : Type} (tx : Transaction σ) (indexerName : String)
    (log : List Entry) (s : σ) (block : Block) (h : Clean log) :
    AbortsOnError (saveTail tx indexerName log s block).err
      (saveTail tx indexerName log s block).trace := by
  simp only [saveTail]
  split
  · rename_i err h1
    rw [h1]
    exact abort_aborts tx _ _ _ _ _ h
  · rename_i h1
    rw [h1]
    have c1 := Clean_append h (Clean_single (.SaveNamespaceMessage
      (namespaceMsgs (allMessages block.Txs))))
    split
    · rename_i err h2
      rw [h2]
      exact abort_aborts tx _ _ _ _ _ c1
    · rename_i h2
      rw [h2]
      have c2 := Clean_append c1 (Clean_single (.SaveTxAddresses (txAddresses block.Txs)))
      split
      · rename_i err h3
        rw [h3]
        exact abort_aborts tx _ _ _ _ _ c2
      · rename_i h3
        rw [h3]
        have c3 := Clean_append c2 (Clean_single (.AddState (stateRow indexerName block)))
        split
        · rename_i err h4
          rw [h4]
          exact abort_aborts tx _ _ _ _ _ c3
        · rename_i h4
          rw [h4]
          have c4 := Clean_append c3 (Clean_single .Flush)
          exact AbortsOnError_append _ _ _ c4 (by simp [AbortsOnError, Call.isWrite])

theorem addressesStep_shape {σ : Type} (tx : Transaction σ) (s : σ) (addresses : StrMap AddrPtr)
    (entities : List (AddrPtr × Address))
    (err : Option Error) (h : (addressesStep tx s addresses entities).2.2.2 = err) :
    StepShape (addressesStep tx s addresses entities).2.1 err := by
  subst h
  simp only [addressesStep]
  split
  · exact Or.inr ⟨_, by rfl, rfl⟩
  · exact Or.inl ⟨rfl, rfl⟩

theorem namespacesStep_shape {σ : Type} (tx : Transaction σ) (s : σ) (namespaces : StrMap NsPtr)
    (entities : List (NsPtr × Namespace))
    (err : Option Error) (h : (namespacesStep tx s namespaces entities).2.2.2 = err) :
    StepShape (namespacesStep tx s namespaces entities).2.1 err := by
  subst h
  simp only [namespacesStep]
  split
  · exact Or.inr ⟨_, by rfl, rfl⟩
  · exact Or.inl ⟨rfl, rfl⟩

theorem messagesStep_shape {σ : Type} (tx : Transaction σ) (s : σ) (messages : List Message)
    (err : Option Error) (h : (messagesStep tx s messages).2.2.2 = err) :
    StepShape (messagesStep tx s messages).2.1 err := by
  subst h
  simp only [messagesStep]
  split
  · exact Or.inr ⟨_, by rfl, rfl⟩
  · exact Or.inl ⟨rfl, rfl⟩

theorem eventsStep_shape {σ : Type} (tx : Transaction σ) (s : σ) (events : List Event)
    (err : Option Error) (h : (eventsStep tx s events).2.2 = err) :
    StepShape (eventsStep tx s events).2.1 err := by
  subst h
  simp only [eventsStep]
  split
  · exact Or.inr ⟨_, by rfl, rfl⟩
  · exact Or.inl ⟨rfl, rfl⟩

theorem StepShape.clean {l : List Entry} (h : StepShape l none) : Clean l := by
  rcases h with ⟨rfl, -⟩ | ⟨c, -, rfl⟩
  · intro e he; simp at he
  · exact Clean_single c

theorem StepShape.aborts {σ : Type} {l : List Entry} {err : Error} (h : StepShape l (some err))
    (tx : Transaction σ) (log : List Entry) (s : σ) (block : Block) (hlog : Clean log) :
    AbortsOnError (abort tx (log ++ l) s err block).err (abort tx (log ++ l) s err block).trace := by
  rcases h with ⟨-, h⟩ | ⟨c, -, rfl⟩
  · cases h
  · exact abort_aborts tx log c s err block hlog

theorem saveBody_aborts {σ : Type} (tx : Transaction σ) (F : Stringers) (ord : RangeOrder)
    (indexerName : String) (log : List Entry) (s : σ) (block : Block)
    (parsed : StrMap Address) (h : Clean log) :
    AbortsOnError (saveBody tx F ord indexerName log s block parsed).err
      (saveBody tx F ord indexerName log s block parsed).trace := by
  simp only [saveBody]
  split
  · rename_i err h1
    exact (addressesStep_shape _ _ _ _ _ h1).aborts tx log _ _ h
  · rename_i h1
    have c1 := Clean_append h (addressesStep_shape _ _ _ _ _ h1).clean
    split
    · rename_i err h2
      exact (namespacesStep_shape _ _ _ _ _ h2).aborts tx _ _ _ c1
    · rename_i h2
      have c2 := Clean_append c1 (namespacesStep_shape _ _ _ _ _ h2).clean
      split
      · rename_i err h3
        exact (messagesStep_shape _ _ _ _ h3).aborts tx _ _ _ c2
      · rename_i h3
        have c3 := Clean_append c2 (messagesStep_shape _ _ _ _ h3).clean
        split
        · rename_i err h4
          exact (eventsStep_shape _ _ _ _ h4).aborts tx _ _ _ c3
        · rename_i h4
          exact saveTail_aborts tx indexerName _ _ _
            (Clean_append c3 (eventsStep_shape _ _ _ _ h4).clean)

theorem save_aborts {σ : Type} (tx : Transaction σ) (F : Stringers) (ord : RangeOrder)
    (indexerName : String) (s : σ) (data : parsedData) :
    AbortsOnError (save tx F ord indexerName s data).err
      (save tx F ord indexerName s data).trace := by
  simp only [save]
  have c0 : Clean [⟨.BeginTransaction, none⟩] := Clean_single _
  split
  · simp [AbortsOnError, Call.isWrite]
  · split
    · rename_i err h1
      rw [h1]
      exact abort_aborts tx _ _ _ _ _ c0
    · rename_i h1
      rw [h1]
      have c1 := Clean_append c0 (Clean_single (.AddBlock data.block))
      split
      · rename_i err h2
        rw [h2]
        exact abort_aborts tx _ _ _ _ _ c1
      · rename_i h2
        rw [h2]
        have c2 := Clean_append c1 (Clean_single (.AddStats data.block.Stats))
        split
        · rename_i err h3
          rw [h3]
          exact abort_aborts tx _ _ _ _ _ c2
        · rename_i h3
          rw [h3]
          exact saveBody_aborts tx F ord indexerName _ _ _ _
            (Clean_append c2 (Clean_single (.SaveTransactions data.block.Txs)))

theorem Early_append {l₁ l₂ : List Entry} (h₁ : Early l₁) (h₂ : Early l₂) : Early (l₁ ++ l₂) := by
  intro e he
  rcases List.mem_append.1 he with he | he
  · exact h₁ e he
  · exact h₂ e he

theorem abort_early {σ : Type} (tx : Transaction σ) (log : List Entry) (s : σ) (err : Error)
    (block : Block) (h : Early log) : Early (abort tx log s err block).trace := by
  simp only [abort]
  exact Early_append h (by simp [Early, Call.isLate])

theorem Early.noCommit {l : List Entry} (h : Early l) :
    ∀ e ∈ l, e.call ≠ .Flush ∧ ∀ state, e.call ≠ .AddState state := by
  intro e he
  have := h e he
  constructor
  · intro hc; rw [hc] at this; simp [Call.isLate] at this
  · intro state hc; rw [hc] at this; simp [Call.isLate] at this

theorem saveTail_junction {σ : Type} (tx : Transaction σ) (indexerName : String)
    (log : List Entry) (s : σ) (block : Block) (h : Early log)
    (rows : List NamespaceMessage) (err : Error)
    (hmem : (⟨.SaveNamespaceMessage rows, some err⟩ : Entry) ∈
      (saveTail tx indexerName log s block).trace) :
    ∀ e ∈ (saveTail tx indexerName log s block).trace,
      e.call ≠ .Flush ∧ ∀ state, e.call ≠ .AddState state := by
  have hl := h.noCommit
  have hin : (⟨.SaveNamespaceMessage rows, some err⟩ : Entry) ∉ log := by
    intro hc
    have := h _ hc
    simp [Call.isLate] at this
  revert hmem
  simp only [saveTail]
  split
  · intro _
    simp only [abort, List.append_assoc]
    simpa [or_imp, forall_and] using hl
  · rename_i h1
    rw [h1]
    split
    · simp [abort, hin]
    · rename_i h2
      rw [h2]
      split
      · simp [abort, hin]
      · rename_i h3
        rw [h3]
        split
        · simp [abort, hin]
        · simp [hin]

theorem addressesStep_early {σ : Type} (tx : Transaction σ) (s : σ) (addresses : StrMap AddrPtr)
    (entities : List (AddrPtr × Address)) :
    Early (addressesStep tx s addresses entities).2.1 := by
  simp only [addressesStep]
  split <;> simp [Early, Call.isLate]

theorem namespacesStep_early {σ : Type} (tx : Transaction σ) (s : σ)
    (namespaces : StrMap NsPtr) (entities : List (NsPtr × Namespace)) :
    Early (namespacesStep tx s namespaces entities).2.1 := by
  simp only [namespacesStep]
  split <;> simp [Early, Call.isLate]

theorem messagesStep_early {σ : Type} (tx : Transaction σ) (s : σ) (messages : List Message) :
    Early (messagesStep tx s messages).2.1 := by
  simp only [messagesStep]
  split <;> simp [Early, Call.isLate]

theorem eventsStep_early {σ : Type} (tx : Transaction σ) (s : σ) (events : List Event) :
    Early (eventsStep tx s events).2.1 := by
  simp only [eventsStep]
  split <;> simp [Early, Call.isLate]

theorem saveBody_junction {σ : Type} (tx : Transaction σ) (F : Stringers) (ord : RangeOrder)
    (indexerName : String) (log : List Entry) (s : σ) (block : Block)
    (parsed : StrMap Address) (h : Early log) (rows : List NamespaceMessage) (err : Error)
    (hmem : (⟨.SaveNamespaceMessage rows, some err⟩ : Entry) ∈
      (saveBody tx F ord indexerName log s block parsed).trace) :
    ∀ e ∈ (saveBody tx F ord indexerName log s block parsed).trace,
      e.call ≠ .Flush ∧ ∀ state, e.call ≠ .AddState state := by
  revert hmem
  simp only [saveBody]
  split
  · intro _
    refine (abort_early tx _ _ _ _ ?_).noCommit
    exact Early_append h (addressesStep_early _ _ _ _)
  · split
    · intro _
      refine (abort_early tx _ _ _ _ ?_).noCommit
      exact Early_append (Early_append h (addressesStep_early _ _ _ _))
        (namespacesStep_early _ _ _ _)
    · split
      · intro _
        refine (abort_early tx _ _ _ _ ?_).noCommit
        exact Early_append (Early_append (Early_append h (addressesStep_early _ _ _ _))
          (namespacesStep_early _ _ _ _)) (messagesStep_early _ _ _)
      · split
        · intro _
          refine (abort_early tx _ _ _ _ ?_).noCommit
          exact Early_append (Early_append (Early_append (Early_append h
            (addressesStep_early _ _ _ _)) (namespacesStep_early _ _ _ _))
            (messagesStep_early _ _ _)) (eventsStep_early _ _ _)
        · intro hmem
          refine saveTail_junction tx indexerName _ _ _ ?_ rows err hmem
          exact Early_append (Early_append (Early_append (Early_append h
            (addressesStep_early _ _ _ _)) (namespacesStep_early _ _ _ _))
            (messagesStep_early _ _ _)) (eventsStep_early _ _ _)

theorem save_junction {σ : Type} (tx : Transaction σ) (F : Stringers) (ord : RangeOrder)
    (indexerName : String) (s : σ) (data : parsedData) (rows : List NamespaceMessage)
    (err : Error)
    (hmem : (⟨.SaveNamespaceMessage rows, some err⟩ : Entry) ∈
      (save tx F ord indexerName s data).trace) :
    ∀ e ∈ (save tx F ord indexerName s data).trace,
      e.call ≠ .Flush ∧ ∀ state, e.call ≠ .AddState state := by
  revert hmem
  simp only [save]
  split
  · simp
  · split
    · simp [abort]
    · split
      · simp [abort]
      · split
        · simp [abort]
        · intro hmem
          refine saveBody_junction tx F ord indexerName _ _ _ _ ?_ rows err hmem
          simp [Early, Call.isLate]

theorem saveTail_junction_tx {σ : Type} (tx : Transaction σ) (indexerName : String)
    (log : List Entry) (s : σ) (block : Block) (h : Early log)
    (rows : List TxAddress) (err : Error)
    (hmem : (⟨.SaveTxAddresses rows, some err⟩ : Entry) ∈
      (saveTail tx indexerName log s block).trace) :
    ∀ e ∈ (saveTail tx indexerName log s block).trace,
      e.call ≠ .Flush ∧ ∀ state, e.call ≠ .AddState state := by
  have hl := h.noCommit
  have hin : (⟨.SaveTxAddresses rows, some err⟩ : Entry) ∉ log := by
    intro hc
    have := h _ hc
    simp [Call.isLate] at this
  revert hmem
  simp only [saveTail]
  split
  · intro _
    simp only [abort, List.append_assoc]
    simpa [or_imp, forall_and] using hl
  · rename_i h1
    rw [h1]
    split
    · intro _
      simp only [abort, List.append_assoc]
      simpa [or_imp, forall_and] using hl
    · rename_i h2
      rw [h2]
      split
      · simp [abort, hin]
      · rename_i h3
        rw [h3]
        split
        · simp [abort, hin]
        · simp [hin]

theorem saveBody_junction_tx {σ : Type} (tx : Transaction σ) (F : Stringers)
    (ord : RangeOrder) (indexerName : String) (log : List Entry) (s : σ) (block : Block)
    (parsed : StrMap Address) (h : Early log) (rows : List TxAddress) (err : Error)
    (hmem : (⟨.SaveTxAddresses rows, some err⟩ : Entry) ∈
      (saveBody tx F ord indexerName log s block parsed).trace) :
    ∀ e ∈ (saveBody tx F ord indexerName log s block parsed).trace,
      e.call ≠ .Flush ∧ ∀ state, e.call ≠ .AddState state := by
  revert hmem
  simp only [saveBody]
  split
  · intro _
    refine (abort_early tx _ _ _ _ ?_).noCommit
    exact Early_append h (addressesStep_early _ _ _ _)
  · split
    · intro _
      refine (abort_early tx _ _ _ _ ?_).noCommit
      exact Early_append (Early_append h (addressesStep_early _ _ _ _))
        (namespacesStep_early _ _ _ _)
    · split
      · intro _
        refine (abort_early tx _ _ _ _ ?_).noCommit
        exact Early_append (Early_append (Early_append h (addressesStep_early _ _ _ _))
          (namespacesStep_early _ _ _ _)) (messagesStep_early _ _ _)
      · split
        · intro _
          refine (abort_early tx _ _ _ _ ?_).noCommit
          exact Early_append (Early_append (Early_append (Early_append h
            (addressesStep_early _ _ _ _)) (namespacesStep_early _ _ _ _))
            (messagesStep_early _ _ _)) (eventsStep_early _ _ _)
        · intro hmem
          refine saveTail_junction_tx tx indexerName _ _ _ ?_ rows err hmem
          exact Early_append (Early_append (Early_append (Early_append h
            (addressesStep_early _ _ _ _)) (namespacesStep_early _ _ _ _))
            (messagesStep_early _ _ _)) (eventsStep_early _ _ _)

theorem save_junction_tx {σ : Type} (tx : Transaction σ) (F : Stringers) (ord : RangeOrder)
    (indexerName : String) (s : σ) (data : parsedData) (rows : List TxAddress)
    (err : Error)
    (hmem : (⟨.SaveTxAddresses rows, some err⟩ : Entry) ∈
      (save tx F ord indexerName s data).trace) :
    ∀ e ∈ (save tx F ord indexerName s data).trace,
      e.call ≠ .Flush ∧ ∀ state, e.call ≠ .AddState state := by
  revert hmem
  simp only [save]
  split
  · simp
  · split
    · simp [abort]
    · split
      · simp [abort]
      · split
        · simp [abort]
        · intro hmem
          refine saveBody_junction_tx tx F ord indexerName _ _ _ _ ?_ rows err hmem
          simp [Early, Call.isLate]

/-- Claim C4: in the trace of `save`, a write that answers an error is followed by `HandleError`
on that error, whose answer is what `save` returns, then by `Close`, and by no other call; and
when an insert of junction rows answers an error, `SaveNamespaceMessage` or `SaveTxAddresses`,
the trace has neither the `Add` of the state row nor `Flush`. -/
theorem save_rollback {σ : Type} (tx : Transaction σ) (F : Stringers) (ord : RangeOrder)
    (indexerName : String) (s : σ) (data : parsedData) :
    (∀ (pre post : List Entry) (call : Call) (err : Error),
        (save tx F ord indexerName s data).trace = pre ++ ⟨call, some err⟩ :: post →
        call.isWrite = true →
        post = [⟨.HandleError err, (save tx F ord indexerName s data).err⟩, ⟨.Close, none⟩]) ∧
      (∀ (rows : List NamespaceMessage) (err : Error),
        (⟨.SaveNamespaceMessage rows, some err⟩ : Entry) ∈
          (save tx F ord indexerName s data).trace →
        ∀ e ∈ (save tx F ord indexerName s data).trace,
          e.call ≠ .Flush ∧ ∀ state, e.call ≠ .AddState state) ∧
      ∀ (rows : List TxAddress) (err : Error),
        (⟨.SaveTxAddresses rows, some err⟩ : Entry) ∈
          (save tx F ord indexerName s data).trace →
        ∀ e ∈ (save tx F ord indexerName s data).trace,
          e.call ≠ .Flush ∧ ∀ state, e.call ≠ .AddState state := by
  refine ⟨?_, save_junction tx F ord indexerName s data,
    save_junction_tx tx F ord indexerName s data⟩
  intro pre post call err ht hw
  have h := save_aborts tx F ord indexerName s data
  rw [ht] at h
  exact AbortsOnError_split _ pre ⟨call, some err⟩ post h hw err rfl

/-! ### The walk over the namespaces as one loop -/

theorem contains_append {α : Type} (m : StrMap α) (e : String × α) (k : String) :
    StrMap.contains (m ++ [e]) k = (m.contains k || decide (e.1 = k)) := by
  simp [StrMap.contains]

theorem fresh_cons_of_contains (F : Stringers) (m : StrMap NsPtr) (x : NsPtr × Namespace)
    (rest : List (NsPtr × Namespace)) (h : m.contains (x.2.String F) = true) :
    fresh F m (x :: rest) = fresh F m rest := by
  simp only [fresh, firstOccurrences, List.filter_cons, h, Bool.not_true, Bool.false_eq_true,
    if_false, List.filter_filter]
  apply List.filter_congr
  intro y _
  by_cases hy : y.2.String F = x.2.String F
  · simp [hy, h]
  · simp [hy]

theorem fresh_cons_of_not_contains (F : Stringers) (m : StrMap NsPtr) (x : NsPtr × Namespace)
    (rest : List (NsPtr × Namespace)) (h : m.contains (x.2.String F) = false) :
    fresh F m (x :: rest) = x :: fresh F (m ++ [(x.2.String F, x.1)]) rest := by
  simp only [fresh, firstOccurrences, List.filter_cons, h, Bool.not_false, if_true,
    List.filter_filter, contains_append]
  congr 1
  apply List.filter_congr
  intro y _
  by_cases hy : y.2.String F = x.2.String F
  · simp [hy, h]
  · have hy' : ¬ x.2.String F = y.2.String F := fun e => hy e.symm
    simp [hy, hy']

theorem fresh_nil (F : Stringers) (l : List (NsPtr × Namespace)) :
    fresh F [] l = firstOccurrences F l := by
  simp [fresh, StrMap.contains]

theorem flatWalk_map (F : Stringers) (l : List (NsPtr × Namespace)) :
    ∀ m : StrMap NsPtr,
      (flatWalk F l m).2 = m ++ (fresh F m l).map fun x => (x.2.String F, x.1) := by
  induction l with
  | nil => intro m; simp [flatWalk, fresh, firstOccurrences]
  | cons x rest ih =>
    intro m
    simp only [flatWalk]
    by_cases h : m.contains (x.2.String F) = true
    · simp only [h, if_true, ih, fresh_cons_of_contains F m x rest h]
    · have h' : m.contains (x.2.String F) = false := by simpa using h
      simp only [h', Bool.false_eq_true, if_false, ih,
        fresh_cons_of_not_contains F m x rest h', List.map_cons, List.append_assoc,
        List.singleton_append]

theorem firstOccurrences_subset (F : Stringers) (l : List (NsPtr × Namespace)) :
    ∀ y ∈ firstOccurrences F l, y ∈ l := by
  induction l with
  | nil => simp [firstOccurrences]
  | cons x rest ih =>
    intro y hy
    simp only [firstOccurrences, List.mem_cons, List.mem_filter] at hy
    rcases hy with rfl | ⟨hy, -⟩
    · simp
    · exact List.mem_cons_of_mem _ (ih y hy)

theorem fresh_subset (F : Stringers) (m : StrMap NsPtr) (l : List (NsPtr × Namespace)) :
    ∀ y ∈ fresh F m l, y ∈ l := by
  intro y hy
  exact firstOccurrences_subset F l y (List.mem_filter.1 hy).1

theorem flatWalk_refs (F : Stringers) (l : List (NsPtr × Namespace)) (hl : l.Nodup) :
    ∀ m : StrMap NsPtr,
      (flatWalk F l m).1 =
        l.map fun x => if x ∈ fresh F m l then (x.1, x.2.counted) else x := by
  induction l with
  | nil => intro m; simp [flatWalk]
  | cons x rest ih =>
    intro m
    have hx : x ∉ rest := (List.nodup_cons.1 hl).1
    have hrest := (List.nodup_cons.1 hl).2
    simp only [flatWalk]
    by_cases h : m.contains (x.2.String F) = true
    · have hxf : x ∉ fresh F m rest := fun hc => hx (fresh_subset F m rest x hc)
      simp only [h, if_true, ih hrest, fresh_cons_of_contains F m x rest h, List.map_cons, hxf,
        if_false]
    · have h' : m.contains (x.2.String F) = false := by simpa using h
      simp only [h', Bool.false_eq_true, if_false, ih hrest,
        fresh_cons_of_not_contains F m x rest h', List.map_cons, List.mem_cons, true_or, if_true]
      congr 1
      apply List.map_congr_left
      intro y hy
      have hyx : y ≠ x := fun e => hx (e ▸ hy)
      simp [hyx]

theorem firstOccurrences_one (F : Stringers) (l : List (NsPtr × Namespace)) :
    ∀ x ∈ l, ((firstOccurrences F l).filter fun y =>
      decide (y.2.String F = x.2.String F)).length = 1 := by
  induction l with
  | nil => simp
  | cons y rest ih =>
    intro x hx
    simp only [firstOccurrences, List.filter_cons, List.filter_filter]
    by_cases hk : y.2.String F = x.2.String F
    · simp only [hk, decide_True, if_true, List.length_cons]
      have : (firstOccurrences F rest).filter (fun a =>
          decide (a.2.String F = x.2.String F) && decide (a.2.String F ≠ x.2.String F)) = [] := by
        rw [List.filter_eq_nil_iff]
        intro a _
        by_cases ha : a.2.String F = x.2.String F <;> simp [ha]
      rw [this]
      rfl
    · have hxr : x ∈ rest := by
        rcases List.mem_cons.1 hx with rfl | h
        · exact absurd rfl hk
        · exact h
      simp only [hk, decide_False, Bool.false_eq_true, if_false]
      rw [← ih x hxr]
      congr 1
      apply List.filter_congr
      intro a _
      by_cases ha : a.2.String F = x.2.String F
      · have : ¬ x.2.String F = y.2.String F := fun e => hk e.symm
        simp [ha, this]
      · simp [ha]

theorem firstOccurrences_first (F : Stringers) (l : List (NsPtr × Namespace)) :
    ∀ x ∈ firstOccurrences F l, ∃ pre post, l = pre ++ x :: post ∧
      ∀ y ∈ pre, y.2.String F ≠ x.2.String F := by
  induction l with
  | nil => simp [firstOccurrences]
  | cons y rest ih =>
    intro x hx
    simp only [firstOccurrences, List.mem_cons, List.mem_filter] at hx
    rcases hx with rfl | ⟨hx, hk⟩
    · exact ⟨[], rest, rfl, by simp⟩
    · obtain ⟨pre, post, h1, h2⟩ := ih x hx
      refine ⟨y :: pre, post, by simp [h1], ?_⟩
      intro z hz
      rcases List.mem_cons.1 hz with rfl | hz
      · intro e
        simp [e] at hk
      · exact h2 z hz

theorem firstOccurrences_sublist (F : Stringers) (l : List (NsPtr × Namespace)) :
    (firstOccurrences F l).Sublist l := by
  induction l with
  | nil => simp [firstOccurrences]
  | cons y rest ih =>
    simp only [firstOccurrences]
    exact ((List.filter_sublist _).trans ih).cons₂ y

theorem flatWalk_append (F : Stringers) (l₁ l₂ : List (NsPtr × Namespace)) :
    ∀ m : StrMap NsPtr,
      flatWalk F (l₁ ++ l₂) m =
        ((flatWalk F l₁ m).1 ++ (flatWalk F l₂ (flatWalk F l₁ m).2).1,
          (flatWalk F l₂ (flatWalk F l₁ m).2).2) := by
  induction l₁ with
  | nil => intro m; simp [flatWalk]
  | cons x rest ih =>
    intro m
    simp only [List.cons_append, flatWalk]
    split <;> simp [ih]

theorem namespaceLoop_flat (F : Stringers) (i j : Nat) (l : List Namespace) :
    ∀ (k : Nat) (m : StrMap NsPtr),
      nsRefs i j k (namespaceLoop F i j k l m).1 = (flatWalk F (nsRefs i j k l) m).1 ∧
        (namespaceLoop F i j k l m).2 = (flatWalk F (nsRefs i j k l) m).2 := by
  induction l with
  | nil => intro k m; simp [namespaceLoop, nsRefs, flatWalk]
  | cons n rest ih =>
    intro k m
    simp only [namespaceLoop, nsRefs, flatWalk]
    split
    · simp [nsRefs, (ih (k + 1) m).1, (ih (k + 1) m).2]
    · simp [nsRefs, (ih (k + 1) _).1, (ih (k + 1) _).2, Namespace.counted]

theorem messageLoop_flat (F : Stringers) (i txId : Nat) (l : List Message) :
    ∀ (j : Nat) (m : StrMap NsPtr),
      msgRefs i j (messageLoop F i txId j l m).1 = (flatWalk F (msgRefs i j l) m).1 ∧
        (messageLoop F i txId j l m).2 = (flatWalk F (msgRefs i j l) m).2 := by
  induction l with
  | nil => intro j m; simp [messageLoop, msgRefs, flatWalk]
  | cons msg rest ih =>
    intro j m
    simp only [messageLoop, msgRefs, flatWalk_append]
    have h := namespaceLoop_flat F i j msg.Namespace 0 m
    rw [h.1, h.2, (ih (j + 1) _).1, (ih (j + 1) _).2]
    exact ⟨rfl, rfl⟩

theorem txLoop_flat (F : Stringers) (l : List Tx) :
    ∀ (i : Nat) (m : StrMap NsPtr) (a : StrMap AddrPtr),
      txRefs i (txLoop F i l m a).1 = (flatWalk F (txRefs i l) m).1 ∧
        (txLoop F i l m a).2.1 = (flatWalk F (txRefs i l) m).2 := by
  induction l with
  | nil => intro i m a; simp [txLoop, txRefs, flatWalk]
  | cons t rest ih =>
    intro i m a
    simp only [txLoop, txRefs, flatWalk_append]
    have h := messageLoop_flat F i t.Id t.Messages 0 m
    rw [h.1, h.2, (ih (i + 1) _ _).1, (ih (i + 1) _ _).2]
    exact ⟨rfl, rfl⟩

theorem walk_flat (F : Stringers) (txs : List Tx) (parsed : StrMap Address) :
    namespaceRefs (walk F txs parsed).1 = (flatWalk F (namespaceRefs txs) []).1 ∧
      (walk F txs parsed).2.1 = (flatWalk F (namespaceRefs txs) []).2 :=
  txLoop_flat F txs 0 [] _

/-! ### Pointers are distinct -/

theorem nsRefs_ptr (i j : Nat) (l : List Namespace) :
    ∀ (k : Nat), ∀ x ∈ nsRefs i j k l, x.1.tx = i ∧ x.1.msg = j ∧ k ≤ x.1.ns := by
  induction l with
  | nil => intro k x hx; simp [nsRefs] at hx
  | cons n rest ih =>
    intro k x hx
    simp only [nsRefs, List.mem_cons] at hx
    rcases hx with rfl | hx
    · simp
    · have := ih (k + 1) x hx
      omega

theorem nsRefs_nodup (i j : Nat) (l : List Namespace) :
    ∀ (k : Nat), ((nsRefs i j k l).map Prod.fst).Nodup := by
  induction l with
  | nil => intro k; simp [nsRefs]
  | cons n rest ih =>
    intro k
    simp only [nsRefs, List.map_cons, List.nodup_cons]
    refine ⟨?_, ih (k + 1)⟩
    intro hc
    obtain ⟨x, hx, he⟩ := List.mem_map.1 hc
    have := nsRefs_ptr i j rest (k + 1) x hx
    rw [he] at this
    simp at this

theorem msgRefs_ptr (i : Nat) (l : List Message) :
    ∀ (j : Nat), ∀ x ∈ msgRefs i j l, x.1.tx = i ∧ j ≤ x.1.msg := by
  induction l with
  | nil => intro j x hx; simp [msgRefs] at hx
  | cons m rest ih =>
    intro j x hx
    simp only [msgRefs, List.mem_append] at hx
    rcases hx with hx | hx
    · have := nsRefs_ptr i j m.Namespace 0 x hx
      omega
    · have := ih (j + 1) x hx
      omega

theorem msgRefs_nodup (i : Nat) (l : List Message) :
    ∀ (j : Nat), ((msgRefs i j l).map Prod.fst).Nodup := by
  induction l with
  | nil => intro j; simp [msgRefs]
  | cons m rest ih =>
    intro j
    simp only [msgRefs, List.map_append]
    refine List.Nodup.append (nsRefs_nodup i j m.Namespace 0) (ih (j + 1)) ?_
    intro p hp hq
    obtain ⟨x, hx, rfl⟩ := List.mem_map.1 hp
    obtain ⟨y, hy, he⟩ := List.mem_map.1 hq
    have h1 := nsRefs_ptr i j m.Namespace 0 x hx
    have h2 := msgRefs_ptr i rest (j + 1) y hy
    rw [he] at h2
    omega

theorem txRefs_ptr (l : List Tx) :
    ∀ (i : Nat), ∀ x ∈ txRefs i l, i ≤ x.1.tx := by
  induction l with
  | nil => intro i x hx; simp [txRefs] at hx
  | cons t rest ih =>
    intro i x hx
    simp only [txRefs, List.mem_append] at hx
    rcases hx with hx | hx
    · have := msgRefs_ptr i t.Messages 0 x hx
      omega
    · have := ih (i + 1) x hx
      omega

theorem txRefs_nodup (l : List Tx) :
    ∀ (i : Nat), ((txRefs i l).map Prod.fst).Nodup := by
  induction l with
  | nil => intro i; simp [txRefs]
  | cons t rest ih =>
    intro i
    simp only [txRefs, List.map_append]
    refine List.Nodup.append (msgRefs_nodup i t.Messages 0) (ih (i + 1)) ?_
    intro p hp hq
    obtain ⟨x, hx, rfl⟩ := List.mem_map.1 hp
    obtain ⟨y, hy, he⟩ := List.mem_map.1 hq
    have h1 := msgRefs_ptr i t.Messages 0 x hx
    have h2 := txRefs_ptr rest (i + 1) y hy
    rw [he] at h2
    omega

theorem namespaceRefs_nodup (txs : List Tx) : ((namespaceRefs txs).map Prod.fst).Nodup :=
  txRefs_nodup txs 0

/-! ### The namespaces after the stores -/

theorem txRefs_storeTxIds (l : List Tx) :
    ∀ (i : Nat) (ids : List Nat), txRefs i (storeTxIds l ids) = txRefs i l := by
  induction l with
  | nil => intro i ids; cases ids <;> simp [storeTxIds]
  | cons t rest ih =>
    intro i ids
    cases ids with
    | nil => simp [storeTxIds]
    | cons id ids => simp [storeTxIds, txRefs, ih]

theorem txRefs_storeAddrIdsTx (st : AddrPtr → Option Nat) (l : List Tx) :
    ∀ (i : Nat), txRefs i (storeAddrIdsTx st i l) = txRefs i l := by
  induction l with
  | nil => intro i; simp [storeAddrIdsTx]
  | cons t rest ih => intro i; simp [storeAddrIdsTx, txRefs, ih]

theorem msgRefs_storeMsgIds (i : Nat) (l : List Message) :
    ∀ (j : Nat) (ids : List Nat), msgRefs i j (storeMsgIds l ids) = msgRefs i j l := by
  induction l with
  | nil => intro j ids; cases ids <;> simp [storeMsgIds]
  | cons m rest ih =>
    intro j ids
    cases ids with
    | nil => simp [storeMsgIds]
    | cons id ids => simp [storeMsgIds, msgRefs, ih]

theorem txRefs_storeMessageIds (l : List Tx) :
    ∀ (i : Nat) (ids : List Nat), txRefs i (storeMessageIds l ids) = txRefs i l := by
  induction l with
  | nil => intro i ids; simp [storeMessageIds]
  | cons t rest ih => intro i ids; simp [storeMessageIds, txRefs, ih, msgRefs_storeMsgIds]

theorem nsRefs_storeNsIdsNs (st : NsPtr → Option Nat) (i j : Nat) (l : List Namespace) :
    ∀ (k : Nat), nsRefs i j k (storeNsIdsNs st i j k l) =
      (nsRefs i j k l).map fun x => (x.1, x.2.withId (st x.1)) := by
  induction l with
  | nil => intro k; simp [storeNsIdsNs, nsRefs]
  | cons n rest ih =>
    intro k
    simp only [storeNsIdsNs, nsRefs, List.map_cons, ih]
    congr 2

theorem msgRefs_storeNsIdsMsg (st : NsPtr → Option Nat) (i : Nat) (l : List Message) :
    ∀ (j : Nat), msgRefs i j (storeNsIdsMsg st i j l) =
      (msgRefs i j l).map fun x => (x.1, x.2.withId (st x.1)) := by
  induction l with
  | nil => intro j; simp [storeNsIdsMsg, msgRefs]
  | cons m rest ih =>
    intro j
    simp only [storeNsIdsMsg, msgRefs, List.map_append, ih, nsRefs_storeNsIdsNs]

theorem txRefs_storeNsIdsTx (st : NsPtr → Option Nat) (l : List Tx) :
    ∀ (i : Nat), txRefs i (storeNsIdsTx st i l) =
      (txRefs i l).map fun x => (x.1, x.2.withId (st x.1)) := by
  induction l with
  | nil => intro i; simp [storeNsIdsTx, txRefs]
  | cons t rest ih =>
    intro i
    simp only [storeNsIdsTx, txRefs, List.map_append, ih, msgRefs_storeNsIdsMsg]

theorem namespaceRefs_storeTxIds (txs : List Tx) (ids : List Nat) :
    namespaceRefs (storeTxIds txs ids) = namespaceRefs txs := txRefs_storeTxIds txs 0 ids

theorem namespaceRefs_storeAddrIds (ptrs : List AddrPtr) (ids : List Nat) (txs : List Tx) :
    namespaceRefs (storeAddrIds ptrs ids txs) = namespaceRefs txs :=
  txRefs_storeAddrIdsTx _ txs 0

theorem namespaceRefs_storeMessageIds (txs : List Tx) (ids : List Nat) :
    namespaceRefs (storeMessageIds txs ids) = namespaceRefs txs :=
  txRefs_storeMessageIds txs 0 ids

theorem namespaceRefs_storeNsIds (ptrs : List NsPtr) (ids : List Nat) (txs : List Tx) :
    namespaceRefs (storeNsIds ptrs ids txs) =
      (namespaceRefs txs).map fun x => (x.1, x.2.withId (storedId ptrs ids x.1)) :=
  txRefs_storeNsIdsTx _ txs 0

theorem nsRefs_snd (i j : Nat) (l : List Namespace) :
    ∀ k : Nat, (nsRefs i j k l).map Prod.snd = l := by
  induction l with
  | nil => intro k; simp [nsRefs]
  | cons n rest ih => intro k; simp [nsRefs, ih]

theorem msgRefs_snd (i : Nat) (l : List Message) :
    ∀ j : Nat, (msgRefs i j l).map Prod.snd = l.flatMap (·.Namespace) := by
  induction l with
  | nil => intro j; simp [msgRefs]
  | cons m rest ih => intro j; simp [msgRefs, ih, nsRefs_snd]

theorem txRefs_snd (l : List Tx) :
    ∀ i : Nat, (txRefs i l).map Prod.snd = (allMessages l).flatMap (·.Namespace) := by
  induction l with
  | nil => intro i; simp [txRefs, allMessages]
  | cons t rest ih => intro i; simp [txRefs, allMessages, ih, msgRefs_snd]

theorem lookup_of_mem {α β : Type} [DecidableEq α] (l : List (α × β))
    (hl : (l.map Prod.fst).Nodup) (p : α) (v : β) (h : (p, v) ∈ l) : l.lookup p = some v := by
  induction l with
  | nil => simp at h
  | cons x rest ih =>
    obtain ⟨q, w⟩ := x
    simp only [List.map_cons, List.nodup_cons] at hl
    rcases List.mem_cons.1 h with he | hm
    · cases he
      simp [List.lookup]
    · have hne : ¬ p = q := by
        intro e
        subst e
        exact hl.1 (List.mem_map.2 ⟨(p, v), hm, rfl⟩)
      have : (p == q) = false := by simpa using hne
      simp only [List.lookup, this]
      exact ih hl.2 hm

theorem namespaceRefs_nodup_pairs (txs : List Tx) : (namespaceRefs txs).Nodup :=
  List.Nodup.of_map _ (namespaceRefs_nodup txs)

theorem walk_refs (F : Stringers) (txs : List Tx) (parsed : StrMap Address) :
    namespaceRefs (walk F txs parsed).1 =
      (namespaceRefs txs).map fun x =>
        if x ∈ firstOccurrences F (namespaceRefs txs) then (x.1, x.2.counted) else x := by
  rw [(walk_flat F txs parsed).1, flatWalk_refs F _ (namespaceRefs_nodup_pairs txs), fresh_nil]

theorem walk_namespaces (F : Stringers) (txs : List Tx) (parsed : StrMap Address) :
    (walk F txs parsed).2.1 =
      (firstOccurrences F (namespaceRefs txs)).map fun x => (x.2.String F, x.1) := by
  rw [(walk_flat F txs parsed).2, flatWalk_map, fresh_nil, List.nil_append]

theorem namespaceEntities_perm (F : Stringers) (ord : RangeOrder) (txs : List Tx)
    (parsed : StrMap Address) (ptrs : List AddrPtr) (ids : List Nat) :
    (namespaceEntities ord (storeAddrIds ptrs ids (walk F txs parsed).1)
      (walk F txs parsed).2.1).Perm (countedFirst F txs) := by
  unfold namespaceEntities
  refine ((ord.perm _).filterMap _).trans ?_
  rw [walk_namespaces, List.filterMap_map, countedFirst]
  have : ∀ x ∈ firstOccurrences F (namespaceRefs txs),
      ((fun e : String × NsPtr =>
          (derefNs (storeAddrIds ptrs ids (walk F txs parsed).1) e.2).map fun n => (e.2, n)) ∘
        fun x : NsPtr × Namespace => (x.2.String F, x.1)) x =
        some ((fun x : NsPtr × Namespace => (x.1, x.2.counted)) x) := by
    intro x hx
    simp only [Function.comp, derefNs, namespaceRefs_storeAddrIds]
    have hmem : (x.1, x.2.counted) ∈ namespaceRefs (walk F txs parsed).1 := by
      rw [walk_refs]
      refine List.mem_map.2 ⟨x, firstOccurrences_subset F _ x hx, ?_⟩
      simp [hx]
    have hnd : ((namespaceRefs (walk F txs parsed).1).map Prod.fst).Nodup :=
      namespaceRefs_nodup _
    rw [lookup_of_mem _ hnd _ _ hmem]
    rfl
  rw [List.filterMap_congr this]
  exact List.Perm.of_eq (congrFun (List.filterMap_eq_map _) _)

/-! ### The calls of the trace -/

theorem abort_mem {σ : Type} (tx : Transaction σ) (log : List Entry) (s : σ) (err : Error)
    (block : Block) :
    ∀ e ∈ (abort tx log s err block).trace, e ∈ log ∨ 12 ≤ e.call.kind := by
  intro e he
  simp only [abort, List.mem_append, List.mem_cons, List.mem_singleton, List.not_mem_nil,
    or_false] at he
  rcases he with he | he | he
  · exact Or.inl he
  · right; simp [he, Call.kind]
  · right; simp [he, Call.kind]

theorem saveTail_mem {σ : Type} (tx : Transaction σ) (indexerName : String)
    (log : List Entry) (s : σ) (block : Block) :
    ∀ e ∈ (saveTail tx indexerName log s block).trace,
      e ∈ log ∨ e.call = .SaveNamespaceMessage (namespaceMsgs (allMessages block.Txs)) ∨
        9 ≤ e.call.kind := by
  intro e
  simp only [saveTail]
  split
  · intro he
    rcases abort_mem tx _ _ _ _ e he with h | h
    · simp only [List.mem_append, List.mem_singleton] at h
      rcases h with h | h
      · exact Or.inl h
      · right; left; simp [h]
    · right; right; omega
  · split
    · intro he
      rcases abort_mem tx _ _ _ _ e he with h | h
      · simp only [List.mem_append, List.mem_singleton] at h
        rcases h with (h | h) | h
        · exact Or.inl h
        · right; left; simp [h]
        · right; right; simp [h, Call.kind]
      · right; right; omega
    · split
      · intro he
        rcases abort_mem tx _ _ _ _ e he with h | h
        · simp only [List.mem_append, List.mem_singleton] at h
          rcases h with ((h | h) | h) | h
          · exact Or.inl h
          · right; left; simp [h]
          · right; right; simp [h, Call.kind]
          · right; right; simp [h, Call.kind]
        · right; right; omega
      · split
        · intro he
          rcases abort_mem tx _ _ _ _ e he with h | h
          · simp only [List.mem_append, List.mem_singleton] at h
            rcases h with (((h | h) | h) | h) | h
            · exact Or.inl h
            · right; left; simp [h]
            · right; right; simp [h, Call.kind]
            · right; right; simp [h, Call.kind]
            · right; right; simp [h, Call.kind]
          · right; right; omega
        · intro he
          simp only [List.mem_append, List.mem_singleton] at he
          rcases he with ((((h | h) | h) | h) | h) | h
          · exact Or.inl h
          · right; left; simp [h]
          · right; right; simp [h, Call.kind]
          · right; right; simp [h, Call.kind]
          · right; right; simp [h, Call.kind]
          · right; right; simp [h, Call.kind]

theorem saveTail_block {σ : Type} (tx : Transaction σ) (indexerName : String)
    (log : List Entry) (s : σ) (block : Block) :
    (saveTail tx indexerName log s block).block = block := by
  simp only [saveTail]
  split
  · rfl
  · split
    · rfl
    · split
      · rfl
      · split <;> rfl

theorem addressesStep_mem {σ : Type} (tx : Transaction σ) (s : σ) (addresses : StrMap AddrPtr)
    (entities : List (AddrPtr × Address)) :
    ∀ e ∈ (addressesStep tx s addresses entities).2.1, e.call = .SaveAddresses entities := by
  simp only [addressesStep]
  split <;> simp

theorem namespacesStep_mem {σ : Type} (tx : Transaction σ) (s : σ)
    (namespaces : StrMap NsPtr) (entities : List (NsPtr × Namespace)) :
    ∀ e ∈ (namespacesStep tx s namespaces entities).2.1, e.call = .SaveNamespaces entities := by
  simp only [namespacesStep]
  split <;> simp

theorem messagesStep_mem {σ : Type} (tx : Transaction σ) (s : σ) (messages : List Message) :
    ∀ e ∈ (messagesStep tx s messages).2.1, e.call = .BulkSaveMessages messages := by
  simp only [messagesStep]
  split <;> simp

theorem eventsStep_mem {σ : Type} (tx : Transaction σ) (s : σ) (events : List Event) :
    ∀ e ∈ (eventsStep tx s events).2.1, e.call = .BulkSaveEvents events := by
  simp only [eventsStep]
  split <;> simp

theorem saveBody_mem {σ : Type} (tx : Transaction σ) (F : Stringers) (ord : RangeOrder)
    (indexerName : String) (log : List Entry) (s : σ) (block : Block)
    (parsed : StrMap Address) :
    ∀ e ∈ (saveBody tx F ord indexerName log s block parsed).trace,
      e ∈ log ∨ e.call.kind = 4 ∨
        (∃ ptrs ids, e.call = .SaveNamespaces
          (namespaceEntities ord (storeAddrIds ptrs ids (walk F block.Txs parsed).1)
            (walk F block.Txs parsed).2.1)) ∨
        6 ≤ e.call.kind := by
  intro e
  have hA : ∀ {l : List Entry}, e ∈ log ++ l → (∀ x ∈ l, x.call.kind = 4) →
      e ∈ log ∨ e.call.kind = 4 := by
    intro l h hl
    rcases List.mem_append.1 h with h | h
    · exact Or.inl h
    · exact Or.inr (hl e h)
  have kA : ∀ x ∈ (addressesStep tx s (walk F block.Txs parsed).2.2
      (addressEntities ord parsed (walk F block.Txs parsed).1
        (walk F block.Txs parsed).2.2)).2.1, x.call.kind = 4 := by
    intro x hx
    rw [addressesStep_mem tx s _ _ x hx]
    rfl
  simp only [saveBody]
  split
  · intro he
    rcases abort_mem tx _ _ _ _ e he with h | h
    · rcases hA h kA with h | h
      · exact Or.inl h
      · exact Or.inr (Or.inl h)
    · right; right; right; omega
  · split
    · intro he
      rcases abort_mem tx _ _ _ _ e he with h | h
      · rcases List.mem_append.1 h with h | h
        · rcases hA h kA with h | h
          · exact Or.inl h
          · exact Or.inr (Or.inl h)
        · right; right; left
          exact ⟨_, _, namespacesStep_mem tx _ _ _ e h⟩
      · right; right; right; omega
    · split
      · intro he
        rcases abort_mem tx _ _ _ _ e he with h | h
        · rcases List.mem_append.1 h with h | h
          · rcases List.mem_append.1 h with h | h
            · rcases hA h kA with h | h
              · exact Or.inl h
              · exact Or.inr (Or.inl h)
            · right; right; left
              exact ⟨_, _, namespacesStep_mem tx _ _ _ e h⟩
          · right; right; right
            simp [messagesStep_mem tx _ _ e h, Call.kind]
        · right; right; right; omega
      · split
        · intro he
          rcases abort_mem tx _ _ _ _ e he with h | h
          · rcases List.mem_append.1 h with h | h
            · rcases List.mem_append.1 h with h | h
              · rcases List.mem_append.1 h with h | h
                · rcases hA h kA with h | h
                  · exact Or.inl h
                  · exact Or.inr (Or.inl h)
                · right; right; left
                  exact ⟨_, _, namespacesStep_mem tx _ _ _ e h⟩
              · right; right; right
                simp [messagesStep_mem tx _ _ e h, Call.kind]
            · right; right; right
              simp [eventsStep_mem tx _ _ e h, Call.kind]
          · right; right; right; omega
        · intro he
          rcases saveTail_mem tx _ _ _ _ e he with h | h | h
          · rcases List.mem_append.1 h with h | h
            · rcases List.mem_append.1 h with h | h
              · rcases List.mem_append.1 h with h | h
                · rcases hA h kA with h | h
                  · exact Or.inl h
                  · exact Or.inr (Or.inl h)
                · right; right; left
                  exact ⟨_, _, namespacesStep_mem tx _ _ _ e h⟩
              · right; right; right
                simp [messagesStep_mem tx _ _ e h, Call.kind]
            · right; right; right
              simp [eventsStep_mem tx _ _ e h, Call.kind]
          · right; right; right
            simp [h, Call.kind]
          · right; right; right; omega

theorem save_mem_namespaces {σ : Type} (tx : Transaction σ) (F : Stringers) (ord : RangeOrder)
    (indexerName : String) (s : σ) (data : parsedData) (entities : List (NsPtr × Namespace))
    (err : Option Error)
    (h : (⟨.SaveNamespaces entities, err⟩ : Entry) ∈ (save tx F ord indexerName s data).trace) :
    entities.Perm (countedFirst F data.block.Txs) := by
  revert h
  simp only [save]
  split
  · simp
  · split
    · simp [abort]
    · split
      · simp [abort]
      · split
        · simp [abort]
        · intro h
          rcases saveBody_mem tx F ord indexerName _ _ _ _ _ h with h | h | ⟨ptrs, ids, h⟩ | h
          · simp at h
          · simp [Call.kind] at h
          · simp only [Call.SaveNamespaces.injEq] at h
            rw [h]
            have := namespaceEntities_perm F ord (storeTxIds data.block.Txs
              (tx.SaveTransactions (tx.AddStats (tx.AddBlock (tx.BeginTransaction s).1
                data.block).1 data.block.Stats).1 data.block.Txs).2.1) data.addresses ptrs ids
            simpa [countedFirst, namespaceRefs_storeTxIds] using this
          · simp [Call.kind] at h

theorem map_withId_none (l : List (NsPtr × Namespace)) :
    l.map (fun x => (x.1, x.2.withId ((fun _ => none : NsPtr → Option Nat) x.1))) = l := by
  induction l with
  | nil => rfl
  | cons x rest ih => simp [Namespace.withId]

theorem saveBody_block_refs {σ : Type} (tx : Transaction σ) (F : Stringers) (ord : RangeOrder)
    (indexerName : String) (log : List Entry) (s : σ) (block : Block)
    (parsed : StrMap Address) :
    ∃ o : NsPtr → Option Nat,
      namespaceRefs (saveBody tx F ord indexerName log s block parsed).block.Txs =
        (namespaceRefs (walk F block.Txs parsed).1).map fun x => (x.1, x.2.withId (o x.1)) := by
  simp only [saveBody]
  split
  · exact ⟨fun _ => none, by simp only [abort]; rw [map_withId_none]⟩
  · split
    · refine ⟨fun _ => none, ?_⟩
      simp only [abort]
      rw [map_withId_none, namespaceRefs_storeAddrIds]
    · split
      · exact ⟨storedId _ _, by
          simp only [abort]
          rw [namespaceRefs_storeNsIds, namespaceRefs_storeAddrIds]⟩
      · split
        · exact ⟨storedId _ _, by
            simp only [abort]
            rw [namespaceRefs_storeMessageIds, namespaceRefs_storeNsIds,
              namespaceRefs_storeAddrIds]⟩
        · exact ⟨storedId _ _, by
            rw [saveTail_block]
            simp only []
            rw [namespaceRefs_storeMessageIds, namespaceRefs_storeNsIds,
              namespaceRefs_storeAddrIds]⟩

theorem save_block_refs {σ : Type} (tx : Transaction σ) (F : Stringers) (ord : RangeOrder)
    (indexerName : String) (s : σ) (data : parsedData) :
    ∃ (o : NsPtr → Option Nat) (walked : Bool),
      namespaceRefs (save tx F ord indexerName s data).block.Txs =
        (namespaceRefs data.block.Txs).map fun x =>
          (x.1, (if walked = true ∧ x ∈ firstOccurrences F (namespaceRefs data.block.Txs)
            then x.2.counted else x.2).withId (o x.1)) := by
  have early : ∃ (o : NsPtr → Option Nat) (walked : Bool),
      namespaceRefs data.block.Txs =
        (namespaceRefs data.block.Txs).map fun x =>
          (x.1, (if walked = true ∧ x ∈ firstOccurrences F (namespaceRefs data.block.Txs)
            then x.2.counted else x.2).withId (o x.1)) := by
    refine ⟨fun _ => none, false, ?_⟩
    simp only [Bool.false_eq_true, false_and, if_false]
    rw [map_withId_none]
  simp only [save]
  split
  · exact early
  · split
    · exact early
    · split
      · exact early
      · split
        · exact early
        · obtain ⟨o, ho⟩ := saveBody_block_refs tx F ord indexerName
            ([⟨.BeginTransaction, none⟩] ++
              [⟨.AddBlock data.block, (tx.AddBlock (tx.BeginTransaction s).1 data.block).2⟩] ++
              [⟨.AddStats data.block.Stats, (tx.AddStats (tx.AddBlock (tx.BeginTransaction s).1
                data.block).1 data.block.Stats).2⟩] ++
              [⟨.SaveTransactions data.block.Txs, (tx.SaveTransactions (tx.AddStats (tx.AddBlock
                (tx.BeginTransaction s).1 data.block).1 data.block.Stats).1
                data.block.Txs).2.2⟩])
            (tx.SaveTransactions (tx.AddStats (tx.AddBlock (tx.BeginTransaction s).1
              data.block).1 data.block.Stats).1 data.block.Txs).1
            { data.block with Txs := (storeTxIds data.block.Txs
              (tx.SaveTransactions (tx.AddStats (tx.AddBlock (tx.BeginTransaction s).1
                data.block).1 data.block.Stats).1 data.block.Txs).2.1) }
            data.addresses
          refine ⟨o, true, ?_⟩
          rw [ho, walk_refs, namespaceRefs_storeTxIds, List.map_map]
          apply List.map_congr_left
          intro x _
          simp only [Function.comp, true_and]
          split <;> rfl

theorem not_first_of_later (F : Stringers) (x : NsPtr × Namespace)
    (post : List (NsPtr × Namespace)) :
    ∀ pre : List (NsPtr × Namespace), (pre ++ x :: post).Nodup →
      (∃ y ∈ pre, y.2.String F = x.2.String F) →
      x ∉ firstOccurrences F (pre ++ x :: post) := by
  intro pre
  induction pre with
  | nil => intro _ h; simp at h
  | cons z pre ih =>
    intro hnd ⟨y, hy, hk⟩ hmem
    simp only [List.cons_append, List.nodup_cons] at hnd
    have hxz : x ≠ z := by
      intro e
      exact hnd.1 (e ▸ by simp)
    simp only [List.cons_append, firstOccurrences, List.mem_cons, List.mem_filter] at hmem
    rcases hmem with hmem | ⟨hmem, hne⟩
    · exact hxz hmem
    · rcases List.mem_cons.1 hy with rfl | hy
      · simp [hk] at hne
      · exact ih hnd.2 ⟨y, hy, hk⟩ hmem

theorem IsLater.not_first {F : Stringers} {txs : List Tx} {x : NsPtr × Namespace}
    (h : IsLater F (namespaceRefs txs) x) : x ∉ firstOccurrences F (namespaceRefs txs) := by
  obtain ⟨pre, post, he, hy⟩ := h
  have hnd := namespaceRefs_nodup_pairs txs
  rw [he] at hnd ⊢
  exact not_first_of_later F x post pre hnd hy

theorem IsLater.mem {F : Stringers} {refs : List (NsPtr × Namespace)} {x : NsPtr × Namespace}
    (h : IsLater F refs x) : x ∈ refs := by
  obtain ⟨pre, post, he, -⟩ := h
  rw [he]
  simp

theorem eq_of_fst_eq {txs : List Tx} {x y : NsPtr × Namespace} (hx : x ∈ namespaceRefs txs)
    (hy : y ∈ namespaceRefs txs) (h : x.1 = y.1) : x = y := by
  have h1 := lookup_of_mem _ (namespaceRefs_nodup txs) x.1 x.2 hx
  have h2 := lookup_of_mem _ (namespaceRefs_nodup txs) y.1 y.2 hy
  rw [h] at h1
  rw [h1] at h2
  exact Prod.ext h (Option.some.inj h2)

theorem withId_PfbCount (n : Namespace) (o : Option Nat) : (n.withId o).PfbCount = n.PfbCount := by
  cases o <;> rfl

theorem withId_String (F : Stringers) (n : Namespace) (o : Option Nat) :
    (n.withId o).String F = n.String F := by
  cases o <;> rfl

theorem save_later_kept {σ : Type} (tx : Transaction σ) (F : Stringers) (ord : RangeOrder)
    (indexerName : String) (s : σ) (data : parsedData) (x : NsPtr × Namespace)
    (hx : IsLater F (namespaceRefs data.block.Txs) x) :
    ∃ n, derefNs (save tx F ord indexerName s data).block.Txs x.1 = some n ∧
      n.PfbCount = x.2.PfbCount := by
  obtain ⟨o, walked, h⟩ := save_block_refs tx F ord indexerName s data
  have hnf := hx.not_first
  refine ⟨x.2.withId (o x.1), ?_, withId_PfbCount _ _⟩
  unfold derefNs
  apply lookup_of_mem _ (namespaceRefs_nodup _)
  rw [h]
  refine List.mem_map.2 ⟨x, hx.mem, ?_⟩
  simp [hnf]

/-- Claim C2: the entities of a call of `SaveNamespaces` hold exactly one entity for the key
of each namespace reference of the block; each entity is the first reference of its key in walk
order, with `PfbCount` 1; a reference that has an earlier one of the same key is not among them,
and `save` leaves its `PfbCount` as it was. -/
theorem namespace_dedup {σ : Type} (tx : Transaction σ) (F : Stringers) (ord : RangeOrder)
    (indexerName : String) (s : σ) (data : parsedData) :
    (∀ (entities : List (NsPtr × Namespace)) (err : Option Error),
        (⟨.SaveNamespaces entities, err⟩ : Entry) ∈ (save tx F ord indexerName s data).trace →
        (∀ x ∈ namespaceRefs data.block.Txs,
          (entities.filter fun e => decide (e.2.String F = x.2.String F)).length = 1) ∧
        (∀ e ∈ entities, e.2.PfbCount = 1 ∧
          ∃ n, e.2 = { n with PfbCount := 1 } ∧
            IsFirst F (namespaceRefs data.block.Txs) (e.1, n)) ∧
        ∀ x, IsLater F (namespaceRefs data.block.Txs) x → x.1 ∉ entities.map Prod.fst) ∧
      ∀ x, IsLater F (namespaceRefs data.block.Txs) x →
        ∃ n, derefNs (save tx F ord indexerName s data).block.Txs x.1 = some n ∧
          n.PfbCount = x.2.PfbCount := by
  refine ⟨?_, fun x hx => save_later_kept tx F ord indexerName s data x hx⟩
  intro entities err hmem
  have hperm := save_mem_namespaces tx F ord indexerName s data entities err hmem
  refine ⟨?_, ?_, ?_⟩
  · intro x hx
    rw [(hperm.filter _).length_eq, countedFirst, List.filter_map, List.length_map]
    exact firstOccurrences_one F _ x hx
  · intro e he
    have he' := hperm.mem_iff.1 he
    obtain ⟨y, hy, rfl⟩ := List.mem_map.1 he'
    refine ⟨rfl, y.2, rfl, ?_⟩
    exact firstOccurrences_first F _ y hy
  · intro x hx hc
    have hc' : x.1 ∈ (countedFirst F data.block.Txs).map Prod.fst :=
      (hperm.map Prod.fst).mem_iff.1 hc
    simp only [countedFirst, List.map_map, List.mem_map, Function.comp] at hc'
    obtain ⟨y, hy, hxy⟩ := hc'
    have : y = x := eq_of_fst_eq (firstOccurrences_subset F _ y hy) hx.mem hxy
    exact hx.not_first (this ▸ hy)

theorem namespaceRows_eq (msg : Message) (l : List Namespace) :
    namespaceRows msg l =
      (l.filter fun n => decide (n.Id ≠ 0)).map fun n =>
        { MsgId := msg.Id, NamespaceId := n.Id, Time := msg.Time, Height := msg.Height,
          TxId := msg.TxId } := by
  induction l with
  | nil => rfl
  | cons n rest ih =>
    simp only [namespaceRows, List.filter_cons]
    by_cases h : n.Id = 0 <;> simp [h, ih]

theorem namespaceMsgs_eq (l : List Message) :
    namespaceMsgs l =
      l.flatMap fun msg =>
        (msg.Namespace.filter fun n => decide (n.Id ≠ 0)).map fun n =>
          { MsgId := msg.Id, NamespaceId := n.Id, Time := msg.Time, Height := msg.Height,
            TxId := msg.TxId } := by
  induction l with
  | nil => rfl
  | cons msg rest ih => simp only [namespaceMsgs, List.flatMap_cons, ih, namespaceRows_eq]

theorem countedFirst_fst (F : Stringers) (txs : List Tx) :
    (countedFirst F txs).map Prod.fst = (firstOccurrences F (namespaceRefs txs)).map Prod.fst := by
  simp [countedFirst, List.map_map, Function.comp]

theorem namespacesStep_ids {σ : Type} (tx : Transaction σ) (s : σ) (namespaces : StrMap NsPtr)
    (entities : List (NsPtr × Namespace)) (h : namespaces = [] → entities = []) :
    (entities.map Prod.fst = [] ∧ (namespacesStep tx s namespaces entities).2.2.1 = []) ∨
      ∃ (s' : σ) (es : List Namespace), es.length = (entities.map Prod.fst).length ∧
        (namespacesStep tx s namespaces entities).2.2.1 = (tx.SaveNamespaces s' es).2.1 := by
  simp only [namespacesStep]
  split
  · exact Or.inr ⟨s, entities.map Prod.snd, by simp, rfl⟩
  · rename_i hl
    have : namespaces = [] := by
      cases namespaces with
      | nil => rfl
      | cons a b => simp at hl
    exact Or.inl ⟨by simp [h this], rfl⟩

theorem namespaceEntities_nil (ord : RangeOrder) (txs : List Tx) :
    namespaceEntities ord txs [] = [] := by
  unfold namespaceEntities
  have : ord.apply ([] : List (String × NsPtr)) = [] := List.Perm.eq_nil (ord.perm _)
  rw [this]
  rfl

theorem final_refs {σ : Type} (tx : Transaction σ) (F : Stringers) (ord : RangeOrder)
    (txs : List Tx) (parsed : StrMap Address) (ptrsA : List AddrPtr) (idsA idsM : List Nat)
    (sN : σ) :
    ∃ (ptrs : List NsPtr) (ids : List Nat),
      ptrs.Perm ((firstOccurrences F (namespaceRefs txs)).map Prod.fst) ∧
      ((ptrs = [] ∧ ids = []) ∨
        ∃ (s' : σ) (es : List Namespace), es.length = ptrs.length ∧
          ids = (tx.SaveNamespaces s' es).2.1) ∧
      namespaceRefs
          (storeMessageIds
            (storeNsIds
              ((namespaceEntities ord (storeAddrIds ptrsA idsA (walk F txs parsed).1)
                (walk F txs parsed).2.1).map Prod.fst)
              (namespacesStep tx sN (walk F txs parsed).2.1
                (namespaceEntities ord (storeAddrIds ptrsA idsA (walk F txs parsed).1)
                  (walk F txs parsed).2.1)).2.2.1
              (storeAddrIds ptrsA idsA (walk F txs parsed).1)) idsM) =
        (namespaceRefs (walk F txs parsed).1).map fun x =>
          (x.1, x.2.withId (storedId ptrs ids x.1)) := by
  refine ⟨(namespaceEntities ord (storeAddrIds ptrsA idsA (walk F txs parsed).1)
      (walk F txs parsed).2.1).map Prod.fst,
    (namespacesStep tx sN (walk F txs parsed).2.1
      (namespaceEntities ord (storeAddrIds ptrsA idsA (walk F txs parsed).1)
        (walk F txs parsed).2.1)).2.2.1, ?_, namespacesStep_ids tx _ _ _ ?_, ?_⟩
  · rw [← countedFirst_fst]
    exact (namespaceEntities_perm F ord txs parsed _ _).map Prod.fst
  · intro hnil
    rw [hnil]
    exact namespaceEntities_nil ord _
  · rw [namespaceRefs_storeMessageIds, namespaceRefs_storeNsIds, namespaceRefs_storeAddrIds]

theorem saveBody_junction_spec {σ : Type} (tx : Transaction σ) (F : Stringers)
    (ord : RangeOrder) (indexerName : String) (log : List Entry) (s : σ) (block : Block)
    (parsed : StrMap Address) (hlog : Early log) (rows : List NamespaceMessage)
    (err : Option Error)
    (hmem : (⟨.SaveNamespaceMessage rows, err⟩ : Entry) ∈
      (saveBody tx F ord indexerName log s block parsed).trace) :
    rows = namespaceMsgs
        (allMessages (saveBody tx F ord indexerName log s block parsed).block.Txs) ∧
      ∃ (ptrs : List NsPtr) (ids : List Nat),
        ptrs.Perm ((firstOccurrences F (namespaceRefs block.Txs)).map Prod.fst) ∧
        ((ptrs = [] ∧ ids = []) ∨
          ∃ (s' : σ) (es : List Namespace), es.length = ptrs.length ∧
            ids = (tx.SaveNamespaces s' es).2.1) ∧
        namespaceRefs (saveBody tx F ord indexerName log s block parsed).block.Txs =
          (namespaceRefs (walk F block.Txs parsed).1).map fun x =>
            (x.1, x.2.withId (storedId ptrs ids x.1)) := by
  have late : ∀ l : List Entry, Early l →
      (⟨.SaveNamespaceMessage rows, err⟩ : Entry) ∉ l := by
    intro l hl hc
    have := hl _ hc
    simp [Call.isLate] at this
  revert hmem
  simp only [saveBody]
  split
  · intro h
    exact absurd h (late _ (abort_early tx _ _ _ _
      (Early_append hlog (addressesStep_early _ _ _ _))))
  · split
    · intro h
      exact absurd h (late _ (abort_early tx _ _ _ _
        (Early_append (Early_append hlog (addressesStep_early _ _ _ _))
          (namespacesStep_early _ _ _ _))))
    · split
      · intro h
        exact absurd h (late _ (abort_early tx _ _ _ _
          (Early_append (Early_append (Early_append hlog (addressesStep_early _ _ _ _))
            (namespacesStep_early _ _ _ _)) (messagesStep_early _ _ _))))
      · split
        · intro h
          exact absurd h (late _ (abort_early tx _ _ _ _
            (Early_append (Early_append (Early_append (Early_append hlog
              (addressesStep_early _ _ _ _)) (namespacesStep_early _ _ _ _))
              (messagesStep_early _ _ _)) (eventsStep_early _ _ _))))
        · intro h
          rw [saveTail_block]
          refine ⟨?_, ?_⟩
          · rcases saveTail_mem tx _ _ _ _ _ h with h | h | h
            · exact absurd h (late _ (Early_append (Early_append (Early_append (Early_append hlog
                (addressesStep_early _ _ _ _)) (namespacesStep_early _ _ _ _))
                (messagesStep_early _ _ _)) (eventsStep_early _ _ _)))
            · simpa using h
            · simp [Call.kind] at h
          · exact final_refs tx F ord block.Txs parsed _ _ _ _

theorem storedId_none {π : Type} [DecidableEq π] (ptrs : List π) (ids : List Nat) (p : π)
    (h : p ∉ ptrs) : storedId ptrs ids p = none := by
  unfold storedId
  rw [Option.map_eq_none', List.find?_eq_none]
  intro e he
  have he' : e ∈ ptrs.zip ids := List.mem_reverse.1 he
  have : e.1 ∈ ptrs := (List.of_mem_zip (a := e.1) (b := e.2) he').1
  intro hc
  simp only [decide_eq_true_eq] at hc
  exact h (hc ▸ this)

theorem storedId_some {π : Type} [DecidableEq π] (ptrs : List π) (ids : List Nat) (p : π)
    (h : p ∈ ptrs) (hlen : ids.length = ptrs.length) :
    ∃ id ∈ ids, storedId ptrs ids p = some id := by
  unfold storedId
  obtain ⟨i, hi, hp⟩ := List.getElem_of_mem h
  have hi' : i < ids.length := hlen ▸ hi
  have hz : (p, ids[i]) ∈ (ptrs.zip ids).reverse := by
    rw [List.mem_reverse]
    have : i < (ptrs.zip ids).length := by simp [List.length_zip]; omega
    have hget : (ptrs.zip ids)[i] = (p, ids[i]) := by simp [List.getElem_zip, hp]
    exact hget ▸ List.getElem_mem this
  cases hf : (ptrs.zip ids).reverse.find? (fun e => decide (e.1 = p)) with
  | none =>
    rw [List.find?_eq_none] at hf
    have := hf _ hz
    simp at this
  | some e =>
    have hmem := List.mem_of_find?_eq_some hf
    have he' : e ∈ ptrs.zip ids := List.mem_reverse.1 hmem
    exact ⟨e.2, (List.of_mem_zip (a := e.1) (b := e.2) he').2, rfl⟩

theorem firstOccurrences_nodup (F : Stringers) (txs : List Tx) :
    (firstOccurrences F (namespaceRefs txs)).Nodup :=
  (firstOccurrences_sublist F _).nodup (namespaceRefs_nodup_pairs txs)

theorem filter_first_perm (F : Stringers) (txs : List Tx) :
    ((namespaceRefs txs).filter fun y =>
      decide (y ∈ firstOccurrences F (namespaceRefs txs))).Perm
      (firstOccurrences F (namespaceRefs txs)) := by
  rw [List.perm_ext_iff_of_nodup ((namespaceRefs_nodup_pairs txs).filter _)
    (firstOccurrences_nodup F txs)]
  intro a
  simp only [List.mem_filter, decide_eq_true_eq]
  exact ⟨fun h => h.2, fun h => ⟨firstOccurrences_subset F _ a h, h⟩⟩

theorem save_junction_spec {σ : Type} (tx : Transaction σ) (F : Stringers)
    (ord : RangeOrder) (indexerName : String) (s : σ) (data : parsedData)
    (rows : List NamespaceMessage) (err : Option Error)
    (hmem : (⟨.SaveNamespaceMessage rows, err⟩ : Entry) ∈
      (save tx F ord indexerName s data).trace) :
    rows = namespaceMsgs (allMessages (save tx F ord indexerName s data).block.Txs) ∧
      ∃ (ptrs : List NsPtr) (ids : List Nat),
        ptrs.Perm ((firstOccurrences F (namespaceRefs data.block.Txs)).map Prod.fst) ∧
        ((ptrs = [] ∧ ids = []) ∨
          ∃ (s' : σ) (es : List Namespace), es.length = ptrs.length ∧
            ids = (tx.SaveNamespaces s' es).2.1) ∧
        namespaceRefs (save tx F ord indexerName s data).block.Txs =
          (namespaceRefs data.block.Txs).map fun x =>
            (x.1, (if x ∈ firstOccurrences F (namespaceRefs data.block.Txs)
              then x.2.counted else x.2).withId (storedId ptrs ids x.1)) := by
  revert hmem
  simp only [save]
  split
  · simp
  · split
    · simp [abort]
    · split
      · simp [abort]
      · split
        · simp [abort]
        · intro h
          have hlog : Early ([⟨.BeginTransaction, none⟩] ++
              [⟨.AddBlock data.block, (tx.AddBlock (tx.BeginTransaction s).1 data.block).2⟩] ++
              [⟨.AddStats data.block.Stats, (tx.AddStats (tx.AddBlock (tx.BeginTransaction s).1
                data.block).1 data.block.Stats).2⟩] ++
              [⟨.SaveTransactions data.block.Txs, (tx.SaveTransactions (tx.AddStats (tx.AddBlock
                (tx.BeginTransaction s).1 data.block).1 data.block.Stats).1
                data.block.Txs).2.2⟩]) := by
            simp [Early, Call.isLate]
          obtain ⟨h1, ptrs, ids, h2, h3, h4⟩ :=
            saveBody_junction_spec tx F ord indexerName _ _ _ _ hlog rows err h
          refine ⟨h1, ptrs, ids, ?_, h3, ?_⟩
          · simpa [namespaceRefs_storeTxIds] using h2
          · rw [h4, walk_refs, namespaceRefs_storeTxIds, List.map_map]
            apply List.map_congr_left
            intro x _
            simp only [Function.comp]
            split <;> rfl

theorem allMessages_namespaces (txs : List Tx) :
    (allMessages txs).flatMap (·.Namespace) = (namespaceRefs txs).map Prod.snd :=
  (txRefs_snd txs 0).symm

theorem flatMap_filter_length {α β : Type} (l : List α) (f : α → List β) (p : β → Bool) :
    (l.flatMap fun a => (f a).filter p).length = ((l.flatMap f).filter p).length := by
  induction l with
  | nil => rfl
  | cons a rest ih => simp [List.flatMap_cons, List.filter_append, ih]

/-- Claim C3: the rows of a call of `SaveNamespaceMessage` are, for the messages of the block in
order and the namespaces of each message in order, one row for each namespace whose `Id` is not
zero after the bulk inserts, with the `Id`, `Time`, `Height` and `TxId` of the message and the
`Id` of the namespace.  When the namespaces come with `Id` zero and `SaveNamespaces` gives a
non-zero identity to each entity it receives, exactly one reference of each key yields a row. -/
theorem junction_rows {σ : Type} (tx : Transaction σ) (F : Stringers) (ord : RangeOrder)
    (indexerName : String) (s : σ) (data : parsedData) (rows : List NamespaceMessage)
    (err : Option Error)
    (hCall : (⟨.SaveNamespaceMessage rows, err⟩ : Entry) ∈
      (save tx F ord indexerName s data).trace) :
    rows =
        ((allMessages (save tx F ord indexerName s data).block.Txs).flatMap fun msg =>
          (msg.Namespace.filter fun n => decide (n.Id ≠ 0)).map fun n =>
            { MsgId := msg.Id, NamespaceId := n.Id, Time := msg.Time, Height := msg.Height,
              TxId := msg.TxId }) ∧
      ((∀ x ∈ namespaceRefs data.block.Txs, x.2.Id = 0) →
        (∀ (s' : σ) (es : List Namespace),
          (tx.SaveNamespaces s' es).2.1.length = es.length ∧
            ∀ id ∈ (tx.SaveNamespaces s' es).2.1, id ≠ 0) →
        ∀ x ∈ namespaceRefs data.block.Txs,
          ((allMessages (save tx F ord indexerName s data).block.Txs).flatMap fun msg =>
            msg.Namespace.filter fun n =>
              decide (n.Id ≠ 0) && decide (n.String F = x.2.String F)).length = 1) := by
  obtain ⟨h1, ptrs, ids, hperm, hids, hrefs⟩ :=
    save_junction_spec tx F ord indexerName s data rows err hCall
  refine ⟨by rw [h1, namespaceMsgs_eq], ?_⟩
  intro hZero hStore x hx
  rw [flatMap_filter_length, allMessages_namespaces, hrefs, List.map_map, List.filter_map,
    List.length_map]
  have hfo : firstOccurrences F (namespaceRefs data.block.Txs) ≠ [] := by
    intro hc
    have := firstOccurrences_one F _ x hx
    rw [hc] at this
    simp at this
  have hlen : ids.length = ptrs.length ∧ ∀ id ∈ ids, id ≠ 0 := by
    rcases hids with ⟨hp, -⟩ | ⟨s', es, hes, hi⟩
    · exfalso
      rw [hp] at hperm
      have := hperm.symm.eq_nil
      simp at this
      exact hfo this
    · rw [hi]
      exact ⟨(hStore s' es).1.trans hes, (hStore s' es).2⟩
  rw [← firstOccurrences_one F _ x hx, ← ((filter_first_perm F data.block.Txs).filter _).length_eq,
    List.filter_filter]
  congr 1
  apply List.filter_congr
  intro y hy
  simp only [Function.comp, withId_String]
  by_cases hyf : y ∈ firstOccurrences F (namespaceRefs data.block.Txs)
  · have hp : y.1 ∈ ptrs := hperm.mem_iff.2 (List.mem_map.2 ⟨y, hyf, rfl⟩)
    obtain ⟨id, hid, hst⟩ := storedId_some ptrs ids y.1 hp hlen.1
    have hne := hlen.2 id hid
    simp [hyf, hst, Namespace.withId, hne, Namespace.counted, Namespace.String]
  · have hp : y.1 ∉ ptrs := by
      intro hc
      obtain ⟨z, hz, hzy⟩ := List.mem_map.1 (hperm.mem_iff.1 hc)
      have : z = y := eq_of_fst_eq (firstOccurrences_subset F _ z hz) hy hzy
      exact hyf (this ▸ hz)
    simp [hyf, storedId_none ptrs ids y.1 hp, Namespace.withId, hZero y hy]

/-! ### The sample block -/

/-- Claim C1, on the sample block, whose two transactions reference the same address: one
entity is handed to `SaveAddresses`, which gives it the identity 21, and the two rows of
`SaveTxAddresses` carry the identities 21 and 0. -/
theorem address_dedup_rows :
    (⟨.SaveAddresses [(.inTx 0 0, ⟨0, 0, [1], Decimal.zero⟩)], none⟩ : Entry) ∈
        (save (sampleStore none) sampleStringers sampleOrder "indexer" 0 sampleData).trace ∧
      (⟨.SaveTxAddresses [⟨11, 21, "signer"⟩, ⟨12, 0, "signer"⟩], none⟩ : Entry) ∈
        (save (sampleStore none) sampleStringers sampleOrder "indexer" 0 sampleData).trace := by
  decide

theorem namespace_dedup_witness :
    (⟨.SaveNamespaces [(⟨0, 0, 1⟩, ⟨0, 0, [6], 10, 1⟩), (⟨0, 0, 0⟩, ⟨0, 0, [5], 10, 1⟩)],
        none⟩ : Entry) ∈
        (save (sampleStore none) sampleStringers sampleOrder "indexer" 0 sampleData).trace ∧
      ∀ x ∈ namespaceRefs sampleData.block.Txs,
        (([(⟨0, 0, 1⟩, ⟨0, 0, [6], 10, 1⟩), (⟨0, 0, 0⟩, ⟨0, 0, [5], 10, 1⟩)] :
          List (NsPtr × Namespace)).filter fun e =>
            decide (e.2.String sampleStringers = x.2.String sampleStringers)).length = 1 :=
  ⟨by decide,
    ((namespace_dedup (sampleStore none) sampleStringers sampleOrder "indexer" 0 sampleData).1
      [(⟨0, 0, 1⟩, ⟨0, 0, [6], 10, 1⟩), (⟨0, 0, 0⟩, ⟨0, 0, [5], 10, 1⟩)] none (by decide)).1⟩

theorem junction_rows_witness :
    (⟨.SaveNamespaceMessage [⟨41, 32, 7, 1000, 11⟩, ⟨41, 31, 7, 1000, 11⟩], none⟩ : Entry) ∈
        (save (sampleStore none) sampleStringers sampleOrder "indexer" 0 sampleData).trace ∧
      ∀ x ∈ namespaceRefs sampleData.block.Txs,
        ((allMessages (save (sampleStore none) sampleStringers sampleOrder "indexer" 0
            sampleData).block.Txs).flatMap fun msg =>
          msg.Namespace.filter fun n =>
            decide (n.Id ≠ 0) &&
              decide (n.String sampleStringers = x.2.String sampleStringers)).length = 1 :=
  ⟨by decide,
    (junction_rows (sampleStore none) sampleStringers sampleOrder "indexer" 0 sampleData
      [⟨41, 32, 7, 1000, 11⟩, ⟨41, 31, 7, 1000, 11⟩] none (by decide)).2 (by decide)
      (by intro s' es; simp [sampleStore])⟩

theorem save_rollback_witness :
    (⟨.SaveNamespaceMessage [⟨41, 32, 7, 1000, 11⟩, ⟨41, 31, 7, 1000, 11⟩],
        some "storage failure"⟩ : Entry) ∈
        (save (sampleStore (some 8)) sampleStringers sampleOrder "indexer" 0 sampleData).trace ∧
      (∀ e ∈ (save (sampleStore (some 8)) sampleStringers sampleOrder "indexer" 0
          sampleData).trace, e.call ≠ .Flush ∧ ∀ state, e.call ≠ .AddState state) ∧
      (⟨.SaveTxAddresses [⟨11, 21, "signer"⟩, ⟨12, 0, "signer"⟩],
        some "storage failure"⟩ : Entry) ∈
        (save (sampleStore (some 9)) sampleStringers sampleOrder "indexer" 0 sampleData).trace ∧
      (∀ e ∈ (save (sampleStore (some 9)) sampleStringers sampleOrder "indexer" 0
          sampleData).trace, e.call ≠ .Flush ∧ ∀ state, e.call ≠ .AddState state) ∧
      ([⟨.HandleError "storage failure", some "storage failure"⟩, ⟨.Close, none⟩] :
          List Entry) =
        [⟨.HandleError "storage failure",
          (save (sampleStore (some 1)) sampleStringers sampleOrder "indexer" 0 sampleData).err⟩,
          ⟨.Close, none⟩] :=
  ⟨by decide,
    (save_rollback (sampleStore (some 8)) sampleStringers sampleOrder "indexer" 0 sampleData).2.1
      [⟨41, 32, 7, 1000, 11⟩, ⟨41, 31, 7, 1000, 11⟩] "storage failure" (by decide),
    by decide,
    (save_rollback (sampleStore (some 9)) sampleStringers sampleOrder "indexer" 0 sampleData).2.2
      [⟨11, 21, "signer"⟩, ⟨12, 0, "signer"⟩] "storage failure" (by decide),
    (save_rollback (sampleStore (some 1)) sampleStringers sampleOrder "indexer" 0 sampleData).1
      [⟨.BeginTransaction, none⟩]
      [⟨.HandleError "storage failure", some "storage failure"⟩, ⟨.Close, none⟩]
      (.AddBlock sampleBlock) "storage failure" (by decide) rfl⟩

/-! ### The run in which every call succeeds -/

theorem Clean.of_append_left {l₁ l₂ : List Entry} (h : Clean (l₁ ++ l₂)) : Clean l₁ :=
  fun e he => h e (List.mem_append_left _ he)

theorem not_clean_abort {σ : Type} (tx : Transaction σ) (log : List Entry) (c : Call) (s : σ)
    (err : Error) (block : Block) :
    ¬ Clean (abort tx (log ++ [⟨c, some err⟩]) s err block).trace := by
  intro h
  have := h ⟨c, some err⟩ (by simp [abort])
  cases this

theorem StepShape.not_clean {σ : Type} {l : List Entry} {err : Error}
    (h : StepShape l (some err)) (tx : Transaction σ) (log : List Entry) (s : σ)
    (block : Block) : ¬ Clean (abort tx (log ++ l) s err block).trace := by
  rcases h with ⟨-, h⟩ | ⟨c, -, rfl⟩
  · cases h
  · exact not_clean_abort tx log c s err block

theorem saveTail_success {σ : Type} (tx : Transaction σ) (indexerName : String)
    (log : List Entry) (s : σ) (block : Block)
    (h : Clean (saveTail tx indexerName log s block).trace) :
    (saveTail tx indexerName log s block).err = none ∧
      (saveTail tx indexerName log s block).trace.map (·.call) =
        log.map (·.call) ++
          [.SaveNamespaceMessage (namespaceMsgs (allMessages block.Txs)),
            .SaveTxAddresses (txAddresses block.Txs), .AddState (stateRow indexerName block),
            .Flush, .Close] := by
  revert h
  simp only [saveTail]
  split
  · rename_i err h1
    rw [h1]
    intro h
    exact absurd h (not_clean_abort tx _ _ _ _ _)
  · split
    · rename_i err h2
      rw [h2]
      intro h
      exact absurd h (not_clean_abort tx _ _ _ _ _)
    · split
      · rename_i err h3
        rw [h3]
        intro h
        exact absurd h (not_clean_abort tx _ _ _ _ _)
      · split
        · rename_i err h4
          rw [h4]
          intro h
          exact absurd h (not_clean_abort tx _ _ _ _ _)
        · intro _
          simp

theorem addressesStep_calls {σ : Type} (tx : Transaction σ) (s : σ) (addresses : StrMap AddrPtr)
    (entities : List (AddrPtr × Address)) :
    (addressesStep tx s addresses entities).2.1.map (·.call) =
      if addresses.length > 0 then [.SaveAddresses entities] else [] := by
  simp only [addressesStep]
  split <;> rfl

theorem namespacesStep_calls {σ : Type} (tx : Transaction σ) (s : σ)
    (namespaces : StrMap NsPtr) (entities : List (NsPtr × Namespace)) :
    (namespacesStep tx s namespaces entities).2.1.map (·.call) =
      if namespaces.length > 0 then [.SaveNamespaces entities] else [] := by
  simp only [namespacesStep]
  split <;> rfl

theorem messagesStep_calls {σ : Type} (tx : Transaction σ) (s : σ) (messages : List Message) :
    (messagesStep tx s messages).2.1.map (·.call) =
      if messages.length > 0 then [.BulkSaveMessages messages] else [] := by
  simp only [messagesStep]
  split <;> rfl

theorem eventsStep_calls {σ : Type} (tx : Transaction σ) (s : σ) (events : List Event) :
    (eventsStep tx s events).2.1.map (·.call) =
      if events.length > 0 then [.BulkSaveEvents events] else [] := by
  simp only [eventsStep]
  split <;> rfl

theorem saveBody_success {σ : Type} (tx : Transaction σ) (F : Stringers) (ord : RangeOrder)
    (indexerName : String) (log : List Entry) (s : σ) (block : Block)
    (parsed : StrMap Address)
    (h : Clean (saveBody tx F ord indexerName log s block parsed).trace) :
    ∃ addrIds nsIds msgIds : List Nat,
      (saveBody tx F ord indexerName log s block parsed).err = none ∧
      (saveBody tx F ord indexerName log s block parsed).block =
        { block with Txs := afterMessages F ord block.Txs parsed addrIds nsIds msgIds } ∧
      (saveBody tx F ord indexerName log s block parsed).trace.map (·.call) =
        log.map (·.call) ++
          (if (walk F block.Txs parsed).2.2.length > 0 then
            [.SaveAddresses (addressEntities ord parsed (walk F block.Txs parsed).1
              (walk F block.Txs parsed).2.2)] else []) ++
          (if (walk F block.Txs parsed).2.1.length > 0 then
            [.SaveNamespaces (namespaceEntities ord
              (afterAddresses F ord block.Txs parsed addrIds) (walk F block.Txs parsed).2.1)]
            else []) ++
          (if (allMessages (afterNamespaces F ord block.Txs parsed addrIds nsIds)).length > 0
            then [.BulkSaveMessages
              (allMessages (afterNamespaces F ord block.Txs parsed addrIds nsIds))] else []) ++
          (if (allEvents block.Events
              (afterMessages F ord block.Txs parsed addrIds nsIds msgIds)).length > 0
            then [.BulkSaveEvents (allEvents block.Events
              (afterMessages F ord block.Txs parsed addrIds nsIds msgIds))] else []) ++
          [.SaveNamespaceMessage (namespaceMsgs (allMessages
              (afterMessages F ord block.Txs parsed addrIds nsIds msgIds))),
            .SaveTxAddresses (txAddresses
              (afterMessages F ord block.Txs parsed addrIds nsIds msgIds)),
            .AddState (stateRow indexerName block), .Flush, .Close] := by
  revert h
  simp only [saveBody]
  split
  · rename_i err h1
    intro h
    exact absurd h ((addressesStep_shape _ _ _ _ _ h1).not_clean tx _ _ _)
  · split
    · rename_i err h2
      intro h
      exact absurd h ((namespacesStep_shape _ _ _ _ _ h2).not_clean tx _ _ _)
    · split
      · rename_i err h3
        intro h
        exact absurd h ((messagesStep_shape _ _ _ _ h3).not_clean tx _ _ _)
      · split
        · rename_i err h4
          intro h
          exact absurd h ((eventsStep_shape _ _ _ _ h4).not_clean tx _ _ _)
        · intro h
          obtain ⟨h1, h2⟩ := saveTail_success tx indexerName _ _ _ h
          exact ⟨(addressesStep tx s _ _).2.2.1, (namespacesStep tx _ _ _).2.2.1,
            (messagesStep tx _ _).2.2.1, h1, by rw [saveTail_block]; rfl, by
              rw [h2]
              simp only [List.map_append, addressesStep_calls, namespacesStep_calls,
                messagesStep_calls, eventsStep_calls]
              rfl⟩

/-! ### Messages and events after the walk and the stores -/

theorem eventLoop_eq (txId : Nat) (l : List Event) :
    eventLoop txId l = l.map fun e => { e with TxId := some txId } := by
  induction l with
  | nil => rfl
  | cons e rest ih => simp [eventLoop, ih]

theorem storeTxIds_map {β : Type} (f : Tx → β) (hf : ∀ (t : Tx) (id : Nat),
    f { t with Id := id } = f t) (l : List Tx) :
    ∀ ids : List Nat, (storeTxIds l ids).map f = l.map f := by
  induction l with
  | nil => intro ids; cases ids <;> rfl
  | cons t rest ih =>
    intro ids
    cases ids with
    | nil => rfl
    | cons id ids => simp [storeTxIds, ih, hf]

theorem namespaceLoop_length (F : Stringers) (i j : Nat) (l : List Namespace) :
    ∀ (k : Nat) (m : StrMap NsPtr), (namespaceLoop F i j k l m).1.length = l.length := by
  induction l with
  | nil => intro k m; rfl
  | cons n rest ih =>
    intro k m
    simp only [namespaceLoop]
    split <;> simp [ih]

theorem messageLoop_bare (F : Stringers) (i txId : Nat) (l : List Message) :
    ∀ (j : Nat) (m : StrMap NsPtr),
      (messageLoop F i txId j l m).1.map Message.bare =
        l.map fun x => { x with TxId := txId, Namespace := [] } := by
  induction l with
  | nil => intro j m; rfl
  | cons x rest ih =>
    intro j m
    simp only [messageLoop, List.map_cons, ih]
    rfl

theorem txLoop_stamped (F : Stringers) (l : List Tx) :
    ∀ (i : Nat) (m : StrMap NsPtr) (a : StrMap AddrPtr),
      (txLoop F i l m a).1.map (fun t => (t.Id, t.Messages.map Message.bare, t.Events)) =
        l.map fun t => (t.Id, stampedMessages t, stampedEvents t) := by
  induction l with
  | nil => intro i m a; rfl
  | cons t rest ih =>
    intro i m a
    simp only [txLoop, List.map_cons, ih, messageLoop_bare, eventLoop_eq]
    rfl

theorem txLoop_addresses (F : Stringers) (l : List Tx) :
    ∀ (i : Nat) (m : StrMap NsPtr) (a : StrMap AddrPtr),
      (txLoop F i l m a).1.map (·.Addresses) = l.map (·.Addresses) := by
  induction l with
  | nil => intro i m a; rfl
  | cons t rest ih =>
    intro i m a
    simp only [txLoop, List.map_cons, ih]

theorem allMessages_eq (l : List Tx) : allMessages l = l.flatMap (·.Messages) := by
  induction l with
  | nil => rfl
  | cons t rest ih => simp [allMessages, ih]

theorem txEvents_eq (l : List Tx) : txEvents l = l.flatMap (·.Events) := by
  induction l with
  | nil => rfl
  | cons t rest ih => simp [txEvents, ih]

theorem flatMap_of_map_eq {α β γ δ : Type} (f : α → γ) (g : β → γ) (h : γ → List δ)
    (l₁ : List α) (l₂ : List β) (e : l₁.map f = l₂.map g) :
    l₁.flatMap (fun x => h (f x)) = l₂.flatMap (fun x => h (g x)) := by
  have h1 : l₁.flatMap (fun x => h (f x)) = (l₁.map f).flatMap h := by
    rw [List.flatMap_map]
  have h2 : l₂.flatMap (fun x => h (g x)) = (l₂.map g).flatMap h := by
    rw [List.flatMap_map]
  rw [h1, h2, e]

theorem walk_messages (F : Stringers) (txs : List Tx) (parsed : StrMap Address) :
    (allMessages (walk F txs parsed).1).map Message.bare = txs.flatMap stampedMessages := by
  rw [allMessages_eq, List.map_flatMap]
  exact flatMap_of_map_eq (fun t : Tx => (t.Id, t.Messages.map Message.bare, t.Events))
    (fun t : Tx => (t.Id, stampedMessages t, stampedEvents t)) (fun x => x.2.1) _ _
    (txLoop_stamped F txs 0 [] _)

theorem walk_events (F : Stringers) (txs : List Tx) (parsed : StrMap Address) :
    txEvents (walk F txs parsed).1 = txs.flatMap stampedEvents := by
  rw [txEvents_eq]
  exact flatMap_of_map_eq (fun t : Tx => (t.Id, t.Messages.map Message.bare, t.Events))
    (fun t : Tx => (t.Id, stampedMessages t, stampedEvents t)) (fun x => x.2.2) _ _
    (txLoop_stamped F txs 0 [] _)

theorem storeAddrIdsTx_messages (st : AddrPtr → Option Nat) (l : List Tx) :
    ∀ i : Nat, (storeAddrIdsTx st i l).map (fun t => (t.Id, t.Messages, t.Events)) =
      l.map fun t => (t.Id, t.Messages, t.Events) := by
  induction l with
  | nil => intro i; rfl
  | cons t rest ih => intro i; simp [storeAddrIdsTx, ih]

theorem storeNsIdsNs_length (st : NsPtr → Option Nat) (i j : Nat) (l : List Namespace) :
    ∀ k : Nat, (storeNsIdsNs st i j k l).length = l.length := by
  induction l with
  | nil => intro k; rfl
  | cons n rest ih => intro k; simp [storeNsIdsNs, ih]

theorem storeNsIdsMsg_bare (st : NsPtr → Option Nat) (i : Nat) (l : List Message) :
    ∀ j : Nat, (storeNsIdsMsg st i j l).map Message.bare = l.map Message.bare := by
  induction l with
  | nil => intro j; rfl
  | cons m rest ih =>
    intro j
    simp only [storeNsIdsMsg, List.map_cons, ih]
    rfl

theorem storeNsIdsTx_messages (st : NsPtr → Option Nat) (l : List Tx) :
    ∀ i : Nat,
      (storeNsIdsTx st i l).map (fun t => (t.Id, t.Messages.map Message.bare, t.Events)) =
        l.map fun t => (t.Id, t.Messages.map Message.bare, t.Events) := by
  induction l with
  | nil => intro i; rfl
  | cons t rest ih => intro i; simp [storeNsIdsTx, ih, storeNsIdsMsg_bare]

theorem storeMsgIds_length (l : List Message) :
    ∀ ids : List Nat, (storeMsgIds l ids).length = l.length := by
  induction l with
  | nil => intro ids; cases ids <;> rfl
  | cons m rest ih =>
    intro ids
    cases ids with
    | nil => rfl
    | cons id ids => simp [storeMsgIds, ih]

theorem storeMessageIds_events (l : List Tx) :
    ∀ ids : List Nat, (storeMessageIds l ids).map (fun t => (t.Id, t.Events)) =
      l.map fun t => (t.Id, t.Events) := by
  induction l with
  | nil => intro ids; rfl
  | cons t rest ih => intro ids; simp [storeMessageIds, ih]

theorem afterAddresses_messages (F : Stringers) (ord : RangeOrder) (txs : List Tx)
    (parsed : StrMap Address) (addrIds : List Nat) :
    allMessages (afterAddresses F ord txs parsed addrIds) = allMessages (walk F txs parsed).1 := by
  rw [allMessages_eq, allMessages_eq]
  exact flatMap_of_map_eq (fun t : Tx => (t.Id, t.Messages, t.Events))
    (fun t : Tx => (t.Id, t.Messages, t.Events)) (fun x => x.2.1) _ _
    (storeAddrIdsTx_messages _ _ 0)

theorem afterAddresses_events (F : Stringers) (ord : RangeOrder) (txs : List Tx)
    (parsed : StrMap Address) (addrIds : List Nat) :
    txEvents (afterAddresses F ord txs parsed addrIds) = txEvents (walk F txs parsed).1 := by
  rw [txEvents_eq, txEvents_eq]
  exact flatMap_of_map_eq (fun t : Tx => (t.Id, t.Messages, t.Events))
    (fun t : Tx => (t.Id, t.Messages, t.Events)) (fun x => x.2.2) _ _
    (storeAddrIdsTx_messages _ _ 0)

theorem afterNamespaces_messages (F : Stringers) (ord : RangeOrder) (txs : List Tx)
    (parsed : StrMap Address) (addrIds nsIds : List Nat) :
    (allMessages (afterNamespaces F ord txs parsed addrIds nsIds)).map Message.bare =
      txs.flatMap stampedMessages := by
  rw [← walk_messages F txs parsed, ← afterAddresses_messages F ord txs parsed addrIds,
    allMessages_eq, allMessages_eq, List.map_flatMap, List.map_flatMap]
  exact flatMap_of_map_eq (fun t : Tx => (t.Id, t.Messages.map Message.bare, t.Events))
    (fun t : Tx => (t.Id, t.Messages.map Message.bare, t.Events)) (fun x => x.2.1) _ _
    (storeNsIdsTx_messages _ _ 0)

theorem afterNamespaces_events (F : Stringers) (ord : RangeOrder) (txs : List Tx)
    (parsed : StrMap Address) (addrIds nsIds : List Nat) :
    txEvents (afterNamespaces F ord txs parsed addrIds nsIds) = txs.flatMap stampedEvents := by
  rw [← walk_events F txs parsed, ← afterAddresses_events F ord txs parsed addrIds,
    txEvents_eq, txEvents_eq]
  exact flatMap_of_map_eq (fun t : Tx => (t.Id, t.Messages.map Message.bare, t.Events))
    (fun t : Tx => (t.Id, t.Messages.map Message.bare, t.Events)) (fun x => x.2.2) _ _
    (storeNsIdsTx_messages _ _ 0)

theorem afterMessages_events (F : Stringers) (ord : RangeOrder) (txs : List Tx)
    (parsed : StrMap Address) (addrIds nsIds msgIds : List Nat) :
    txEvents (afterMessages F ord txs parsed addrIds nsIds msgIds) =
      txs.flatMap stampedEvents := by
  rw [← afterNamespaces_events F ord txs parsed addrIds nsIds, txEvents_eq, txEvents_eq]
  exact flatMap_of_map_eq (fun t : Tx => (t.Id, t.Events))
    (fun t : Tx => (t.Id, t.Events)) (fun x => x.2) _ _
    (storeMessageIds_events _ _)

/-! ### When the optional calls are made -/

theorem storeTxIds_any (p : Tx → Bool) (hp : ∀ (t : Tx) (id : Nat), p { t with Id := id } = p t)
    (l : List Tx) : ∀ ids : List Nat, (storeTxIds l ids).any p = l.any p := by
  induction l with
  | nil => intro ids; cases ids <;> rfl
  | cons t rest ih =>
    intro ids
    cases ids with
    | nil => rfl
    | cons id ids => simp [storeTxIds, ih, hp]

theorem contains_ne_nil {α : Type} (m : StrMap α) (k : String) (h : m.contains k = true) :
    m ≠ [] := by
  intro e
  rw [e] at h
  simp [StrMap.contains] at h

theorem addressLoop_eq_nil (F : Stringers) (i : Nat) (l : List AddressWithType) :
    ∀ (j : Nat) (a : StrMap AddrPtr), addressLoop F i j l a = [] ↔ a = [] ∧ l = [] := by
  induction l with
  | nil => intro j a; simp [addressLoop]
  | cons x rest ih =>
    intro j a
    simp only [addressLoop]
    split
    · rename_i hc
      rw [ih]
      have := contains_ne_nil a _ hc
      simp [this]
    · rw [ih]
      simp

theorem txLoop_addresses_eq_nil (F : Stringers) (l : List Tx) :
    ∀ (i : Nat) (m : StrMap NsPtr) (a : StrMap AddrPtr),
      (txLoop F i l m a).2.2 = [] ↔ a = [] ∧ ∀ t ∈ l, t.Addresses = [] := by
  induction l with
  | nil => intro i m a; simp [txLoop]
  | cons t rest ih =>
    intro i m a
    simp only [txLoop, ih, addressLoop_eq_nil, List.mem_cons, forall_eq_or_imp]
    tauto

theorem parsedMap_eq_nil (l : StrMap Address) : ∀ n : Nat, parsedMap n l = [] ↔ l = [] := by
  intro n
  cases l <;> simp [parsedMap]

theorem walk_addresses_pos (F : Stringers) (txs : List Tx) (parsed : StrMap Address) :
    (walk F txs parsed).2.2.length > 0 ↔
      (!parsed.isEmpty || txs.any fun t => !t.Addresses.isEmpty) = true := by
  rw [gt_iff_lt, List.length_pos, Ne, walk, txLoop_addresses_eq_nil, parsedMap_eq_nil]
  simp only [Bool.or_eq_true, Bool.not_eq_true', List.isEmpty_eq_false, List.any_eq_true]
  constructor
  · intro h
    by_cases hp : parsed = []
    · right
      by_contra hc
      apply h
      refine ⟨hp, fun t ht => ?_⟩
      by_contra hne
      exact hc ⟨t, ht, by simpa [List.isEmpty_iff] using hne⟩
    · exact Or.inl hp
  · rintro (h | ⟨t, ht, hne⟩) ⟨hp, hall⟩
    · exact h hp
    · rw [hall t ht] at hne
      simp at hne

theorem firstOccurrences_eq_nil (F : Stringers) (l : List (NsPtr × Namespace)) :
    firstOccurrences F l = [] ↔ l = [] := by
  cases l <;> simp [firstOccurrences]

theorem namespaceRefs_eq_nil (txs : List Tx) :
    namespaceRefs txs = [] ↔ ∀ t ∈ txs, ∀ m ∈ t.Messages, m.Namespace = [] := by
  have h : namespaceRefs txs = [] ↔ (namespaceRefs txs).map Prod.snd = [] := by simp
  rw [h, ← allMessages_namespaces, allMessages_eq]
  simp only [List.flatMap_eq_nil_iff, List.mem_flatMap, forall_exists_index, and_imp]
  exact ⟨fun h t ht m hm => h m t ht hm, fun h m t ht hm => h t ht m hm⟩

theorem walk_namespaces_pos (F : Stringers) (txs : List Tx) (parsed : StrMap Address) :
    (walk F txs parsed).2.1.length > 0 ↔
      (txs.any fun t => t.Messages.any fun m => !m.Namespace.isEmpty) = true := by
  rw [walk_namespaces, List.length_map, gt_iff_lt, List.length_pos, Ne, firstOccurrences_eq_nil,
    namespaceRefs_eq_nil]
  simp only [List.any_eq_true, Bool.not_eq_true', List.isEmpty_eq_false]
  constructor
  · intro h
    by_contra hc
    apply h
    intro t ht m hm
    by_contra hne
    exact hc ⟨t, ht, m, hm, hne⟩
  · rintro ⟨t, ht, m, hm, hne⟩ hall
    exact hne (hall t ht m hm)

theorem flatMap_map_pos {α β : Type} (l : List α) (f : α → List β) :
    (l.flatMap f).length > 0 ↔ (l.any fun t => !(f t).isEmpty) = true := by
  rw [gt_iff_lt, List.length_pos, Ne, List.flatMap_eq_nil_iff]
  simp only [List.any_eq_true, Bool.not_eq_true', List.isEmpty_eq_false]
  constructor
  · intro h
    by_contra hc
    apply h
    intro t ht
    by_contra hne
    exact hc ⟨t, ht, hne⟩
  · rintro ⟨t, ht, hne⟩ hall
    exact hne (hall t ht)

theorem messages_pos (F : Stringers) (ord : RangeOrder) (txs : List Tx)
    (parsed : StrMap Address) (addrIds nsIds : List Nat) :
    (allMessages (afterNamespaces F ord txs parsed addrIds nsIds)).length > 0 ↔
      (txs.any fun t => !t.Messages.isEmpty) = true := by
  have h : (allMessages (afterNamespaces F ord txs parsed addrIds nsIds)).length =
      (txs.flatMap stampedMessages).length := by
    rw [← afterNamespaces_messages F ord txs parsed addrIds nsIds, List.length_map]
  rw [h, flatMap_map_pos]
  simp [stampedMessages, List.isEmpty_iff]

theorem events_pos (F : Stringers) (ord : RangeOrder) (txs : List Tx)
    (parsed : StrMap Address) (addrIds nsIds msgIds : List Nat) (events : List Event) :
    (allEvents events (afterMessages F ord txs parsed addrIds nsIds msgIds)).length > 0 ↔
      (!events.isEmpty || txs.any fun t => !t.Events.isEmpty) = true := by
  have h : (txs.flatMap stampedEvents).length > 0 ↔
      (txs.any fun t => !t.Events.isEmpty) = true := by
    rw [flatMap_map_pos]
    simp [stampedEvents, List.isEmpty_iff]
  rw [allEvents, afterMessages_events, List.length_append, Bool.or_eq_true, ← h]
  cases events <;> simp

theorem save_success {σ : Type} (tx : Transaction σ) (F : Stringers) (ord : RangeOrder)
    (indexerName : String) (s : σ) (data : parsedData)
    (h : Clean (save tx F ord indexerName s data).trace) :
    ∃ txIds addrIds nsIds msgIds : List Nat,
      (save tx F ord indexerName s data).err = none ∧
      (save tx F ord indexerName s data).block =
        { data.block with
          Txs := afterMessages F ord (storeTxIds data.block.Txs txIds) data.addresses addrIds
            nsIds msgIds } ∧
      (save tx F ord indexerName s data).trace.map (·.call) =
        [.BeginTransaction, .AddBlock data.block, .AddStats data.block.Stats,
            .SaveTransactions data.block.Txs] ++
          (if (walk F (storeTxIds data.block.Txs txIds) data.addresses).2.2.length > 0 then
            [.SaveAddresses (addressEntities ord data.addresses
              (walk F (storeTxIds data.block.Txs txIds) data.addresses).1
              (walk F (storeTxIds data.block.Txs txIds) data.addresses).2.2)] else []) ++
          (if (walk F (storeTxIds data.block.Txs txIds) data.addresses).2.1.length > 0 then
            [.SaveNamespaces (namespaceEntities ord
              (afterAddresses F ord (storeTxIds data.block.Txs txIds) data.addresses addrIds)
              (walk F (storeTxIds data.block.Txs txIds) data.addresses).2.1)]
            else []) ++
          (if (allMessages (afterNamespaces F ord (storeTxIds data.block.Txs txIds)
              data.addresses addrIds nsIds)).length > 0
            then [.BulkSaveMessages (allMessages (afterNamespaces F ord
              (storeTxIds data.block.Txs txIds) data.addresses addrIds nsIds))] else []) ++
          (if (allEvents data.block.Events (afterMessages F ord
              (storeTxIds data.block.Txs txIds) data.addresses addrIds nsIds msgIds)).length > 0
            then [.BulkSaveEvents (allEvents data.block.Events (afterMessages F ord
              (storeTxIds data.block.Txs txIds) data.addresses addrIds nsIds msgIds))]
            else []) ++
          [.SaveNamespaceMessage (namespaceMsgs (allMessages (afterMessages F ord
              (storeTxIds data.block.Txs txIds) data.addresses addrIds nsIds msgIds))),
            .SaveTxAddresses (txAddresses (afterMessages F ord
              (storeTxIds data.block.Txs txIds) data.addresses addrIds nsIds msgIds)),
            .AddState (stateRow indexerName data.block), .Flush, .Close] := by
  revert h
  simp only [save]
  split
  · rename_i err h0
    intro h
    have := h _ (List.mem_singleton.2 rfl)
    cases this
  · split
    · rename_i err h1
      rw [h1]
      intro h
      exact absurd h (not_clean_abort tx _ _ _ _ _)
    · split
      · rename_i err h2
        rw [h2]
        intro h
        exact absurd h (not_clean_abort tx _ _ _ _ _)
      · split
        · rename_i err h3
          rw [h3]
          intro h
          exact absurd h (not_clean_abort tx _ _ _ _ _)
        · intro h
          obtain ⟨addrIds, nsIds, msgIds, h1, h2, h3⟩ :=
            saveBody_success tx F ord indexerName _ _ _ _ h
          exact ⟨_, addrIds, nsIds, msgIds, h1, h2, by rw [h3]; rfl⟩

/-- Claim C12: when no call answers an error, `save` returns no error and its calls are, in this
order: `BeginTransaction`, `Add` of the block, `Add` of its stats, `SaveTransactions`,
`SaveAddresses` if the map of addresses has an entry, `SaveNamespaces` if a message references a
namespace, `BulkSave` of the messages if there is one, `BulkSave` of the events if there is one,
`SaveNamespaceMessage`, `SaveTxAddresses`, `Add` of the state row, `Flush`, and the deferred
`Close`; the writes among them are this sequence without its first and last call. -/
theorem write_order {σ : Type} (tx : Transaction σ) (F : Stringers) (ord : RangeOrder)
    (indexerName : String) (s : σ) (data : parsedData)
    (h : ∀ e ∈ (save tx F ord indexerName s data).trace, e.err = none) :
    (save tx F ord indexerName s data).err = none ∧
      ∃ (addresses : List (AddrPtr × Address)) (namespaces : List (NsPtr × Namespace))
        (messages : List Message) (events : List Event) (rows : List NamespaceMessage)
        (txRows : List TxAddress),
        (save tx F ord indexerName s data).trace.map (·.call) =
            .BeginTransaction ::
              ([.AddBlock data.block, .AddStats data.block.Stats,
                  .SaveTransactions data.block.Txs] ++
                (if hasAddresses data then [.SaveAddresses addresses] else []) ++
                (if hasNamespaces data.block then [.SaveNamespaces namespaces] else []) ++
                (if hasMessages data.block then [.BulkSaveMessages messages] else []) ++
                (if hasEvents data.block then [.BulkSaveEvents events] else []) ++
                [.SaveNamespaceMessage rows, .SaveTxAddresses txRows,
                  .AddState (stateRow indexerName data.block), .Flush]) ++ [.Close] ∧
          ((save tx F ord indexerName s data).trace.map (·.call)).filter Call.isWrite =
            [.AddBlock data.block, .AddStats data.block.Stats,
                .SaveTransactions data.block.Txs] ++
              (if hasAddresses data then [.SaveAddresses addresses] else []) ++
              (if hasNamespaces data.block then [.SaveNamespaces namespaces] else []) ++
              (if hasMessages data.block then [.BulkSaveMessages messages] else []) ++
              (if hasEvents data.block then [.BulkSaveEvents events] else []) ++
              [.SaveNamespaceMessage rows, .SaveTxAddresses txRows,
                .AddState (stateRow indexerName data.block), .Flush] := by
  obtain ⟨txIds, addrIds, nsIds, msgIds, h1, -, h3⟩ := save_success tx F ord indexerName s data h
  have cA : (walk F (storeTxIds data.block.Txs txIds) data.addresses).2.2.length > 0 ↔
      hasAddresses data = true := by
    rw [walk_addresses_pos, hasAddresses,
      storeTxIds_any (fun t => !t.Addresses.isEmpty) (fun _ _ => rfl)]
  have cN : (walk F (storeTxIds data.block.Txs txIds) data.addresses).2.1.length > 0 ↔
      hasNamespaces data.block = true := by
    rw [walk_namespaces_pos, hasNamespaces,
      storeTxIds_any (fun t => t.Messages.any fun m => !m.Namespace.isEmpty) (fun _ _ => rfl)]
  have cM : (allMessages (afterNamespaces F ord (storeTxIds data.block.Txs txIds)
      data.addresses addrIds nsIds)).length > 0 ↔ hasMessages data.block = true := by
    rw [messages_pos, hasMessages,
      storeTxIds_any (fun t => !t.Messages.isEmpty) (fun _ _ => rfl)]
  have cE : (allEvents data.block.Events (afterMessages F ord
      (storeTxIds data.block.Txs txIds) data.addresses addrIds nsIds msgIds)).length > 0 ↔
      hasEvents data.block = true := by
    rw [events_pos, hasEvents, storeTxIds_any (fun t => !t.Events.isEmpty) (fun _ _ => rfl)]
  refine ⟨h1,
    addressEntities ord data.addresses (walk F (storeTxIds data.block.Txs txIds) data.addresses).1
      (walk F (storeTxIds data.block.Txs txIds) data.addresses).2.2,
    namespaceEntities ord
      (afterAddresses F ord (storeTxIds data.block.Txs txIds) data.addresses addrIds)
      (walk F (storeTxIds data.block.Txs txIds) data.addresses).2.1,
    allMessages (afterNamespaces F ord (storeTxIds data.block.Txs txIds) data.addresses addrIds
      nsIds),
    allEvents data.block.Events (afterMessages F ord (storeTxIds data.block.Txs txIds)
      data.addresses addrIds nsIds msgIds),
    namespaceMsgs (allMessages (afterMessages F ord (storeTxIds data.block.Txs txIds)
      data.addresses addrIds nsIds msgIds)),
    txAddresses (afterMessages F ord (storeTxIds data.block.Txs txIds) data.addresses addrIds
      nsIds msgIds), ?_, ?_⟩
  · rw [h3]
    simp only [if_congr cA rfl rfl, if_congr cN rfl rfl, if_congr cM rfl rfl,
      if_congr cE rfl rfl, List.cons_append, List.nil_append, List.append_assoc]
  · rw [h3]
    simp only [if_congr cA rfl rfl, if_congr cN rfl rfl, if_congr cM rfl rfl,
      if_congr cE rfl rfl]
    by_cases a : hasAddresses data = true <;> by_cases b : hasNamespaces data.block = true <;>
      by_cases c : hasMessages data.block = true <;>
      by_cases d : hasEvents data.block = true <;>
      simp [a, b, c, d, Call.isWrite]

theorem write_order_witness :
    (save (sampleStore none) sampleStringers sampleOrder "indexer" 0 sampleData).err = none ∧
      ∃ (addresses : List (AddrPtr × Address)) (namespaces : List (NsPtr × Namespace))
        (messages : List Message) (events : List Event) (rows : List NamespaceMessage)
        (txRows : List TxAddress),
        (save (sampleStore none) sampleStringers sampleOrder "indexer" 0
            sampleData).trace.map (·.call) =
            .BeginTransaction ::
              ([.AddBlock sampleData.block, .AddStats sampleData.block.Stats,
                  .SaveTransactions sampleData.block.Txs] ++
                (if hasAddresses sampleData then [.SaveAddresses addresses] else []) ++
                (if hasNamespaces sampleData.block then [.SaveNamespaces namespaces] else []) ++
                (if hasMessages sampleData.block then [.BulkSaveMessages messages] else []) ++
                (if hasEvents sampleData.block then [.BulkSaveEvents events] else []) ++
                [.SaveNamespaceMessage rows, .SaveTxAddresses txRows,
                  .AddState (stateRow "indexer" sampleData.block), .Flush]) ++ [.Close] ∧
          ((save (sampleStore none) sampleStringers sampleOrder "indexer" 0
              sampleData).trace.map (·.call)).filter Call.isWrite =
            [.AddBlock sampleData.block, .AddStats sampleData.block.Stats,
                .SaveTransactions sampleData.block.Txs] ++
              (if hasAddresses sampleData then [.SaveAddresses addresses] else []) ++
              (if hasNamespaces sampleData.block then [.SaveNamespaces namespaces] else []) ++
              (if hasMessages sampleData.block then [.BulkSaveMessages messages] else []) ++
              (if hasEvents sampleData.block then [.BulkSaveEvents events] else []) ++
              [.SaveNamespaceMessage rows, .SaveTxAddresses txRows,
                .AddState (stateRow "indexer" sampleData.block), .Flush] :=
  write_order (sampleStore none) sampleStringers sampleOrder "indexer" 0 sampleData (by decide)

/-! ### The table of the indexer state -/

theorem addressesStep_rows {σ : Type} {tx : Transaction σ} {rows : σ → List State}
    (T : StateTable tx rows) (s : σ) (addresses : StrMap AddrPtr)
    (entities : List (AddrPtr × Address)) :
    rows (addressesStep tx s addresses entities).1 = rows s := by
  simp only [addressesStep]
  split
  · exact T.SaveAddresses _ _
  · rfl

theorem namespacesStep_rows {σ : Type} {tx : Transaction σ} {rows : σ → List State}
    (T : StateTable tx rows) (s : σ) (namespaces : StrMap NsPtr)
    (entities : List (NsPtr × Namespace)) :
    rows (namespacesStep tx s namespaces entities).1 = rows s := by
  simp only [namespacesStep]
  split
  · exact T.SaveNamespaces _ _
  · rfl

theorem messagesStep_rows {σ : Type} {tx : Transaction σ} {rows : σ → List State}
    (T : StateTable tx rows) (s : σ) (messages : List Message) :
    rows (messagesStep tx s messages).1 = rows s := by
  simp only [messagesStep]
  split
  · exact T.BulkSaveMessages _ _
  · rfl

theorem eventsStep_rows {σ : Type} {tx : Transaction σ} {rows : σ → List State}
    (T : StateTable tx rows) (s : σ) (events : List Event) :
    rows (eventsStep tx s events).1 = rows s := by
  simp only [eventsStep]
  split
  · exact T.BulkSaveEvents _ _
  · rfl

theorem saveTail_rows {σ : Type} {tx : Transaction σ} {rows : σ → List State}
    (T : StateTable tx rows) (indexerName : String) (log : List Entry) (s : σ) (block : Block)
    (h : Clean (saveTail tx indexerName log s block).trace) :
    (∀ r ∈ rows s, r.Name ≠ indexerName) ∧
      rows (saveTail tx indexerName log s block).store =
        rows s ++ [stateRow indexerName block] := by
  revert h
  simp only [saveTail]
  split
  · rename_i err h1
    rw [h1]
    intro h
    exact absurd h (not_clean_abort tx _ _ _ _ _)
  · split
    · rename_i err h2
      rw [h2]
      intro h
      exact absurd h (not_clean_abort tx _ _ _ _ _)
    · split
      · rename_i err h3
        rw [h3]
        intro h
        exact absurd h (not_clean_abort tx _ _ _ _ _)
      · split
        · rename_i err h4
          rw [h4]
          intro h
          exact absurd h (not_clean_abort tx _ _ _ _ _)
        · rename_i _ h1 _ h2 _ h3 _ h4
          intro _
          have hu := T.unique _ _ h3
          rw [T.SaveTxAddresses, T.SaveNamespaceMessage] at hu
          refine ⟨hu, ?_⟩
          simp only [T.Close, T.Flush, T.added _ _ h3, T.SaveTxAddresses,
            T.SaveNamespaceMessage]

theorem saveBody_rows {σ : Type} {tx : Transaction σ} {rows : σ → List State}
    (T : StateTable tx rows) (F : Stringers) (ord : RangeOrder) (indexerName : String)
    (log : List Entry) (s : σ) (block : Block) (parsed : StrMap Address)
    (h : Clean (saveBody tx F ord indexerName log s block parsed).trace) :
    (∀ r ∈ rows s, r.Name ≠ indexerName) ∧
      rows (saveBody tx F ord indexerName log s block parsed).store =
        rows s ++ [stateRow indexerName block] := by
  revert h
  simp only [saveBody]
  split
  · rename_i err h1
    intro h
    exact absurd h ((addressesStep_shape _ _ _ _ _ h1).not_clean tx _ _ _)
  · split
    · rename_i err h2
      intro h
      exact absurd h ((namespacesStep_shape _ _ _ _ _ h2).not_clean tx _ _ _)
    · split
      · rename_i err h3
        intro h
        exact absurd h ((messagesStep_shape _ _ _ _ h3).not_clean tx _ _ _)
      · split
        · rename_i err h4
          intro h
          exact absurd h ((eventsStep_shape _ _ _ _ h4).not_clean tx _ _ _)
        · intro h
          have ht := saveTail_rows T indexerName _ _ _ h
          simp only [eventsStep_rows T, messagesStep_rows T, namespacesStep_rows T,
            addressesStep_rows T] at ht
          exact ht

theorem save_rows {σ : Type} {tx : Transaction σ} {rows : σ → List State}
    (T : StateTable tx rows) (F : Stringers) (ord : RangeOrder) (indexerName : String) (s : σ)
    (data : parsedData) (h : Clean (save tx F ord indexerName s data).trace) :
    (∀ r ∈ rows s, r.Name ≠ indexerName) ∧
      rows (save tx F ord indexerName s data).store =
        rows s ++ [stateRow indexerName data.block] := by
  revert h
  simp only [save]
  split
  · rename_i err h0
    intro h
    have := h _ (List.mem_singleton.2 rfl)
    cases this
  · split
    · rename_i err h1
      rw [h1]
      intro h
      exact absurd h (not_clean_abort tx _ _ _ _ _)
    · split
      · rename_i err h2
        rw [h2]
        intro h
        exact absurd h (not_clean_abort tx _ _ _ _ _)
      · split
        · rename_i err h3
          rw [h3]
          intro h
          exact absurd h (not_clean_abort tx _ _ _ _ _)
        · intro h
          have hb := saveBody_rows T F ord indexerName _ _ _ _ h
          simp only [T.SaveTransactions, T.AddStats, T.AddBlock, T.BeginTransaction] at hb
          exact hb

theorem previousTotals_none (rows : List State) (name : String)
    (h : ∀ r ∈ rows, r.Name ≠ name) :
    previousTotals rows name = (0, Decimal.zero, Decimal.zero, 0) := by
  have : rows.find? (fun r => decide (r.Name = name)) = none := by
    rw [List.find?_eq_none]
    intro r hr
    simpa using h r hr
  simp only [previousTotals, this]

/-- Claim C13: when no call answers an error, `save` adds one row of the indexer state, with the
name of the indexer, the height, time, hash and chain id of the block, and as totals the tx
count, supply change, fee and blobs size of the stats of the block; these fields of the block are
what they were at the call.  With a table of the indexer state in which `Name` is unique, the
table had no row of the indexer before the save and has the new row after it, so that each total
of the row is the total the table held before, which is zero, incremented by the stat of the
block. -/
theorem state_row {σ : Type} (tx : Transaction σ) (F : Stringers) (ord : RangeOrder)
    (indexerName : String) (s : σ) (data : parsedData)
    (h : ∀ e ∈ (save tx F ord indexerName s data).trace, e.err = none) :
    ((save tx F ord indexerName s data).trace.map (·.call)).filter Call.isAddState =
        [.AddState
          { Name := indexerName
            LastHeight := data.block.Height
            LastTime := data.block.Time
            LastHash := data.block.Hash
            ChainId := data.block.ChainId
            TotalTx := data.block.Stats.TxCount
            TotalSupply := data.block.Stats.SupplyChange
            TotalFee := data.block.Stats.Fee
            TotalBlobsSize := data.block.Stats.BlobsSize }] ∧
      (save tx F ord indexerName s data).block.Height = data.block.Height ∧
      (save tx F ord indexerName s data).block.Time = data.block.Time ∧
      (save tx F ord indexerName s data).block.Hash = data.block.Hash ∧
      (save tx F ord indexerName s data).block.ChainId = data.block.ChainId ∧
      (save tx F ord indexerName s data).block.Stats = data.block.Stats ∧
      ∀ rows : σ → List State, StateTable tx rows →
        (∀ r ∈ rows s, r.Name ≠ indexerName) ∧
          rows (save tx F ord indexerName s data).store =
            rows s ++ [stateRow indexerName data.block] ∧
          (stateRow indexerName data.block).TotalTx =
            (previousTotals (rows s) indexerName).1 + data.block.Stats.TxCount ∧
          (stateRow indexerName data.block).TotalSupply.toRat =
            (previousTotals (rows s) indexerName).2.1.toRat +
              data.block.Stats.SupplyChange.toRat ∧
          (stateRow indexerName data.block).TotalFee.toRat =
            (previousTotals (rows s) indexerName).2.2.1.toRat + data.block.Stats.Fee.toRat ∧
          (stateRow indexerName data.block).TotalBlobsSize =
            (previousTotals (rows s) indexerName).2.2.2 + data.block.Stats.BlobsSize := by
  obtain ⟨txIds, addrIds, nsIds, msgIds, -, h2, h3⟩ := save_success tx F ord indexerName s data h
  refine ⟨?_, by rw [h2], by rw [h2], by rw [h2], by rw [h2], by rw [h2], ?_⟩
  · rw [h3]
    simp only [List.filter_append]
    have e1 : ∀ (c : Prop) [Decidable c] (x : Call), x.isAddState = false →
        List.filter Call.isAddState (if c then [x] else []) = [] := by
      intro c _ x hx
      split <;> simp [hx]
    rw [e1 _ (.SaveAddresses _) rfl, e1 _ (.SaveNamespaces _) rfl,
      e1 _ (.BulkSaveMessages _) rfl, e1 _ (.BulkSaveEvents _) rfl]
    simp [Call.isAddState, stateRow]
  · intro rows T
    obtain ⟨hu, hr⟩ := save_rows T F ord indexerName s data h
    refine ⟨hu, hr, ?_⟩
    rw [previousTotals_none _ _ hu]
    simp [stateRow, Decimal.toRat, Decimal.zero]

/-- Witness of C13: the row that a run on the sample block adds; and, with the sample table
holding the row of another indexer, the table after the save of the indexer "genesis". -/
theorem state_row_witness :
    ((save (sampleStore none) sampleStringers sampleOrder "indexer" 0
        sampleData).trace.map (·.call)).filter Call.isAddState =
        [.AddState ⟨"indexer", 1000, 7, [9], "celestia", 2, Decimal.zero, ⟨3, 0⟩, 20⟩] ∧
      (save stateStore sampleStringers sampleOrder "genesis" [sampleState] sampleData).store =
        [sampleState] ++ [stateRow "genesis" sampleData.block] ∧
      (stateRow "genesis" sampleData.block).TotalTx =
        (previousTotals [sampleState] "genesis").1 + sampleData.block.Stats.TxCount :=
  ⟨(state_row (sampleStore none) sampleStringers sampleOrder "indexer" 0 sampleData
      (by decide)).1,
    ((state_row stateStore sampleStringers sampleOrder "genesis" [sampleState] sampleData
      (by decide)).2.2.2.2.2.2 (fun rows => rows)
      ⟨fun _ => rfl, fun _ _ => rfl, fun _ _ => rfl, fun _ _ => rfl, fun _ _ => rfl,
        fun _ _ => rfl, fun _ _ => rfl, fun _ _ => rfl, fun _ _ => rfl, fun _ _ => rfl,
        by
          intro s row h r hr hn
          simp only [stateStore] at h
          split at h
          · cases h
          · rename_i hc
            exact hc (List.any_eq_true.2 ⟨r, hr, by simpa using hn⟩),
        by
          intro s row h
          simp only [stateStore] at h ⊢
          split at h
          · cases h
          · rename_i hc
            simp [hc],
        fun _ => rfl, fun _ => rfl⟩).2.1,
    ((state_row stateStore sampleStringers sampleOrder "genesis" [sampleState] sampleData
      (by decide)).2.2.2.2.2.2 (fun rows => rows)
      ⟨fun _ => rfl, fun _ _ => rfl, fun _ _ => rfl, fun _ _ => rfl, fun _ _ => rfl,
        fun _ _ => rfl, fun _ _ => rfl, fun _ _ => rfl, fun _ _ => rfl, fun _ _ => rfl,
        by
          intro s row h r hr hn
          simp only [stateStore] at h
          split at h
          · cases h
          · rename_i hc
            exact hc (List.any_eq_true.2 ⟨r, hr, by simpa using hn⟩),
        by
          intro s row h
          simp only [stateStore] at h ⊢
          split at h
          · cases h
          · rename_i hc
            simp [hc],
        fun _ => rfl, fun _ => rfl⟩).2.2.1⟩

/-! ### The batches of the bulk inserts -/

theorem saveBody_batches {σ : Type} (tx : Transaction σ) (F : Stringers) (ord : RangeOrder)
    (indexerName : String) (log : List Entry) (s : σ) (block : Block)
    (parsed : StrMap Address) :
    ∀ e ∈ (saveBody tx F ord indexerName log s block parsed).trace,
      e ∈ log ∨ e.call.kind = 4 ∨ e.call.kind = 5 ∨
        (∃ addrIds nsIds, e.call = .BulkSaveMessages
          (allMessages (afterNamespaces F ord block.Txs parsed addrIds nsIds))) ∨
        (∃ addrIds nsIds msgIds, e.call = .BulkSaveEvents
          (allEvents block.Events (afterMessages F ord block.Txs parsed addrIds nsIds msgIds))) ∨
        8 ≤ e.call.kind := by
  intro e
  have hA : ∀ {l : List Entry}, e ∈ log ++ l → (∀ x ∈ l, x.call.kind = 4) →
      e ∈ log ∨ e.call.kind = 4 := by
    intro l h hl
    rcases List.mem_append.1 h with h | h
    · exact Or.inl h
    · exact Or.inr (hl e h)
  have kA : ∀ x ∈ (addressesStep tx s (walk F block.Txs parsed).2.2
      (addressEntities ord parsed (walk F block.Txs parsed).1
        (walk F block.Txs parsed).2.2)).2.1, x.call.kind = 4 := by
    intro x hx
    rw [addressesStep_mem tx s _ _ x hx]
    rfl
  have kN : ∀ {s' : σ} {m : StrMap NsPtr} {es : List (NsPtr × Namespace)},
      e ∈ (namespacesStep tx s' m es).2.1 → e.call.kind = 5 := by
    intro s' m es h
    rw [namespacesStep_mem tx _ _ _ e h]
    rfl
  simp only [saveBody]
  split
  · intro he
    rcases abort_mem tx _ _ _ _ e he with h | h
    · rcases hA h kA with h | h
      · exact Or.inl h
      · exact Or.inr (Or.inl h)
    · right; right; right; right; right; omega
  · split
    · intro he
      rcases abort_mem tx _ _ _ _ e he with h | h
      · rcases List.mem_append.1 h with h | h
        · rcases hA h kA with h | h
          · exact Or.inl h
          · exact Or.inr (Or.inl h)
        · exact Or.inr (Or.inr (Or.inl (kN h)))
      · right; right; right; right; right; omega
    · split
      · intro he
        rcases abort_mem tx _ _ _ _ e he with h | h
        · rcases List.mem_append.1 h with h | h
          · rcases List.mem_append.1 h with h | h
            · rcases hA h kA with h | h
              · exact Or.inl h
              · exact Or.inr (Or.inl h)
            · exact Or.inr (Or.inr (Or.inl (kN h)))
          · right; right; right; left
            exact ⟨_, _, messagesStep_mem tx _ _ e h⟩
        · right; right; right; right; right; omega
      · split
        · intro he
          rcases abort_mem tx _ _ _ _ e he with h | h
          · rcases List.mem_append.1 h with h | h
            · rcases List.mem_append.1 h with h | h
              · rcases List.mem_append.1 h with h | h
                · rcases hA h kA with h | h
                  · exact Or.inl h
                  · exact Or.inr (Or.inl h)
                · exact Or.inr (Or.inr (Or.inl (kN h)))
              · right; right; right; left
                exact ⟨_, _, messagesStep_mem tx _ _ e h⟩
            · right; right; right; right; left
              exact ⟨_, _, _, eventsStep_mem tx _ _ e h⟩
          · right; right; right; right; right; omega
        · intro he
          rcases saveTail_mem tx _ _ _ _ e he with h | h | h
          · rcases List.mem_append.1 h with h | h
            · rcases List.mem_append.1 h with h | h
              · rcases List.mem_append.1 h with h | h
                · rcases hA h kA with h | h
                  · exact Or.inl h
                  · exact Or.inr (Or.inl h)
                · exact Or.inr (Or.inr (Or.inl (kN h)))
              · right; right; right; left
                exact ⟨_, _, messagesStep_mem tx _ _ e h⟩
            · right; right; right; right; left
              exact ⟨_, _, _, eventsStep_mem tx _ _ e h⟩
          · right; right; right; right; right
            simp [h, Call.kind]
          · right; right; right; right; right; omega

theorem saveBody_block_events {σ : Type} (tx : Transaction σ) (F : Stringers)
    (ord : RangeOrder) (indexerName : String) (log : List Entry) (s : σ) (block : Block)
    (parsed : StrMap Address) :
    (saveBody tx F ord indexerName log s block parsed).block.Events = block.Events := by
  simp only [saveBody]
  split
  · rfl
  · split
    · rfl
    · split
      · rfl
      · split
        · rfl
        · rw [saveTail_block]

theorem save_block_events {σ : Type} (tx : Transaction σ) (F : Stringers) (ord : RangeOrder)
    (indexerName : String) (s : σ) (data : parsedData) :
    (save tx F ord indexerName s data).block.Events = data.block.Events := by
  simp only [save]
  split
  · rfl
  · split
    · rfl
    · split
      · rfl
      · split
        · rfl
        · rw [saveBody_block_events]

theorem save_batches {σ : Type} (tx : Transaction σ) (F : Stringers) (ord : RangeOrder)
    (indexerName : String) (s : σ) (data : parsedData) :
    ∀ e ∈ (save tx F ord indexerName s data).trace,
      (∀ messages, e.call = .BulkSaveMessages messages →
        messages.map Message.bare =
          (storeTxIds data.block.Txs (answeredTxIds tx s data)).flatMap stampedMessages) ∧
      ∀ events, e.call = .BulkSaveEvents events →
        events = data.block.Events ++
          (storeTxIds data.block.Txs (answeredTxIds tx s data)).flatMap stampedEvents := by
  intro e
  have none : ∀ l : List Entry, e ∈ l → (∀ x ∈ l, x.call.kind < 4 ∨ 8 ≤ x.call.kind) →
      (∀ messages, e.call = .BulkSaveMessages messages →
        messages.map Message.bare =
          (storeTxIds data.block.Txs (answeredTxIds tx s data)).flatMap stampedMessages) ∧
      ∀ events, e.call = .BulkSaveEvents events →
        events = data.block.Events ++
          (storeTxIds data.block.Txs (answeredTxIds tx s data)).flatMap stampedEvents := by
    intro l he hl
    have := hl e he
    constructor
    · intro messages hm
      rw [hm] at this
      simp [Call.kind] at this
    · intro events hm
      rw [hm] at this
      simp [Call.kind] at this
  simp only [save]
  split
  · intro he
    exact none _ he (by simp [Call.kind])
  · split
    · intro he
      exact none _ he (by simp [abort, Call.kind])
    · split
      · intro he
        exact none _ he (by simp [abort, Call.kind])
      · split
        · intro he
          exact none _ he (by simp [abort, Call.kind])
        · intro he
          rcases saveBody_batches tx F ord indexerName _ _ _ _ e he with
            h | h | h | ⟨a, n, h⟩ | ⟨a, n, m, h⟩ | h
          · exact none _ h (by simp [Call.kind])
          · constructor
            · intro messages hm
              rw [hm] at h
              simp [Call.kind] at h
            · intro events hm
              rw [hm] at h
              simp [Call.kind] at h
          · constructor
            · intro messages hm
              rw [hm] at h
              simp [Call.kind] at h
            · intro events hm
              rw [hm] at h
              simp [Call.kind] at h
          · constructor
            · intro messages hm
              rw [hm] at h
              simp only [Call.BulkSaveMessages.injEq] at h
              rw [h]
              exact afterNamespaces_messages F ord _ _ a n
            · intro events hm
              rw [hm] at h
              cases h
          · constructor
            · intro messages hm
              rw [hm] at h
              cases h
            · intro events hm
              rw [hm] at h
              simp only [Call.BulkSaveEvents.injEq] at h
              rw [h, allEvents, afterMessages_events]
              rfl
          · constructor
            · intro messages hm
              rw [hm] at h
              simp [Call.kind] at h
            · intro events hm
              rw [hm] at h
              simp [Call.kind] at h

theorem walk_stamped (F : Stringers) (txs : List Tx) (parsed : StrMap Address) :
    (walk F txs parsed).1.map (fun t => (t.Id, t.Messages.map Message.bare, t.Events)) =
      txs.map fun t => (t.Id, stampedMessages t, stampedEvents t) :=
  txLoop_stamped F txs 0 [] _

theorem walk_owner (F : Stringers) (txs : List Tx) (parsed : StrMap Address) :
    ∀ t ∈ (walk F txs parsed).1,
      (∀ m ∈ t.Messages, m.TxId = t.Id) ∧ ∀ e ∈ t.Events, e.TxId = some t.Id := by
  intro t ht
  have h := List.mem_map_of_mem
    (fun t : Tx => (t.Id, t.Messages.map Message.bare, t.Events)) ht
  rw [walk_stamped] at h
  obtain ⟨t0, -, h0⟩ := List.mem_map.1 h
  simp only [Prod.mk.injEq] at h0
  obtain ⟨hid, hm, he⟩ := h0
  constructor
  · intro m hmem
    have := List.mem_map_of_mem Message.bare hmem
    rw [← hm] at this
    simp only [stampedMessages, List.mem_map] at this
    obtain ⟨m0, -, e0⟩ := this
    have e1 : (Message.bare m).TxId = t0.Id := by rw [← e0]
    rw [← hid]
    exact e1
  · intro e hmem
    rw [← he] at hmem
    simp only [stampedEvents, List.mem_map] at hmem
    obtain ⟨e0, -, e1⟩ := hmem
    rw [← e1, hid]

theorem save_success_ids {σ : Type} (tx : Transaction σ) (F : Stringers) (ord : RangeOrder)
    (indexerName : String) (s : σ) (data : parsedData)
    (h : Clean (save tx F ord indexerName s data).trace) :
    ∃ addrIds nsIds msgIds : List Nat,
      (save tx F ord indexerName s data).trace.map (·.call) =
        [.BeginTransaction, .AddBlock data.block, .AddStats data.block.Stats,
            .SaveTransactions data.block.Txs] ++
          (if (walk F (storeTxIds data.block.Txs (answeredTxIds tx s data))
              data.addresses).2.2.length > 0 then
            [.SaveAddresses (addressEntities ord data.addresses
              (walk F (storeTxIds data.block.Txs (answeredTxIds tx s data)) data.addresses).1
              (walk F (storeTxIds data.block.Txs (answeredTxIds tx s data))
                data.addresses).2.2)] else []) ++
          (if (walk F (storeTxIds data.block.Txs (answeredTxIds tx s data))
              data.addresses).2.1.length > 0 then
            [.SaveNamespaces (namespaceEntities ord
              (afterAddresses F ord (storeTxIds data.block.Txs (answeredTxIds tx s data))
                data.addresses addrIds)
              (walk F (storeTxIds data.block.Txs (answeredTxIds tx s data))
                data.addresses).2.1)]
            else []) ++
          (if (allMessages (afterNamespaces F ord
              (storeTxIds data.block.Txs (answeredTxIds tx s data))
              data.addresses addrIds nsIds)).length > 0
            then [.BulkSaveMessages (allMessages (afterNamespaces F ord
              (storeTxIds data.block.Txs (answeredTxIds tx s data)) data.addresses addrIds
              nsIds))] else []) ++
          (if (allEvents data.block.Events (afterMessages F ord
              (storeTxIds data.block.Txs (answeredTxIds tx s data)) data.addresses addrIds nsIds
              msgIds)).length > 0
            then [.BulkSaveEvents (allEvents data.block.Events (afterMessages F ord
              (storeTxIds data.block.Txs (answeredTxIds tx s data)) data.addresses addrIds nsIds
              msgIds))]
            else []) ++
          [.SaveNamespaceMessage (namespaceMsgs (allMessages (afterMessages F ord
              (storeTxIds data.block.Txs (answeredTxIds tx s data)) data.addresses addrIds nsIds
              msgIds))),
            .SaveTxAddresses (txAddresses (afterMessages F ord
              (storeTxIds data.block.Txs (answeredTxIds tx s data)) data.addresses addrIds nsIds
              msgIds)),
            .AddState (stateRow indexerName data.block), .Flush, .Close] := by
  revert h
  simp only [save, answeredTxIds]
  split
  · rename_i err h0
    intro h
    have := h _ (List.mem_singleton.2 rfl)
    cases this
  · split
    · rename_i err h1
      rw [h1]
      intro h
      exact absurd h (not_clean_abort tx _ _ _ _ _)
    · split
      · rename_i err h2
        rw [h2]
        intro h
        exact absurd h (not_clean_abort tx _ _ _ _ _)
      · split
        · rename_i err h3
          rw [h3]
          intro h
          exact absurd h (not_clean_abort tx _ _ _ _ _)
        · intro h
          obtain ⟨addrIds, nsIds, msgIds, -, -, h3⟩ :=
            saveBody_success tx F ord indexerName _ _ _ _ h
          exact ⟨addrIds, nsIds, msgIds, by rw [h3]; rfl⟩

/-- Claim C14: the walk of `save` leaves every message with the identity of its transaction as
`TxId` and every event of a transaction with a reference to that identity, and changes nothing
else in them but the namespaces of the messages; the events of the block are never changed;
the batch of every `BulkSaveMessages` call is, namespaces apart, the messages of the
transactions in transaction order then message order, each once, stamped with the identity that
`SaveTransactions` answered for its transaction, and the batch of every `BulkSaveEvents` call is
the events of the block as given, then the stamped events of the transactions in order; and when
no call answers an error, `save` makes one `BulkSave` of such a batch of messages if the block
has a message, then one of such a batch of events if it has an event, and no other
`BulkSave`. -/
theorem foreign_keys {σ : Type} (tx : Transaction σ) (F : Stringers) (ord : RangeOrder)
    (indexerName : String) (s : σ) (data : parsedData) :
    (∀ (txs : List Tx) (parsed : StrMap Address),
      (walk F txs parsed).1.map (fun t => (t.Id, t.Messages.map Message.bare, t.Events)) =
          txs.map (fun t => (t.Id, stampedMessages t, stampedEvents t)) ∧
        ∀ t ∈ (walk F txs parsed).1,
          (∀ m ∈ t.Messages, m.TxId = t.Id) ∧ ∀ e ∈ t.Events, e.TxId = some t.Id) ∧
      (save tx F ord indexerName s data).block.Events = data.block.Events ∧
      (∀ e ∈ (save tx F ord indexerName s data).trace,
        (∀ messages, e.call = .BulkSaveMessages messages →
          messages.map Message.bare =
            (storeTxIds data.block.Txs (answeredTxIds tx s data)).flatMap stampedMessages) ∧
        ∀ events, e.call = .BulkSaveEvents events →
          events = data.block.Events ++
            (storeTxIds data.block.Txs (answeredTxIds tx s data)).flatMap stampedEvents) ∧
      ((∀ e ∈ (save tx F ord indexerName s data).trace, e.err = none) →
        ∃ (messages : List Message) (events : List Event),
          ((save tx F ord indexerName s data).trace.map (·.call)).filter Call.isBatch =
              (if hasMessages data.block then [.BulkSaveMessages messages] else []) ++
                (if hasEvents data.block then [.BulkSaveEvents events] else []) ∧
            messages.map Message.bare =
              (storeTxIds data.block.Txs (answeredTxIds tx s data)).flatMap stampedMessages ∧
            events = data.block.Events ++
              (storeTxIds data.block.Txs (answeredTxIds tx s data)).flatMap stampedEvents) := by
  refine ⟨fun txs parsed => ⟨walk_stamped F txs parsed, walk_owner F txs parsed⟩,
    save_block_events tx F ord indexerName s data,
    save_batches tx F ord indexerName s data, ?_⟩
  intro h
  obtain ⟨addrIds, nsIds, msgIds, h3⟩ := save_success_ids tx F ord indexerName s data h
  have cM : (allMessages (afterNamespaces F ord
      (storeTxIds data.block.Txs (answeredTxIds tx s data))
      data.addresses addrIds nsIds)).length > 0 ↔ hasMessages data.block = true := by
    rw [messages_pos, hasMessages,
      storeTxIds_any (fun t => !t.Messages.isEmpty) (fun _ _ => rfl)]
  have cE : (allEvents data.block.Events (afterMessages F ord
      (storeTxIds data.block.Txs (answeredTxIds tx s data)) data.addresses addrIds nsIds
      msgIds)).length > 0 ↔ hasEvents data.block = true := by
    rw [events_pos, hasEvents, storeTxIds_any (fun t => !t.Events.isEmpty) (fun _ _ => rfl)]
  refine ⟨allMessages (afterNamespaces F ord
      (storeTxIds data.block.Txs (answeredTxIds tx s data)) data.addresses addrIds nsIds),
    allEvents data.block.Events (afterMessages F ord
      (storeTxIds data.block.Txs (answeredTxIds tx s data)) data.addresses addrIds nsIds
      msgIds), ?_, afterNamespaces_messages F ord _ _ addrIds nsIds, by
        rw [allEvents, afterMessages_events]⟩
  rw [h3]
  have e1 : ∀ (c : Prop) [Decidable c] (x : Call), x.isBatch = false →
      List.filter Call.isBatch (if c then [x] else []) = [] := by
    intro c _ x hx
    split <;> simp [hx]
  have e2 : ∀ (c : Prop) [Decidable c] (x : Call), x.isBatch = true →
      List.filter Call.isBatch (if c then [x] else []) = if c then [x] else [] := by
    intro c _ x hx
    split <;> simp [hx]
  simp only [List.filter_append]
  rw [e1 _ (.SaveAddresses _) rfl, e1 _ (.SaveNamespaces _) rfl,
    e2 _ (.BulkSaveMessages _) rfl, e2 _ (.BulkSaveEvents _) rfl]
  simp only [if_congr cM rfl rfl, if_congr cE rfl rfl]
  simp [Call.isBatch]

/-- Witness of C14 on the sample block, where `SaveTransactions` answers the identities 11 and
12: the batch of the `BulkSaveMessages` call is the two messages of the first transaction with
`TxId` 11, then the message of the second with `TxId` 12; the batch of the `BulkSaveEvents` call
is the event of the block, left as given, then the event of the first transaction with a
reference to 11; and the run, in which no call answers an error, makes these two calls. -/
theorem foreign_keys_witness :
    (save (sampleStore none) sampleStringers sampleOrder "indexer" 0 sampleData).block.Events =
        [⟨0, 1000, 0, none⟩] ∧
      (⟨.BulkSaveMessages
          [⟨0, 1000, 7, 0, 11, [⟨32, 0, [5], 10, 1⟩, ⟨31, 0, [6], 10, 1⟩]⟩,
            ⟨0, 1000, 7, 0, 11, [⟨0, 0, [5], 10, 0⟩]⟩,
            ⟨0, 1000, 7, 0, 12, [⟨0, 0, [5], 10, 0⟩]⟩], none⟩ : Entry) ∈
        (save (sampleStore none) sampleStringers sampleOrder "indexer" 0 sampleData).trace ∧
      ([⟨0, 1000, 7, 0, 11, [⟨32, 0, [5], 10, 1⟩, ⟨31, 0, [6], 10, 1⟩]⟩,
          ⟨0, 1000, 7, 0, 11, [⟨0, 0, [5], 10, 0⟩]⟩,
          ⟨0, 1000, 7, 0, 12, [⟨0, 0, [5], 10, 0⟩]⟩] : List Message).map Message.bare =
        (storeTxIds sampleData.block.Txs
          (answeredTxIds (sampleStore none) 0 sampleData)).flatMap stampedMessages ∧
      (⟨.BulkSaveEvents [⟨0, 1000, 0, none⟩, ⟨0, 1000, 0, some 11⟩], none⟩ : Entry) ∈
        (save (sampleStore none) sampleStringers sampleOrder "indexer" 0 sampleData).trace ∧
      [(⟨0, 1000, 0, none⟩ : Event), ⟨0, 1000, 0, some 11⟩] =
        sampleData.block.Events ++
          (storeTxIds sampleData.block.Txs
            (answeredTxIds (sampleStore none) 0 sampleData)).flatMap stampedEvents ∧
      ∃ (messages : List Message) (events : List Event),
        ((save (sampleStore none) sampleStringers sampleOrder "indexer" 0
            sampleData).trace.map (·.call)).filter Call.isBatch =
            (if hasMessages sampleData.block then [.BulkSaveMessages messages] else []) ++
              (if hasEvents sampleData.block then [.BulkSaveEvents events] else []) ∧
          messages.map Message.bare =
            (storeTxIds sampleData.block.Txs
              (answeredTxIds (sampleStore none) 0 sampleData)).flatMap stampedMessages ∧
          events = sampleData.block.Events ++
            (storeTxIds sampleData.block.Txs
              (answeredTxIds (sampleStore none) 0 sampleData)).flatMap stampedEvents :=
  ⟨(foreign_keys (sampleStore none) sampleStringers sampleOrder "indexer" 0 sampleData).2.1,
    by decide,
    ((foreign_keys (sampleStore none) sampleStringers sampleOrder "indexer" 0 sampleData).2.2.1
      ⟨.BulkSaveMessages
        [⟨0, 1000, 7, 0, 11, [⟨32, 0, [5], 10, 1⟩, ⟨31, 0, [6], 10, 1⟩]⟩,
          ⟨0, 1000, 7, 0, 11, [⟨0, 0, [5], 10, 0⟩]⟩,
          ⟨0, 1000, 7, 0, 12, [⟨0, 0, [5], 10, 0⟩]⟩], none⟩ (by decide)).1 _ rfl,
    by decide,
    ((foreign_keys (sampleStore none) sampleStringers sampleOrder "indexer" 0 sampleData).2.2.1
      ⟨.BulkSaveEvents [⟨0, 1000, 0, none⟩, ⟨0, 1000, 0, some 11⟩], none⟩ (by decide)).2 _ rfl,
    (foreign_keys (sampleStore none) sampleStringers sampleOrder "indexer" 0 sampleData).2.2.2
      (by decide)⟩

end Indexer.genesis
